import Mathlib

/-!
# Virtual-memory manager (vm/vm.c, vm/anon.c, vm/file.c): a shallow embedding

Kernel state is an explicit record `VM`; every kernel routine is a function on
that record.  A routine that can stop the kernel (a dereference of a null
pointer, a failed `ASSERT`, a call through a null function pointer) returns
`Option`, with `none` standing for the kernel stop.  Nullable C pointers are
`Option` identifiers; page and frame records live in two stores indexed by
identifier (the value `malloc` returned).  Addresses and `size_t` values are
natural numbers, reduced modulo `2 ^ 64` where the C arithmetic can wrap; file
offsets (`off_t`, a 32-bit `int`) are integers.  Allocation of bookkeeping
records by `malloc` is taken to succeed and hands out a new identifier; the
frame records released with `free` are listed in `freed_frames`.
-/

namespace Pintos

/-! ## Constants -/

/-- Modelled from the spec: `PGSIZE` of threads/vaddr.h (not among the sources), one 4 KiB page. -/
def PGSIZE : Nat := 4096

/-- Modelled from the spec: `DISK_SECTOR_SIZE` of devices/disk.h (not among the sources). -/
def DISK_SECTOR_SIZE : Nat := 512

/-- The number of sectors of one swap slot: `SLOT_SIZE` of include/vm/anon.h. -/
def SLOT_SIZE : Nat := PGSIZE / DISK_SECTOR_SIZE

/-- Modelled from the spec: `KERN_BASE` of threads/vaddr.h (not among the sources). -/
def KERN_BASE : Nat := 0x8004000000

/-- Modelled from the spec: `USER_STACK` of threads/vaddr.h (not among the sources), the stack ceiling. -/
def USER_STACK : Nat := 0x47480000

/-- The guard ceiling `STACK_LIMIT` of include/vm/vm.h: `USER_STACK - (1 << 20)`. -/
def STACK_LIMIT : Nat := USER_STACK - (1 <<< 20)

/-- Modelled from the spec: `BITMAP_ERROR` of lib/kernel/bitmap.h (not among the sources), `SIZE_MAX`. -/
def BITMAP_ERROR : Nat := 2 ^ 64 - 1

/-- The enumerators of `enum vm_type` (include/vm/vm.h). -/
def VM_UNINIT : Nat := 0

/-- Anonymous page type tag. -/
def VM_ANON : Nat := 1

/-- File-backed page type tag. -/
def VM_FILE : Nat := 2

/-- Stack marker bit `VM_MARKER_0 = (1 << 3)`. -/
def VM_MARKER_0 : Nat := 1 <<< 3

/-- The macro `VM_TYPE(type) ((type) & 7)`. -/
def VM_TYPE (type : Nat) : Nat := type &&& 7

/-- Modelled from the spec: `pg_round_down` of threads/vaddr.h, the start of the page holding `va`. -/
def pg_round_down (va : Nat) : Nat := va - va % PGSIZE

/-- Modelled from the spec: `pg_ofs` of threads/vaddr.h, the offset of `va` inside its page. -/
def pg_ofs (va : Nat) : Nat := va % PGSIZE

/-- Modelled from the spec: `is_kernel_vaddr` of threads/vaddr.h. -/
def is_kernel_vaddr (va : Nat) : Bool := decide (KERN_BASE ≤ va)

/-- Pointer subtraction on 64-bit addresses (wraps below zero). -/
def ptr_sub (a b : Nat) : Nat := (a + 2 ^ 64 - b) % 2 ^ 64

/-! ## Data model -/

/-- One entry of a hardware page table: the mapped frame address and the flag bits. -/
structure Pte where
  kva : Nat
  writable : Bool
  accessed : Bool
  dirty : Bool
deriving DecidableEq, Repr

/-- The loaders that occur as `vm_initializer *init` (null is `none`). -/
inductive Loader where
  | lazy_load_segment
deriving DecidableEq, Repr

/-- The type-specific initializers chosen in `vm_alloc_page_with_initializer`. -/
inductive Initializer where
  | anon_initializer
  | file_backed_initializer
deriving DecidableEq, Repr

/-- The loader argument `struct aux` of include/userprog/process.h; `offset` is an `off_t`, a
32-bit `int`. -/
structure Aux where
  file : Nat
  offset : Int
  page_read_bytes : Nat
deriving DecidableEq, Repr

/-- The `operations` pointer of a page together with the member of its union that is live:
`uninit_ops` with `struct uninit_page`, `anon_ops` with `struct anon_page`,
`file_ops` with `struct file_page`. -/
inductive Payload where
  | uninit (init : Option Loader) (type : Nat) (aux : Option Aux)
      (page_initializer : Option Initializer)
  | anon (slot : Nat)
  | file (file : Nat) (offset : Int) (page_read_bytes : Nat)
deriving DecidableEq, Repr

/-- The record `struct page` of include/vm/vm.h. -/
structure Page where
  va : Nat
  frame : Option Nat
  writable : Bool
  accessible : Bool
  payload : Payload
deriving DecidableEq, Repr

/-- The record `struct frame` of include/vm/vm.h; `kva = 0` is the null address. -/
structure Frame where
  kva : Nat
  page : Option Nat
deriving DecidableEq, Repr

/-- The per-thread part of the state: the supplemental page table (the page identifiers held by
`spt_hash`, in iteration order), the hardware page table, and the two stack fields of the thread. -/
structure Thread where
  spt : List Nat
  pml4 : Nat → Option Pte
  stack_bottom : Nat
  stack_pointer : Nat

/-- The kernel state the virtual-memory code reads and writes. -/
structure VM where
  /-- The running thread, `thread_current ()`. -/
  cur : Nat
  threads : Nat → Thread
  /-- The store of page records and the next identifier `malloc` hands out. -/
  pages : Nat → Page
  next_page : Nat
  /-- The store of frame records and the next identifier `malloc` hands out. -/
  frames : Nat → Frame
  next_frame : Nat
  /-- The static list `frame_table` of vm/vm.c. -/
  frame_table : List Nat
  /-- The free pages of the user pool, by kernel address. -/
  user_pool : List Nat
  /-- Physical memory, by kernel virtual byte address. -/
  mem : Nat → Nat
  /-- The bitmap `swap_table` of vm/anon.c. -/
  swap_table : List Bool
  /-- The swap disk: sector number, then byte offset in the sector. -/
  swap_disk : Nat → Nat → Nat
  /-- File contents: file handle, then byte offset. -/
  files : Nat → Nat → Nat
  /-- Whether `pml4_set_page` can obtain page-table memory. -/
  pt_ok : Bool
  /-- The frame records that have been released with `free`. -/
  freed_frames : List Nat

/-- Pointwise update of a store. -/
def upd {α : Type} (f : Nat → α) (i : Nat) (v : α) : Nat → α :=
  fun j => if j = i then v else f j

/-- The record of the running thread. -/
def cur_thread (s : VM) : Thread := s.threads s.cur

/-- Replace the record of thread `t`. -/
def set_thread (s : VM) (t : Nat) (th : Thread) : VM :=
  { s with threads := upd s.threads t th }

/-- Replace the page record `pid`. -/
def set_page (s : VM) (pid : Nat) (p : Page) : VM :=
  { s with pages := upd s.pages pid p }

/-- Replace the frame record `fid`. -/
def set_frame (s : VM) (fid : Nat) (f : Frame) : VM :=
  { s with frames := upd s.frames fid f }

/-- The call `free (frame)` on a pointer to a frame record: the record is released, and a
pointer to it that is left behind dangles; the null pointer `none` releases nothing. -/
def free_frame (s : VM) (frame : Option Nat) : VM :=
  match frame with
  | some fid => { s with freed_frames := fid :: s.freed_frames }
  | none => s

/-- The value of `page->operations->type`. -/
def ops_type (p : Page) : Nat :=
  match p.payload with
  | .uninit _ _ _ _ => VM_UNINIT
  | .anon _ => VM_ANON
  | .file _ _ _ => VM_FILE

/-- The function `page_get_type` of vm/vm.c. -/
def page_get_type (p : Page) : Nat :=
  match p.payload with
  | .uninit _ type _ _ => VM_TYPE type
  | .anon _ => VM_TYPE VM_ANON
  | .file _ _ _ => VM_TYPE VM_FILE

/-! ## Environment: allocator, page table, memory -/

/-- A page of zero bytes at `kva`. -/
def zero_page (mem : Nat → Nat) (kva : Nat) : Nat → Nat :=
  fun a => if kva ≤ a ∧ a < kva + PGSIZE then 0 else mem a

/-- The library routine `memcpy (dst, src, n)` on kernel addresses. -/
def memcpy (mem : Nat → Nat) (dst src n : Nat) : Nat → Nat :=
  fun a => if dst ≤ a ∧ a < dst + n then mem (src + (a - dst)) else mem a

/-- Modelled from the spec: the frame allocator `palloc_get_page (PAL_USER | PAL_ZERO)`
(threads/palloc.c, not among the sources): a zero-filled page of the bounded user pool,
or the null address `0` when the pool is exhausted. -/
def palloc_get_page (s : VM) : Nat × VM :=
  match s.user_pool with
  | [] => (0, s)
  | k :: rest => (k, { s with user_pool := rest, mem := zero_page s.mem k })

/-- Modelled from the spec: `pml4_set_page` of threads/mmu.c (not among the sources), the
hardware-mapping `install(va, frame, writable)`: maps the page of `upage` in the page table of
thread `t`; it fails, changing nothing, when no page-table memory is available. -/
def pml4_set_page (s : VM) (t : Nat) (upage kpage : Nat) (rw : Bool) : Bool × VM :=
  if s.pt_ok then
    (true, set_thread s t { s.threads t with
      pml4 := upd (s.threads t).pml4 (pg_round_down upage)
        (some { kva := kpage, writable := rw, accessed := false, dirty := false }) })
  else (false, s)

/-- Modelled from the spec: `pml4_clear_page` of threads/mmu.c, the hardware-mapping `clear(va)`. -/
def pml4_clear_page (s : VM) (t : Nat) (upage : Nat) : VM :=
  set_thread s t { s.threads t with pml4 := upd (s.threads t).pml4 (pg_round_down upage) none }

/-- Modelled from the spec: `pml4_is_accessed` of threads/mmu.c, `query_accessed(va)`. -/
def pml4_is_accessed (s : VM) (t : Nat) (va : Nat) : Bool :=
  match (s.threads t).pml4 (pg_round_down va) with
  | some pte => pte.accessed
  | none => false

/-- Modelled from the spec: `pml4_set_accessed` of threads/mmu.c, `clear_accessed(va)` when
`v` is false. -/
def pml4_set_accessed (s : VM) (t : Nat) (va : Nat) (v : Bool) : VM :=
  match (s.threads t).pml4 (pg_round_down va) with
  | some pte =>
    set_thread s t { s.threads t with
      pml4 := upd (s.threads t).pml4 (pg_round_down va) (some { pte with accessed := v }) }
  | none => s

/-- Modelled from the spec: `pml4_is_dirty` of threads/mmu.c, `query_dirty(va)`. -/
def pml4_is_dirty (s : VM) (t : Nat) (va : Nat) : Bool :=
  match (s.threads t).pml4 (pg_round_down va) with
  | some pte => pte.dirty
  | none => false

/-- Modelled from the spec: `pml4_set_dirty` of threads/mmu.c, `clear_dirty(va)` when `v` is
false. -/
def pml4_set_dirty (s : VM) (t : Nat) (va : Nat) (v : Bool) : VM :=
  match (s.threads t).pml4 (pg_round_down va) with
  | some pte =>
    set_thread s t { s.threads t with
      pml4 := upd (s.threads t).pml4 (pg_round_down va) (some { pte with dirty := v }) }
  | none => s

/-- Address translation of a user address by the page table of thread `t`. -/
def translate (s : VM) (t : Nat) (a : Nat) : Option Nat :=
  match (s.threads t).pml4 (pg_round_down a) with
  | some pte => some (pte.kva + pg_ofs a)
  | none => none

/-- The `n` bytes the kernel reads at user address `a` while thread `s.cur` runs; `none` when
the first or the last byte is not mapped (the access faults inside the kernel). -/
def copy_in (s : VM) (a n : Nat) : Option (Nat → Nat) :=
  match translate s s.cur a, translate s s.cur (a + n - 1) with
  | some _, some _ =>
    some (fun j => match translate s s.cur (a + j) with
                   | some k => s.mem k
                   | none => 0)
  | _, _ => none

/-! ## Supplemental page table (vm/vm.c) -/

/-- The function `spt_find_page` of vm/vm.c: the key record gets `va = pg_round_down (va)` and
`hash_find` returns the element of `spt_hash` that compares equal to it.
Modelled from the spec: `hash_func` and `less_func` (not among the sources) key a page by its
`va`. -/
def spt_find_page (s : VM) (spt : Nat) (va : Nat) : Option Nat :=
  (s.threads spt).spt.find? (fun pid => decide ((s.pages pid).va = pg_round_down va))

/-- The function `spt_insert_page` of vm/vm.c: `hash_insert` adds the page unless an element with
an equal key is present. -/
def spt_insert_page (s : VM) (spt : Nat) (pid : Nat) : Bool × VM :=
  match (s.threads spt).spt.find? (fun q => decide ((s.pages q).va = (s.pages pid).va)) with
  | some _ => (false, s)
  | none => (true, set_thread s spt { s.threads spt with spt := (s.threads spt).spt ++ [pid] })

/-! ## Backing-store variants (vm/anon.c, vm/file.c, vm/uninit.c) -/

/-- Modelled from the spec: `bitmap_scan_and_flip (swap_table, 0, 1, false)` of
lib/kernel/bitmap.c (not among the sources): the index of the first free bit, which becomes
in-use, or `BITMAP_ERROR` when every bit is in use. -/
def bitmap_scan_and_flip (b : List Bool) : Nat × List Bool :=
  if b.indexOf false < b.length then (b.indexOf false, b.set (b.indexOf false) true)
  else (BITMAP_ERROR, b)

/-- Modelled from the spec: `disk_write (swap_disk, sec, buf)` of devices/disk.c (not among the
sources): sector `sec` receives the `DISK_SECTOR_SIZE` bytes `buf`. -/
def disk_write (disk : Nat → Nat → Nat) (sec : Nat) (buf : Nat → Nat) : Nat → Nat → Nat :=
  upd disk sec buf

/-- Modelled from the spec: `disk_read (swap_disk, sec, kva)` of devices/disk.c (not among the
sources): the `DISK_SECTOR_SIZE` bytes of sector `sec` land at kernel address `kva`. -/
def disk_read (mem : Nat → Nat) (disk : Nat → Nat → Nat) (sec : Nat) (kva : Nat) : Nat → Nat :=
  fun a => if kva ≤ a ∧ a < kva + DISK_SECTOR_SIZE then disk sec (a - kva) else mem a

/-- The function `anon_initializer` of vm/anon.c: the page becomes an anonymous page that records
no swap slot. -/
def anon_initializer (s : VM) (pid : Nat) : Bool × VM :=
  (true, set_page s pid { s.pages pid with payload := .anon BITMAP_ERROR })

/-- The function `file_backed_initializer` of vm/file.c: the page becomes a file-backed page whose
fields are read through `page->uninit.aux`; a null `aux` is dereferenced. -/
def file_backed_initializer (s : VM) (pid : Nat) : Option (Bool × VM) :=
  match (s.pages pid).payload with
  | .uninit _ _ (some aux) _ =>
    some (true, set_page s pid
      { s.pages pid with payload := .file aux.file aux.offset aux.page_read_bytes })
  | _ => none

/-- Modelled from the spec: the byte of a file at position `pos`, an `off_t`; no byte lies before
the start of the file. -/
def file_byte (data : Nat → Nat) (pos : Int) : Nat :=
  if 0 ≤ pos then data pos.toNat else 0

/-- Modelled from the spec: `lazy_load_segment` of userprog/process.c (not among the sources):
reads `page_read_bytes` bytes of the file from `offset` into the frame of the page and zero-fills
the remainder of the page. -/
def lazy_load_segment (s : VM) (pid : Nat) (aux : Option Aux) : Option (Bool × VM) :=
  match aux, (s.pages pid).frame with
  | some a, some f =>
    let kva := (s.frames f).kva
    let mem1 : Nat → Nat := fun x =>
      if kva ≤ x ∧ x < kva + PGSIZE then
        (if x - kva < a.page_read_bytes then
          file_byte (s.files a.file) (a.offset + ((x - kva : Nat) : Int))
        else 0)
      else s.mem x
    some (true, { s with mem := mem1 })
  | _, _ => none

/-- The loop of `anon_swap_in`: `disk_read (swap_disk, sector + i, kva + DISK_SECTOR_SIZE * i)`
for the `n` sectors from index `i` on. -/
def swap_read_loop (disk : Nat → Nat → Nat) (sector kva : Nat) : Nat → Nat → (Nat → Nat) → (Nat → Nat)
  | 0, _, mem => mem
  | n + 1, i, mem =>
    swap_read_loop disk sector kva n (i + 1)
      (disk_read mem disk (sector + i) (kva + DISK_SECTOR_SIZE * i))

/-- The function `anon_swap_in` of vm/anon.c.  The closing assignment goes to the local
`sector`, so the slot recorded in the page stays as it was. -/
def anon_swap_in (s : VM) (pid : Nat) (kva : Nat) : Option (Bool × VM) :=
  match (s.pages pid).payload with
  | .anon slot =>
    if slot = BITMAP_ERROR then some (false, s)
    else if s.swap_table.length ≤ slot then none
    else if s.swap_table.getD slot false = false then some (false, s)
    else
      some (true, { s with
        swap_table := s.swap_table.set slot false,
        mem := swap_read_loop s.swap_disk (slot * SLOT_SIZE) kva SLOT_SIZE 0 s.mem })
  | _ => none

/-- The loop of `anon_swap_out`: `disk_write (swap_disk, sector + i, page->va + DISK_SECTOR_SIZE * i)`
for the `n` sectors from index `i` on; the source is the user address `page->va`, read through
the page table of the running thread. -/
def swap_write_loop (s : VM) (sector va : Nat) : Nat → Nat → (Nat → Nat → Nat) → Option (Nat → Nat → Nat)
  | 0, _, disk => some disk
  | n + 1, i, disk =>
    match copy_in s (va + DISK_SECTOR_SIZE * i) DISK_SECTOR_SIZE with
    | some buf => swap_write_loop s sector va n (i + 1) (disk_write disk (sector + i) buf)
    | none => none

/-- The function `anon_swap_out` of vm/anon.c. -/
def anon_swap_out (s : VM) (pid : Nat) : Option (Bool × VM) :=
  match (s.pages pid).payload with
  | .anon _ =>
    let r := bitmap_scan_and_flip s.swap_table
    if r.1 = BITMAP_ERROR then some (false, { s with swap_table := r.2 })
    else
      match swap_write_loop s (r.1 * SLOT_SIZE) (s.pages pid).va SLOT_SIZE 0 s.swap_disk with
      | none => none
      | some disk =>
        match (s.pages pid).frame with
        | none => none
        | some f =>
          let s1 := { s with swap_table := r.2, swap_disk := disk }
          let s2 := set_page s1 pid { s1.pages pid with payload := .anon r.1 }
          let s3 := set_frame s2 f { s2.frames f with page := none }
          let s4 := set_page s3 pid { s3.pages pid with frame := none }
          some (true, pml4_clear_page s4 s4.cur (s4.pages pid).va)
  | _ => none

/-- Modelled from the spec: `file_write_at (file, page->va, n, offset)` (filesys/file.c, not
among the sources) with a user-address source: the `n` bytes read through the page table of the
running thread go to the file from `offset` on. -/
def file_write_at (s : VM) (file va n : Nat) (offset : Int) : Option VM :=
  match copy_in s va n with
  | some buf =>
    let data : Nat → Nat := fun o =>
      if offset ≤ (o : Int) ∧ (o : Int) < offset + (n : Int) then buf ((o : Int) - offset).toNat
      else s.files file o
    some { s with files := upd s.files file data }
  | none => none

/-- The write-back that opens `file_backed_swap_out` and `file_backed_destroy`. -/
def file_write_back (s : VM) (pid : Nat) (file : Nat) (offset : Int) (page_read_bytes : Nat) :
    Option VM :=
  if pml4_is_dirty s s.cur (s.pages pid).va then
    match file_write_at s file (s.pages pid).va page_read_bytes offset with
    | some s1 => some (pml4_set_dirty s1 s1.cur (s1.pages pid).va false)
    | none => none
  else some s

/-- The function `file_backed_swap_out` of vm/file.c. -/
def file_backed_swap_out (s : VM) (pid : Nat) : Option (Bool × VM) :=
  match (s.pages pid).payload with
  | .file file offset page_read_bytes =>
    match file_write_back s pid file offset page_read_bytes with
    | none => none
    | some s1 =>
      match (s1.pages pid).frame with
      | none => none
      | some f =>
        let s2 := set_frame s1 f { s1.frames f with page := none }
        let s3 := set_page s2 pid { s2.pages pid with frame := none }
        some (true, pml4_clear_page s3 s3.cur (s3.pages pid).va)
  | _ => none

/-- The function `file_backed_swap_in` of vm/file.c: `lazy_load_segment (page, file_page)`. -/
def file_backed_swap_in (s : VM) (pid : Nat) : Option (Bool × VM) :=
  match (s.pages pid).payload with
  | .file file offset page_read_bytes =>
    lazy_load_segment s pid (some { file := file, offset := offset, page_read_bytes := page_read_bytes })
  | _ => none

/-- Modelled from the spec: `uninit_initialize` of vm/uninit.c (not among the sources), the
`swap_in` of an uninitialized page: the stored page initializer turns the page into its target
variant, then the stored loader runs with the stored argument. -/
def uninit_initialize (s : VM) (pid : Nat) : Option (Bool × VM) :=
  match (s.pages pid).payload with
  | .uninit init _ aux (some .anon_initializer) =>
    match init with
    | none => some (anon_initializer s pid)
    | some .lazy_load_segment => lazy_load_segment (anon_initializer s pid).2 pid aux
  | .uninit init _ aux (some .file_backed_initializer) =>
    match file_backed_initializer s pid with
    | none => none
    | some r =>
      match init with
      | none => some r
      | some .lazy_load_segment => lazy_load_segment r.2 pid aux
  | _ => none

/-- The macro `swap_in (page, v)` of include/vm/vm.h: dispatch on `page->operations`. -/
def swap_in (s : VM) (pid : Nat) (kva : Nat) : Option (Bool × VM) :=
  match (s.pages pid).payload with
  | .uninit _ _ _ _ => uninit_initialize s pid
  | .anon _ => anon_swap_in s pid kva
  | .file _ _ _ => file_backed_swap_in s pid

/-- The macro `swap_out (page)` of include/vm/vm.h: dispatch on `page->operations`.
Modelled from the spec: `uninit_ops` (vm/uninit.c, not among the sources) has no `swap_out`
(an uninitialized page is never resident), so the call goes through a null pointer. -/
def swap_out (s : VM) (pid : Nat) : Option (Bool × VM) :=
  match (s.pages pid).payload with
  | .uninit _ _ _ _ => none
  | .anon _ => anon_swap_out s pid
  | .file _ _ _ => file_backed_swap_out s pid

/-! ## Page allocation, frames and eviction (vm/vm.c) -/

/-- Modelled from the spec: `uninit_new` of vm/uninit.c (not among the sources): the record
becomes an uninitialized page at `va` without a frame, holding the loader, the target type, the
argument and the page initializer; the remaining members are zero. -/
def uninit_new (s : VM) (pid : Nat) (va : Nat) (init : Option Loader) (type : Nat)
    (aux : Option Aux) (initializer : Option Initializer) : VM :=
  set_page s pid
    { va := va, frame := none, writable := false, accessible := false,
      payload := .uninit init type aux initializer }

/-- The function `vm_alloc_page_with_initializer` of vm/vm.c.  The table is that of the running
thread; the new record is entered under `upage` as given. -/
def vm_alloc_page_with_initializer (s : VM) (type : Nat) (upage : Nat) (writable : Bool)
    (init : Option Loader) (aux : Option Aux) : Option (Bool × VM) :=
  if VM_TYPE type = VM_UNINIT then none
  else
    match spt_find_page s s.cur upage with
    | none =>
      let page := s.next_page
      let s1 := { s with next_page := s.next_page + 1 }
      let initializer : Option Initializer :=
        if VM_TYPE type = VM_ANON then some .anon_initializer
        else if VM_TYPE type = VM_FILE then some .file_backed_initializer
        else none
      let s2 := uninit_new s1 page upage init type aux initializer
      let s3 := set_page s2 page { s2.pages page with writable := writable }
      some (spt_insert_page s3 s3.cur page)
    | some _ => some (false, s)

/-- The macro `vm_alloc_page (type, upage, writable)` of include/vm/vm.h. -/
def vm_alloc_page (s : VM) (type : Nat) (upage : Nat) (writable : Bool) : Option (Bool × VM) :=
  vm_alloc_page_with_initializer s type upage writable none none

/-- The loop of `vm_get_victim` over the frame table: `some (some f, s)` when the loop returns
the frame `f`, `some (none, s)` when it runs to the end of the list, `none` when a frame without
a page is reached (`victim->page->va`). -/
def vm_get_victim_scan : List Nat → VM → Option (Option Nat × VM)
  | [], s => some (none, s)
  | f :: rest, s =>
    match (s.frames f).page with
    | none => none
    | some p =>
      if pml4_is_accessed s s.cur (s.pages p).va then
        vm_get_victim_scan rest (pml4_set_accessed s s.cur (s.pages p).va false)
      else some (some f, s)

/-- The function `vm_get_victim` of vm/vm.c: the scan starts at `list_begin (&frame_table)`;
after a scan without result the head of the list is returned (no head exists in an empty list). -/
def vm_get_victim (s : VM) : Option (Nat × VM) :=
  match vm_get_victim_scan s.frame_table s with
  | none => none
  | some (some f, s1) => some (f, s1)
  | some (none, s1) =>
    match s1.frame_table with
    | [] => none
    | h :: _ => some (h, s1)

/-- The function `vm_evict_frame` of vm/vm.c: the result of `swap_out` is not looked at, the
victim is returned in every case. -/
def vm_evict_frame (s : VM) : Option (Option Nat × VM) :=
  match vm_get_victim s with
  | none => none
  | some (victim, s1) =>
    match (s1.frames victim).page with
    | some p =>
      match swap_out s1 p with
      | none => none
      | some r => some (some victim, r.2)
    | none => some (some victim, s1)

/-- The function `vm_get_frame` of vm/vm.c. -/
def vm_get_frame (s : VM) : Option (Nat × VM) :=
  let frame := s.next_frame
  let s1 := set_frame { s with next_frame := s.next_frame + 1 } frame { kva := 0, page := none }
  let r := palloc_get_page s1
  let s2 := set_frame r.2 frame { r.2.frames frame with kva := r.1 }
  if r.1 = 0 then
    match vm_evict_frame s2 with
    | none => none
    | some (none, _) => none
    | some (some v, s3) => some (v, set_frame s3 v { s3.frames v with page := none })
  else
    let s3 := { s2 with frame_table := s2.frame_table ++ [frame] }
    some (frame, set_frame s3 frame { s3.frames frame with page := none })

/-- The function `vm_do_claim_page` of vm/vm.c. -/
def vm_do_claim_page (s : VM) (page : Nat) : Option (Bool × VM) :=
  match vm_get_frame s with
  | none => none
  | some (frame, s1) =>
    let s2 := set_frame s1 frame { s1.frames frame with page := some page }
    let s3 := set_page s2 page { s2.pages page with frame := some frame }
    let r := pml4_set_page s3 s3.cur (s3.pages page).va (s3.frames frame).kva (s3.pages page).writable
    if r.1 = false then some (false, r.2)
    else swap_in r.2 page (r.2.frames frame).kva

/-- The function `vm_claim_page` of vm/vm.c. -/
def vm_claim_page (s : VM) (va : Nat) : Option (Bool × VM) :=
  match spt_find_page s s.cur va with
  | none => some (false, s)
  | some page => vm_do_claim_page s page

/-- The function `vm_stack_growth` of vm/vm.c (it returns nothing). -/
def vm_stack_growth (s : VM) (addr : Nat) : Option VM :=
  match vm_alloc_page s (VM_ANON ||| VM_MARKER_0) addr true with
  | none => none
  | some (false, s1) => some s1
  | some (true, s1) =>
    match vm_claim_page s1 addr with
    | none => none
    | some (false, s2) => some s2
    | some (true, s2) =>
      some (set_thread s2 s2.cur
        { cur_thread s2 with stack_bottom := ptr_sub (cur_thread s2).stack_bottom PGSIZE })

/-- The function `vm_handle_wp` of vm/vm.c; `page` is the nullable pointer it receives.  The
`memcpy` into a frame whose `kva` is the null pointer stops the kernel. -/
def vm_handle_wp (s : VM) (page : Option Nat) : Option (Bool × VM) :=
  match page with
  | none => none
  | some pid =>
    if (s.pages pid).accessible = false then some (false, s)
    else
      match (s.pages pid).frame with
      | none => none
      | some f =>
        let kva := (s.frames f).kva
        let r := palloc_get_page s
        let s1 := set_frame r.2 f { r.2.frames f with kva := r.1 }
        let evicted : Option VM :=
          if r.1 = 0 then
            match vm_evict_frame s1 with
            | none => none
            | some (v, s2) => some (set_page s2 pid { s2.pages pid with frame := v })
          else some s1
        match evicted with
        | none => none
        | some s3 =>
          match (s3.pages pid).frame with
          | none => none
          | some g =>
            if (s3.frames g).kva = 0 then none
            else
              let s4 := { s3 with mem := memcpy s3.mem (s3.frames g).kva kva PGSIZE }
              let w := pml4_set_page s4 s4.cur (s4.pages pid).va (s4.frames g).kva
                (s4.pages pid).accessible
              if w.1 = false then some (false, w.2) else some (true, w.2)

/-- The function `vm_try_handle_fault` of vm/vm.c; `rsp` is the field `f->rsp` of the
interrupt frame. -/
def vm_try_handle_fault (s : VM) (rsp : Nat) (addr : Nat) (user write not_present : Bool) :
    Option (Bool × VM) :=
  let page := spt_find_page s s.cur addr
  if addr = 0 ∨ is_kernel_vaddr addr = true then some (false, s)
  else if not_present = false ∧ write = true then vm_handle_wp s page
  else
    match page with
    | none =>
      let stack_pointer := if user = true then rsp else (cur_thread s).stack_pointer
      if ptr_sub stack_pointer 8 ≤ addr ∧ addr ≥ STACK_LIMIT ∧ addr ≤ USER_STACK then
        match vm_stack_growth s (ptr_sub (cur_thread s).stack_bottom PGSIZE) with
        | none => none
        | some s1 => some (true, s1)
      else some (false, s)
    | some p => vm_do_claim_page s p

/-- The function `vm_copy_claim_page` of vm/vm.c.  When `pml4_set_page` fails the frame record
is released with `free (frame)` although `page->frame` refers to it. -/
def vm_copy_claim_page (s : VM) (dst : Nat) (va kva : Nat) (writable : Bool) :
    Option (Bool × VM) :=
  match spt_find_page s dst va with
  | none => some (false, s)
  | some page =>
    let frame := s.next_frame
    let s1 := set_frame { s with next_frame := s.next_frame + 1 } frame { kva := 0, page := none }
    let s2 := set_page s1 page { s1.pages page with accessible := writable }
    let s3 := set_frame s2 frame { s2.frames frame with page := some page }
    let s4 := set_page s3 page { s3.pages page with frame := some frame }
    let s5 := set_frame s4 frame { s4.frames frame with kva := kva }
    let r := pml4_set_page s5 s5.cur (s5.pages page).va (s5.frames frame).kva false
    if r.1 = false then some (false, free_frame r.2 (some frame))
    else
      let s6 := { r.2 with frame_table := r.2.frame_table ++ [frame] }
      swap_in s6 page (s6.frames frame).kva

/-- The body of the loop of `supplemental_page_table_copy` for the source page `p`. -/
def spt_copy_page (s : VM) (dst : Nat) (p : Nat) : Option (Bool × VM) :=
  let src_page := s.pages p
  let upage := src_page.va
  let writable := src_page.writable
  match src_page.payload with
  | .uninit init _ aux _ =>
    vm_alloc_page_with_initializer s (page_get_type src_page) upage writable init aux
  | .file file offset page_read_bytes =>
    match vm_alloc_page_with_initializer s VM_FILE upage writable none
        (some { file := file, offset := offset, page_read_bytes := page_read_bytes }) with
    | none => none
    | some (false, s1) => some (false, s1)
    | some (true, s1) =>
      match spt_find_page s1 dst upage with
      | none => none
      | some dst_page =>
        match file_backed_initializer s1 dst_page with
        | none => none
        | some (false, s2) => some (false, s2)
        | some (true, s2) =>
          let s3 := set_page s2 dst_page { s2.pages dst_page with frame := (s2.pages p).frame }
          match (s3.pages p).frame with
          | none => none
          | some f =>
            let r := pml4_set_page s3 s3.cur (s3.pages dst_page).va (s3.frames f).kva
              (s3.pages p).writable
            if r.1 = false then some (false, r.2) else some (true, r.2)
  | .anon _ =>
    match vm_alloc_page s VM_ANON upage writable with
    | none => none
    | some (false, s1) => some (false, s1)
    | some (true, s1) =>
      match (s1.pages p).frame with
      | none => none
      | some f => vm_copy_claim_page s1 dst upage (s1.frames f).kva writable

/-- The loop of `supplemental_page_table_copy` over the pages of the source table. -/
def spt_copy_loop (dst : Nat) : List Nat → VM → Option (Bool × VM)
  | [], s => some (true, s)
  | p :: rest, s =>
    match spt_copy_page s dst p with
    | none => none
    | some (false, s1) => some (false, s1)
    | some (true, s1) => spt_copy_loop dst rest s1

/-- The function `supplemental_page_table_copy` of vm/vm.c; `dst` and `src` name the threads that
own the two tables. -/
def supplemental_page_table_copy (s : VM) (dst src : Nat) : Option (Bool × VM) :=
  spt_copy_loop dst (s.threads src).spt s

/-! ## User-mode access (hardware)

Modelled from the spec: the processor consults the hardware mapping of the running thread; a
load or store through a present mapping that permits it goes to the mapped frame without a
fault; any other access raises a page fault, which the kernel hands to `vm_try_handle_fault`. -/

/-- The byte a user-mode load of thread `t` finds at `va` through the hardware mapping of `t`
(`none` when `va` is not mapped). -/
def user_load (s : VM) (t : Nat) (va : Nat) : Option Nat :=
  match translate s t va with
  | some k => some (s.mem k)
  | none => none

/-- A user-mode store of byte `b` at `va` by the running thread, `rsp` being its stack pointer.
Through a present writable mapping the byte goes to the mapped frame; otherwise the page fault is
handed to `vm_try_handle_fault` and, when that succeeds, the store is attempted once more.
`none` when the kernel stops or the thread is terminated. -/
def user_store (s : VM) (rsp va b : Nat) : Option VM :=
  match (cur_thread s).pml4 (pg_round_down va) with
  | some pte =>
    if pte.writable then some { s with mem := upd s.mem (pte.kva + pg_ofs va) b }
    else
      match vm_try_handle_fault s rsp va true true false with
      | some (true, s1) =>
        match (cur_thread s1).pml4 (pg_round_down va) with
        | some pte1 =>
          if pte1.writable then some { s1 with mem := upd s1.mem (pte1.kva + pg_ofs va) b }
          else none
        | none => none
      | _ => none
  | none =>
    match vm_try_handle_fault s rsp va true true true with
    | some (true, s1) =>
      match (cur_thread s1).pml4 (pg_round_down va) with
      | some pte1 =>
        if pte1.writable then some { s1 with mem := upd s1.mem (pte1.kva + pg_ofs va) b }
        else none
      | none => none
    | _ => none

/-- The scheduler makes thread `t` the running thread. -/
def switch_to (s : VM) (t : Nat) : VM := { s with cur := t }

/-! ## Concrete states -/

/-- A thread without pages: empty table, empty page table, the stack bottom one page below
`USER_STACK`. -/
def thread0 : Thread :=
  { spt := [], pml4 := fun _ => none, stack_bottom := USER_STACK - PGSIZE,
    stack_pointer := USER_STACK }

/-- The default page record of the store (unused identifiers). -/
def page0 : Page :=
  { va := 0, frame := none, writable := false, accessible := false, payload := .anon BITMAP_ERROR }

/-- A state right after `vm_init`: no page, no frame, a user pool of `pool` pages, and a swap
bitmap `swap`. -/
def vm_boot (pool : List Nat) (swap : List Bool) : VM :=
  { cur := 0, threads := fun _ => thread0, pages := fun _ => page0, next_page := 0,
    frames := fun _ => { kva := 0, page := none }, next_frame := 0, frame_table := [],
    user_pool := pool, mem := fun _ => 0, swap_table := swap, swap_disk := fun _ _ => 0,
    files := fun _ _ => 0, pt_ok := true, freed_frames := [] }

/-- The state a call left behind (`d` when the kernel stopped). -/
def state_of (r : Option (Bool × VM)) (d : VM) : VM :=
  match r with
  | some (_, s) => s
  | none => d

/-- The value a call returned, `none` when the kernel stopped. -/
def value_of {α : Type} (r : Option (α × VM)) : Option α :=
  match r with
  | some (a, _) => some a
  | none => none

/-- Two page-aligned user addresses. -/
def uva_a : Nat := 0x400000

/-- The page after `uva_a`. -/
def uva_b : Nat := 0x401000

/-- The kernel addresses of three pages of the user pool. -/
def kpage0 : Nat := 0x8004100000

/-- Second pool page. -/
def kpage1 : Nat := 0x8004101000

/-- Third pool page. -/
def kpage2 : Nat := 0x8004102000

/-- A one-frame machine whose single swap slot is in use: an anonymous page has been allocated at
`uva_a` and claimed (it holds the only frame), and a second anonymous page has been allocated at
`uva_b`. -/
def full_swap_state : VM :=
  let s0 := vm_boot [kpage0] [true]
  let s1 := state_of (vm_alloc_page s0 VM_ANON uva_a true) s0
  let s2 := state_of (vm_claim_page s1 uva_a) s1
  state_of (vm_alloc_page s2 VM_ANON uva_b true) s2

/-- The state after a successful `vm_alloc_page_with_initializer`. -/
def alloc_post (s : VM) (type upage : Nat) (writable : Bool) (init : Option Loader)
    (aux : Option Aux) : VM :=
  { s with
    next_page := s.next_page + 1,
    pages := upd s.pages s.next_page
      { va := upage, frame := none, writable := writable, accessible := false,
        payload := .uninit init type aux
          (if VM_TYPE type = VM_ANON then some .anon_initializer
           else if VM_TYPE type = VM_FILE then some .file_backed_initializer else none) },
    threads := upd s.threads s.cur
      { s.threads s.cur with spt := (s.threads s.cur).spt ++ [s.next_page] } }

/-- The state in which `vm_do_claim_page` calls `swap_in`, when the allocator returns `k`. -/
def claim_post (s : VM) (page k : Nat) (rest : List Nat) : VM :=
  { s with
    next_frame := s.next_frame + 1,
    frames := upd s.frames s.next_frame { kva := k, page := some page },
    frame_table := s.frame_table ++ [s.next_frame],
    user_pool := rest,
    mem := zero_page s.mem k,
    pages := upd s.pages page { s.pages page with frame := some s.next_frame },
    threads := upd s.threads s.cur
      { s.threads s.cur with
        pml4 := upd (s.threads s.cur).pml4 (pg_round_down (s.pages page).va)
          (some { kva := k, writable := (s.pages page).writable, accessed := false,
                  dirty := false }) } }

/-- What every `swap_in` leaves alone: the frame table, the pool, the frame records, the
threads, and of the page records everything but the payload of the page swapped in. -/
def swap_in_frame_cond (s s' : VM) (pid : Nat) : Prop :=
  s'.frame_table = s.frame_table ∧ s'.user_pool = s.user_pool ∧ s'.frames = s.frames
  ∧ s'.next_frame = s.next_frame ∧ s'.next_page = s.next_page ∧ s'.threads = s.threads
  ∧ s'.cur = s.cur ∧ s'.pt_ok = s.pt_ok
  ∧ (∀ q, (s'.pages q).frame = (s.pages q).frame ∧ (s'.pages q).va = (s.pages q).va
      ∧ (s'.pages q).writable = (s.pages q).writable
      ∧ (s'.pages q).accessible = (s.pages q).accessible)
  ∧ (∀ q, q ≠ pid → s'.pages q = s.pages q)

/-- A thread whose stack bottom is one page below `USER_STACK`, with a page already registered at
`stack_bottom - PGSIZE` (for instance by a mapping the program requested there). -/
def occupied_below_stack_state : VM :=
  let s0 := vm_boot [kpage0] [false]
  state_of (vm_alloc_page s0 VM_ANON (USER_STACK - 2 * PGSIZE) true) s0

/-- A thread whose stack has grown to the guard ceiling: `stack_bottom = STACK_LIMIT`. -/
def full_stack_state : VM :=
  set_thread (vm_boot [kpage0] [false]) 0 { thread0 with stack_bottom := STACK_LIMIT }

/-- An anonymous page allocated at `uva_a` and claimed once, with a further free pool page. -/
def resident_state : VM :=
  let s0 := vm_boot [kpage0, kpage1] [false]
  let s1 := state_of (vm_alloc_page s0 VM_ANON uva_a true) s0
  state_of (vm_claim_page s1 uva_a) s1

/-- The state an `Option VM` result stands for (`d` when there is none). -/
def or_state (r : Option VM) (d : VM) : VM :=
  match r with
  | some s => s
  | none => d

/-- A parent (thread 0) with one resident writable anonymous page at `uva_a` into which it has
stored the byte 7, duplicated into the child (thread 1) by `supplemental_page_table_copy` run by
the child, as in fork. -/
def forked_state : VM :=
  let s0 := vm_boot [kpage0, kpage1, kpage2] [false]
  let s1 := state_of (vm_alloc_page s0 VM_ANON uva_a true) s0
  let s2 := state_of (vm_claim_page s1 uva_a) s1
  let s3 := or_state (user_store s2 USER_STACK uva_a 7) s2
  let s4 := switch_to s3 1
  state_of (supplemental_page_table_copy s4 1 0) s4

/-- The state after the child (running) stores the byte 9 at `uva_a`. -/
def forked_child_wrote : VM :=
  or_state (user_store forked_state USER_STACK uva_a 9) forked_state

/-- The state after the parent (running) stores the byte 9 at `uva_a`. -/
def forked_parent_wrote : VM :=
  or_state (user_store (switch_to forked_state 0) USER_STACK uva_a 9) forked_state

/-- The bytes the kernel finds in sector-sized piece `idx` of the user page at `va`, read through
the page table of the running thread. -/
def user_sector (s : VM) (va idx : Nat) : Nat → Nat :=
  fun j => match translate s s.cur (va + DISK_SECTOR_SIZE * idx + j) with
           | some k => s.mem k
           | none => 0

/-- Modelled from the spec: `bitmap_reset (swap_table, idx)` of lib/kernel/bitmap.c (not among
the sources): the bit becomes free; an index outside the bitmap fails its `ASSERT`. -/
def bitmap_reset (b : List Bool) (idx : Nat) : Option (List Bool) :=
  if idx < b.length then some (b.set idx false) else none

/-- The part that `anon_destroy` and `file_backed_destroy` share when the page has a frame:
`list_remove`, `page->frame->page = NULL`, `page->frame = NULL`. -/
def detach_frame (s : VM) (pid : Nat) : VM :=
  match (s.pages pid).frame with
  | some f =>
    let s1 := { s with frame_table := s.frame_table.erase f }
    let s2 := set_frame s1 f { s1.frames f with page := none }
    set_page s2 pid { s2.pages pid with frame := none }
  | none => s

/-- The function `anon_destroy` of vm/anon.c; the frame record of the page is released with
`free (page->frame)` before `page->frame` is cleared. -/
def anon_destroy (s : VM) (pid : Nat) : Option VM :=
  match (s.pages pid).payload with
  | .anon slot =>
    let released : Option VM :=
      if slot ≠ BITMAP_ERROR then
        match bitmap_reset s.swap_table slot with
        | some b => some { s with swap_table := b }
        | none => none
      else some s
    match released with
    | none => none
    | some s1 =>
      let s2 := free_frame (detach_frame s1 pid) (s1.pages pid).frame
      some (pml4_clear_page s2 s2.cur (s2.pages pid).va)
  | _ => none

/-- The function `file_backed_destroy` of vm/file.c; its `free (page->frame)` comes after
`page->frame = NULL` and releases nothing. -/
def file_backed_destroy (s : VM) (pid : Nat) : Option VM :=
  match (s.pages pid).payload with
  | .file file offset page_read_bytes =>
    match file_write_back s pid file offset page_read_bytes with
    | none => none
    | some s1 =>
      let s2 := detach_frame s1 pid
      some (pml4_clear_page s2 s2.cur (s2.pages pid).va)
  | _ => none

/-- The macro `destroy (page)` of include/vm/vm.h: dispatch on `page->operations`.
Modelled from the spec: `uninit_destroy` (vm/uninit.c, not among the sources) releases the loader
argument and touches nothing else. -/
def destroy (s : VM) (pid : Nat) : Option VM :=
  match (s.pages pid).payload with
  | .uninit _ _ _ _ => some s
  | .anon _ => anon_destroy s pid
  | .file _ _ _ => file_backed_destroy s pid

/-- The loop of `do_munmap`: while a page is found at `addr`, destroy it and step to the next
page address.  The recursion is on a bound for the number of rounds. -/
def do_munmap_loop : Nat → VM → Nat → Option VM
  | 0, _, _ => none
  | fuel + 1, s, addr =>
    match spt_find_page s s.cur addr with
    | none => some s
    | some page =>
      match destroy s page with
      | none => none
      | some s1 => do_munmap_loop fuel s1 (addr + PGSIZE)

/-- The function `do_munmap` of vm/file.c.  Every round finds a page at a new address and the
table keeps its pages, so one round more than the table has pages is enough. -/
def do_munmap (s : VM) (addr : Nat) : Option VM :=
  do_munmap_loop ((cur_thread s).spt.length + 1) s addr

/-- Whether the page is a file-backed page (`operations == &file_ops`). -/
def is_file (p : Page) : Bool :=
  match p.payload with
  | .file _ _ _ => true
  | _ => false

/-- The states reachable from boot through the operations of the virtual-memory interface, with
frames obtained from the allocator (the user pool is not empty when a frame is asked for, so no
eviction takes place).  Calls that return false are included; the scheduler may switch threads and
page-table memory may come and go between calls, except that `supplemental_page_table_copy` runs
with page-table memory available: without it `vm_copy_claim_page` releases the frame record it
has just linked to the page, and the page is left with a dangling frame reference. -/
inductive Reach : VM → Prop where
  | boot (pool : List Nat) (swap : List Bool) : 0 ∉ pool → Reach (vm_boot pool swap)
  | switch (s : VM) (t : Nat) : Reach s → Reach (switch_to s t)
  | pt_memory (s : VM) (b : Bool) : Reach s → Reach { s with pt_ok := b }
  | alloc (s : VM) (type upage : Nat) (w : Bool) (init : Option Loader) (aux : Option Aux)
      (r : Bool) (s' : VM) :
      Reach s → vm_alloc_page_with_initializer s type upage w init aux = some (r, s') → Reach s'
  | claim (s : VM) (va : Nat) (r : Bool) (s' : VM) :
      Reach s → s.user_pool ≠ [] → vm_claim_page s va = some (r, s') → Reach s'
  | fault (s : VM) (rsp addr : Nat) (user write not_present : Bool) (r : Bool) (s' : VM) :
      Reach s → s.user_pool ≠ [] →
      vm_try_handle_fault s rsp addr user write not_present = some (r, s') → Reach s'
  | copy (s : VM) (dst src : Nat) (r : Bool) (s' : VM) :
      Reach s → s.pt_ok = true →
      supplemental_page_table_copy s dst src = some (r, s') → Reach s'
  | munmap (s : VM) (addr : Nat) (s' : VM) : Reach s → do_munmap s addr = some s' → Reach s'
  | destroy_page (s : VM) (pid : Nat) (s' : VM) : Reach s → destroy s pid = some s' → Reach s'

/-- The link invariant on the two record stores: a frame reference is a frame that has been
allocated, and a page that is not file-backed is the owner of the frame it refers to and the only
page referring to it. -/
def link_inv (pages : Nat → Page) (frames : Nat → Frame) (nf : Nat) : Prop :=
  (∀ q f, (pages q).frame = some f → f < nf)
  ∧ (∀ p f, (pages p).frame = some f → is_file (pages p) = false →
      (frames f).page = some p ∧ ∀ q, (pages q).frame = some f → q = p)

/-- The invariant carried along the reachable states: the link invariant on the record stores,
and no null address in the user pool. -/
def Inv (s : VM) : Prop :=
  link_inv s.pages s.frames s.next_frame ∧ 0 ∉ s.user_pool

/-- The residency invariant: the pages of every table are page-aligned, pairwise at different
addresses, allocated, and in no other table; an address is mapped in a page table only where the
table holds a page; and a page of a table has a frame reference exactly when its address is
mapped in the page table of that thread. -/
structure ResInv (s : VM) : Prop where
  aligned : ∀ t p, p ∈ (s.threads t).spt → pg_ofs (s.pages p).va = 0
  unique : ∀ t p q, p ∈ (s.threads t).spt → q ∈ (s.threads t).spt →
    (s.pages p).va = (s.pages q).va → p = q
  disjoint : ∀ t t' p, p ∈ (s.threads t).spt → p ∈ (s.threads t').spt → t = t'
  bound : ∀ t p, p ∈ (s.threads t).spt → p < s.next_page
  mapped : ∀ t va, ((s.threads t).pml4 va).isSome = true →
    ∃ p, p ∈ (s.threads t).spt ∧ (s.pages p).va = va
  resident : ∀ t p, p ∈ (s.threads t).spt →
    ((s.pages p).frame.isSome = true ↔ ((s.threads t).pml4 (s.pages p).va).isSome = true)
  stack : ∀ t, pg_ofs (s.threads t).stack_bottom = 0 ∧ (s.threads t).stack_bottom < 2 ^ 64
  pt : s.pt_ok = true
  pool : 0 ∉ s.user_pool

/-- The reachable states of `Reach` in which, in addition, every call acts on the address space
of the running thread with page-aligned addresses and page-table memory is available: pages are
allocated at page-aligned addresses, `supplemental_page_table_copy` fills the table of the
running thread (as fork does), and `destroy` is applied to pages of the running thread. -/
inductive ReachOwn : VM → Prop where
  | boot (pool : List Nat) (swap : List Bool) : 0 ∉ pool → ReachOwn (vm_boot pool swap)
  | switch (s : VM) (t : Nat) : ReachOwn s → ReachOwn (switch_to s t)
  | alloc (s : VM) (type upage : Nat) (w : Bool) (init : Option Loader) (aux : Option Aux)
      (r : Bool) (s' : VM) :
      ReachOwn s → pg_ofs upage = 0 →
      vm_alloc_page_with_initializer s type upage w init aux = some (r, s') → ReachOwn s'
  | claim (s : VM) (va : Nat) (r : Bool) (s' : VM) :
      ReachOwn s → s.user_pool ≠ [] → vm_claim_page s va = some (r, s') → ReachOwn s'
  | fault (s : VM) (rsp addr : Nat) (user write not_present : Bool) (r : Bool) (s' : VM) :
      ReachOwn s → s.user_pool ≠ [] →
      vm_try_handle_fault s rsp addr user write not_present = some (r, s') → ReachOwn s'
  | copy (s : VM) (src : Nat) (r : Bool) (s' : VM) :
      ReachOwn s → supplemental_page_table_copy s s.cur src = some (r, s') → ReachOwn s'
  | munmap (s : VM) (addr : Nat) (s' : VM) :
      ReachOwn s → do_munmap s addr = some s' → ReachOwn s'
  | destroy_page (s : VM) (pid : Nat) (s' : VM) :
      ReachOwn s → pid ∈ (cur_thread s).spt → destroy s pid = some s' → ReachOwn s'

/-- A file-backed page mapped at `uva_a` (50 bytes of file 3), registered by the parent. -/
def file_state1 : VM :=
  state_of (vm_alloc_page_with_initializer (vm_boot [kpage0, kpage1] [false]) VM_FILE uva_a true
    (some .lazy_load_segment) (some { file := 3, offset := 0, page_read_bytes := 50 }))
    (vm_boot [kpage0, kpage1] [false])

/-- The parent has faulted the file-backed page in. -/
def file_state2 : VM := state_of (vm_claim_page file_state1 uva_a) file_state1

/-- The child (thread 1) has duplicated the address space of the parent (thread 0). -/
def file_forked_state : VM :=
  state_of (supplemental_page_table_copy (switch_to file_state2 1) 1 0) (switch_to file_state2 1)

/-- An anonymous page registered at `uva_a`, at a moment when no page-table memory is left. -/
def no_pt_state1 : VM :=
  { state_of (vm_alloc_page_with_initializer (vm_boot [kpage0] [false]) VM_ANON uva_a true none
      none) (vm_boot [kpage0] [false]) with pt_ok := false }

/-- The state after the claim of that page has failed. -/
def no_pt_state2 : VM := state_of (vm_claim_page no_pt_state1 uva_a) no_pt_state1

/-- Modelled from the spec: `hash_delete` of lib/kernel/hash.c (not among the sources) removes
from the table of thread `spt` the element that compares equal to the page `pid`, that is the
page with the same `va`, when there is one. -/
def hash_delete (s : VM) (spt : Nat) (pid : Nat) : VM :=
  match (s.threads spt).spt.find? (fun q => decide ((s.pages q).va = (s.pages pid).va)) with
  | some q => set_thread s spt { s.threads spt with spt := (s.threads spt).spt.erase q }
  | none => s

/-- The function `vm_dealloc_page` of vm/vm.c: `destroy (page)`, then `free (page)`; the released
record stays in the store, where a pointer left behind still reaches it. -/
def vm_dealloc_page (s : VM) (pid : Nat) : Option VM :=
  destroy s pid

/-- The function `spt_remove_page` of vm/vm.c.  The element is deleted from the table of the
running thread (`thread_current ()->spt`); the parameter `spt` is not used. -/
def spt_remove_page (s : VM) (spt : Nat) (pid : Nat) : Option VM :=
  let _unused := spt
  vm_dealloc_page (hash_delete s s.cur pid) pid

/-- Modelled from the spec: `malloc` of threads/malloc.c (not among the sources) for a record of
a store: the next identifier `next` of the store, or the null pointer when the kernel heap is
exhausted (`heap_ok` false). -/
def malloc (heap_ok : Bool) (next : Nat) : Option Nat :=
  if heap_ok then some next else none

/-- The function `vm_get_frame` of vm/vm.c with the outcome of its `malloc` made explicit:
`ASSERT (frame != NULL)` stops the kernel on the null pointer; with a record the function
proceeds as `vm_get_frame`. -/
def vm_get_frame_heap (s : VM) (heap_ok : Bool) : Option (Nat × VM) :=
  match malloc heap_ok s.next_frame with
  | none => none
  | some _ => vm_get_frame s

/-- The function `vm_do_claim_page` of vm/vm.c over `vm_get_frame_heap`. -/
def vm_do_claim_page_heap (s : VM) (heap_ok : Bool) (page : Nat) : Option (Bool × VM) :=
  match vm_get_frame_heap s heap_ok with
  | none => none
  | some (frame, s1) =>
    let s2 := set_frame s1 frame { s1.frames frame with page := some page }
    let s3 := set_page s2 page { s2.pages page with frame := some frame }
    let r := pml4_set_page s3 s3.cur (s3.pages page).va (s3.frames frame).kva (s3.pages page).writable
    if r.1 = false then some (false, r.2)
    else swap_in r.2 page (r.2.frames frame).kva

/-- The function `vm_claim_page` of vm/vm.c over `vm_do_claim_page_heap`. -/
def vm_claim_page_heap (s : VM) (heap_ok : Bool) (va : Nat) : Option (Bool × VM) :=
  match spt_find_page s s.cur va with
  | none => some (false, s)
  | some page => vm_do_claim_page_heap s heap_ok page

/-- The function `vm_alloc_page_with_initializer` of vm/vm.c with the outcome of its `malloc`
made explicit: the pointer is handed to `uninit_new` and then written through
(`page->writable = writable`) without a test, which stops the kernel on the null pointer; with a
record the function proceeds as `vm_alloc_page_with_initializer`. -/
def vm_alloc_page_with_initializer_heap (s : VM) (heap_ok : Bool) (type : Nat) (upage : Nat)
    (writable : Bool) (init : Option Loader) (aux : Option Aux) : Option (Bool × VM) :=
  if VM_TYPE type = VM_UNINIT then none
  else
    match spt_find_page s s.cur upage with
    | none =>
      match malloc heap_ok s.next_page with
      | none => none
      | some _ => vm_alloc_page_with_initializer s type upage writable init aux
    | some _ => some (false, s)

/-! ## FAT file system (filesys/fat.c, filesys/inode.c, filesys/filesys.c) -/

/-- Modelled from the spec: the constant `EOChain` of include/filesys/fat.h (not among the
sources), the end-of-chain mark of a FAT entry. -/
def EOChain : Nat := 0x0FFFFFFF

/-- Modelled from the spec: the constant `ROOT_DIR_CLUSTER` of include/filesys/fat.h (not among
the sources). -/
def ROOT_DIR_CLUSTER : Nat := 1

/-- Modelled from the spec: the constant `FILE_TYPE` of the inode types (0: file, 1: directory,
2: link). -/
def FILE_TYPE : Nat := 0

/-- The members of `struct fat_fs` of filesys/fat.c that the cluster routines use: the array
`fat`, `fat_length`, `data_start` and `bs.root_dir_cluster`.  The array is a total function; an
index at or beyond `fat_length` lies outside the C array. -/
structure FatFs where
  fat : Nat → Nat
  fat_length : Nat
  data_start : Nat
  root_dir_cluster : Nat

/-- The function `fat_put` of filesys/fat.c. -/
def fat_put (fs : FatFs) (clst val : Nat) : FatFs :=
  { fs with fat := upd fs.fat clst val }

/-- The function `fat_get` of filesys/fat.c. -/
def fat_get (fs : FatFs) (clst : Nat) : Nat :=
  fs.fat clst

/-- The `for` loop of `get_empty_cluster`, from `clst` on; the recursion is on a bound for the
number of rounds. -/
def get_empty_cluster_loop (fs : FatFs) : Nat → Nat → Nat
  | 0, clst => clst
  | fuel + 1, clst =>
    if clst < fs.fat_length then
      if fat_get fs clst = 0 then clst else get_empty_cluster_loop fs fuel (clst + 1)
    else clst

/-- The function `get_empty_cluster` of filesys/fat.c: the scan starts right after the root
directory cluster; `fat_length` rounds are enough for it to reach `fat_length`. -/
def get_empty_cluster (fs : FatFs) : Nat :=
  get_empty_cluster_loop fs fs.fat_length (fs.root_dir_cluster + 1)

/-- The `while` loop of `fat_create_chain` that walks from `tmp` to the cluster whose entry is
`EOChain`; `none` when the bound on the number of rounds is used up (the walk runs in a cycle or
leaves the array). -/
def fat_create_chain_walk (fs : FatFs) : Nat → Nat → Option Nat
  | 0, _ => none
  | fuel + 1, tmp =>
    if fat_get fs tmp ≠ EOChain then fat_create_chain_walk fs fuel (fat_get fs tmp)
    else some tmp

/-- The function `fat_create_chain` of filesys/fat.c: the cluster it returns and the file
system afterwards. -/
def fat_create_chain (fs : FatFs) (clst : Nat) : Option (Nat × FatFs) :=
  let empty_clst := get_empty_cluster fs
  if empty_clst ≥ fs.fat_length then some (0, fs)
  else
    let fs1 := fat_put fs empty_clst EOChain
    if clst = 0 then some (empty_clst, fs1)
    else
      match fat_create_chain_walk fs1 fs1.fat_length clst with
      | none => none
      | some tmp => some (empty_clst, fat_put fs1 tmp empty_clst)

/-- The `while` loop of `fat_remove_chain`; `none` when the bound on the number of rounds is used
up. -/
def fat_remove_chain_loop : Nat → FatFs → Nat → Option FatFs
  | 0, _, _ => none
  | fuel + 1, fs, target =>
    if fat_get fs target ≠ EOChain then
      let next := fat_get fs target
      fat_remove_chain_loop fuel (fat_put fs target 0) next
    else some fs

/-- The function `fat_remove_chain` of filesys/fat.c. -/
def fat_remove_chain (fs : FatFs) (clst pclst : Nat) : Option FatFs :=
  let target := clst
  if pclst = 0 then some (fat_put fs pclst EOChain)
  else fat_remove_chain_loop (fs.fat_length + 1) fs target

/-- The function `cluster_to_sector` of filesys/fat.c. -/
def cluster_to_sector (fs : FatFs) (clst : Nat) : Nat :=
  fs.data_start + clst

/-- The members `start`, `length` and `type` of `struct inode_disk` of filesys/inode.c. -/
structure InodeDisk where
  start : Nat
  length : Nat
  type : Nat

/-- The members of the in-memory `struct inode` of filesys/inode.c. -/
structure Inode where
  sector : Nat
  open_cnt : Int
  removed : Bool
  deny_write_cnt : Int
  data : InodeDisk

/-- The file system: the FAT and the sectors of the disk that hold an `inode_disk`.  The bytes
of the data sectors are not part of the state. -/
structure Filesys where
  fat_fs : FatFs
  disk : Nat → InodeDisk

/-- The function `bytes_to_sectors` of filesys/inode.c. -/
def bytes_to_sectors (size : Nat) : Nat :=
  (size + DISK_SECTOR_SIZE - 1) / DISK_SECTOR_SIZE

/-- The `while (sectors > 0)` loop of `inode_create`: each round (after writing a sector of
zeros at `target`) asks `fat_create_chain` for one more cluster and does not test the result. -/
def inode_create_loop : Nat → FatFs → Nat → Option FatFs
  | 0, fs, _ => some fs
  | sectors + 1, fs, target =>
    match fat_create_chain fs target with
    | none => none
    | some (next, fs1) => inode_create_loop sectors fs1 next

/-- The function `inode_create` of filesys/inode.c (`calloc` succeeds). -/
def inode_create (s : Filesys) (sector length type : Nat) : Option (Bool × Filesys) :=
  let sectors := bytes_to_sectors length
  match fat_create_chain s.fat_fs 0 with
  | none => none
  | some (start_clst, fs1) =>
    if start_clst ≠ 0 then
      let disk_inode : InodeDisk :=
        { start := cluster_to_sector fs1 start_clst, length := length, type := type }
      let s1 : Filesys := { fat_fs := fs1, disk := upd s.disk sector disk_inode }
      match inode_create_loop sectors s1.fat_fs start_clst with
      | none => none
      | some fs2 => some (true, { s1 with fat_fs := fs2 })
    else some (false, { s with fat_fs := fs1 })

/-- The function `inode_open` of filesys/inode.c for a sector that is not open yet. -/
def inode_open (s : Filesys) (sector : Nat) : Inode :=
  { sector := sector, open_cnt := 1, removed := false, deny_write_cnt := 0,
    data := s.disk sector }

/-- The function `inode_reopen` of filesys/inode.c. -/
def inode_reopen (inode : Inode) : Inode :=
  { inode with open_cnt := inode.open_cnt + 1 }

/-- The function `inode_remove` of filesys/inode.c. -/
def inode_remove (inode : Inode) : Inode :=
  { inode with removed := true }

/-- The function `inode_close` of filesys/inode.c for an inode that is not a link: the inode
with its count decreased, and the file system.  The last closer of a removed inode calls
`fat_remove_chain (inode->sector, 0)`. -/
def inode_close (s : Filesys) (inode : Inode) : Option (Inode × Filesys) :=
  let inode1 := { inode with open_cnt := inode.open_cnt - 1 }
  if inode1.open_cnt = 0 then
    let removed : Option FatFs :=
      if inode1.removed then fat_remove_chain s.fat_fs inode1.sector 0 else some s.fat_fs
    match removed with
    | none => none
    | some fs1 => some (inode1, { fat_fs := fs1, disk := upd s.disk inode1.sector inode1.data })
  else some (inode1, s)

/-- The function `filesys_create` of filesys/filesys.c: its result, the sector of the inode and
the file system.  Modelled from the spec: the directory routines (filesys/directory.c, not among
the sources) do not touch the FAT; `dir` tells whether the directory was opened and `added` is
the result of `dir_add`. -/
def filesys_create (s : Filesys) (initial_size : Nat) (dir added : Bool) :
    Option (Bool × Nat × Filesys) :=
  match fat_create_chain s.fat_fs 0 with
  | none => none
  | some (inode_cluster, fs1) =>
    let inode_sector := cluster_to_sector fs1 inode_cluster
    let s1 : Filesys := { s with fat_fs := fs1 }
    let created : Option (Bool × Filesys) :=
      if dir then
        match inode_create s1 inode_sector initial_size FILE_TYPE with
        | none => none
        | some (ok, s2) => some (ok && added, s2)
      else some (false, s1)
    match created with
    | none => none
    | some (success, s2) =>
      if success = false ∧ inode_sector ≠ 0 then
        match fat_remove_chain s2.fat_fs inode_cluster 1 with
        | none => none
        | some fs3 => some (success, inode_sector, { s2 with fat_fs := fs3 })
      else some (success, inode_sector, s2)

/-- The function `filesys_remove` of filesys/filesys.c for a plain file whose inode lies in
sector `sector`: the inode that stays open and the file system.  Modelled from the spec:
`dir_lookup` and `dir_remove` (filesys/directory.c, not among the sources): `dir_lookup` opens
the inode of the entry; `dir_remove` opens it once more, erases the entry, calls `inode_remove`
and closes its own opener. -/
def filesys_remove (s : Filesys) (sector : Nat) : Option (Bool × Inode × Filesys) :=
  let inode := inode_open s sector
  let inode1 := inode_remove (inode_reopen inode)
  match inode_close s inode1 with
  | none => none
  | some (inode2, s1) => some (true, inode2, s1)

/-- The number of FAT entries in use: the space the file system occupies, in clusters. -/
def fat_used (fs : FatFs) : Nat :=
  ((List.range fs.fat_length).filter (fun c => decide (fat_get fs c ≠ 0))).length

/-- A freshly formatted file system on a disk of 18 sectors (one FAT sector, `data_start` 2,
`fat_length` 16): the root directory cluster is a chain of its own and the directory data
occupy the chain of clusters 2 and 3. -/
def fs_formatted : Filesys :=
  { fat_fs :=
      { fat := fun c => if c = 1 then EOChain else if c = 2 then 3 else if c = 3 then EOChain
          else 0,
        fat_length := 16, data_start := 2, root_dir_cluster := ROOT_DIR_CLUSTER },
    disk := fun _ => { start := 0, length := 0, type := 0 } }

/-- The file system left by a `filesys_create` result (`d` when the kernel stopped). -/
def fs_of (r : Option (Bool × Nat × Filesys)) (d : Filesys) : Filesys :=
  match r with
  | some (_, _, s) => s
  | none => d

/-- The file system after `filesys_create` of a file of `size` bytes in `fs_formatted`,
`filesys_remove` of that file and the close of the opener that `filesys_remove` leaves
behind. -/
def fs_create_remove (size : Nat) : Option Filesys :=
  match filesys_create fs_formatted size true true with
  | none => none
  | some (_, sector, s1) =>
    match filesys_remove s1 sector with
    | none => none
    | some (_, inode, s2) =>
      match inode_close s2 inode with
      | none => none
      | some (_, s3) => some s3

/-- The list `l` is a chain of the FAT: each cluster of `l` but the last has the next cluster
of `l` as its entry, and the entry of the last one is `EOChain`. -/
def fat_chain (fs : FatFs) : List Nat → Bool
  | [] => false
  | [c] => decide (fat_get fs c = EOChain)
  | c :: d :: rest => decide (fat_get fs c = d) && fat_chain fs (d :: rest)

/-- The chain that starts at `clst` is `l`, it is acyclic, and its clusters are cluster numbers
of the FAT other than 0. -/
def chain_wf (fs : FatFs) (clst : Nat) (l : List Nat) : Prop :=
  l.head? = some clst ∧ fat_chain fs l = true ∧ l.Nodup ∧ ∀ x ∈ l, x ≠ 0 ∧ x < fs.fat_length

/-- The cluster `c` is the lowest free cluster above the root directory cluster. -/
def lowest_free (fs : FatFs) (c : Nat) : Prop :=
  fs.root_dir_cluster < c ∧ c < fs.fat_length ∧ fat_get fs c = 0
    ∧ ∀ d, fs.root_dir_cluster < d → d < c → fat_get fs d ≠ 0

/-- The conversion of a value to `off_t`, the 32-bit `int` of include/userprog/process.h: the
value is reduced modulo `2 ^ 32` into the range from `-2 ^ 31` up to `2 ^ 31 - 1`. -/
def off_t_of (x : Int) : Int := (x + 2 ^ 31) % 2 ^ 32 - 2 ^ 31

/-- The `while` loop of `do_mmap` of vm/file.c (`malloc` of the argument record succeeds): true
when the loop ends, false on `goto err`.  `read_bytes` and `zero_bytes` are `size_t`; `offset`
is an `off_t`, and in `offset += page_read_bytes` the sum is formed in `size_t` and converted
back to `off_t`.  The recursion is on a bound for the number of rounds. -/
def do_mmap_loop (mfile : Nat) (writable : Bool) :
    Nat → VM → Nat → Nat → Nat → Int → Option (Bool × VM)
  | 0, _, _, _, _, _ => none
  | fuel + 1, s, addr, read_bytes, zero_bytes, offset =>
    if read_bytes > 0 ∨ zero_bytes > 0 then
      let page_read_bytes := if read_bytes < PGSIZE then read_bytes else PGSIZE
      let page_zero_bytes := PGSIZE - page_read_bytes
      let aux : Aux := ⟨mfile, offset, page_read_bytes⟩
      match vm_alloc_page_with_initializer s VM_FILE addr writable (some .lazy_load_segment)
          (some aux) with
      | none => none
      | some (false, s1) => some (false, s1)
      | some (true, s1) =>
        do_mmap_loop mfile writable fuel s1 (addr + PGSIZE) (ptr_sub read_bytes page_read_bytes)
          (ptr_sub zero_bytes page_zero_bytes)
          (off_t_of ((offset % 2 ^ 64 + (page_read_bytes : Int)) % 2 ^ 64))
    else some (true, s)

/-- The function `do_mmap` of vm/file.c: the address it returns (`none` is the null pointer)
and the state.  `mfile` is the handle `file_reopen` returned and `file_len` the value of
`file_length (mfile)`; a failed `ASSERT` stops the kernel. -/
def do_mmap (s : VM) (addr length : Nat) (writable : Bool) (mfile file_len : Nat)
    (offset : Int) : Option (Option Nat × VM) :=
  let ori_addr := addr
  let read_bytes := if length > file_len then file_len else length
  let zero_bytes := PGSIZE - read_bytes % PGSIZE
  if (read_bytes + zero_bytes) % PGSIZE ≠ 0 then none
  else if pg_ofs addr ≠ 0 then none
  else if Int.tmod offset PGSIZE ≠ 0 then none
  else
    match do_mmap_loop mfile writable (read_bytes / PGSIZE + 2) s addr read_bytes zero_bytes
        offset with
    | none => none
    | some (true, s1) => some (some ori_addr, s1)
    | some (false, s1) => some (none, s1)

/-- The record of page `i` of a mapping of `r` bytes of file `mfile` from `offset` at `addr`;
the file offset is `offset + i * PGSIZE` as an `off_t`. -/
def mmap_page (addr : Nat) (w : Bool) (mfile : Nat) (offset : Int) (r i : Nat) : Page :=
  { va := addr + i * PGSIZE, frame := none, writable := w, accessible := false,
    payload := .uninit (some .lazy_load_segment) VM_FILE
      (some ⟨mfile, off_t_of (offset + (i : Int) * PGSIZE), min PGSIZE (r - i * PGSIZE)⟩)
      (some .file_backed_initializer) }

/-- The state a `do_mmap` result stands for (`d` when the kernel stopped). -/
def mmap_state (r : Option (Option Nat × VM)) (d : VM) : VM :=
  match r with
  | some (_, s) => s
  | none => d

/-- Run `destroy` on the pages of the list, in order. -/
def destroy_all : List Nat → VM → Option VM
  | [], s => some s
  | p :: rest, s =>
    match destroy s p with
    | none => none
    | some s1 => destroy_all rest s1

/-- A file of 50 bytes is mapped at `uva_a` (one page, by `do_mmap`) and read, and the page right
after the mapping, at `uva_b`, is an anonymous page that is resident. -/
def mapped_then_anon_state : VM :=
  let s0 := vm_boot [kpage0, kpage1] [false]
  let s1 := mmap_state (do_mmap s0 uva_a 50 true 0 50 0) s0
  let s2 := state_of (vm_claim_page s1 uva_a) s1
  let s3 := state_of (vm_alloc_page s2 VM_ANON uva_b true) s2
  state_of (vm_claim_page s3 uva_b) s3

/-- The two states have the same running thread, the same tables and the same page addresses. -/
def same_table (s s' : VM) : Prop :=
  s'.cur = s.cur ∧ (∀ t, (s'.threads t).spt = (s.threads t).spt)
    ∧ ∀ q, (s'.pages q).va = (s.pages q).va

/-- A parent (thread 0) holds one page at `uva_a` that is allocated but not loaded yet; a third
thread (thread 2) is running. -/
def other_runs_state : VM :=
  let s0 := vm_boot [kpage0] [false]
  let s1 := state_of (vm_alloc_page s0 VM_ANON uva_a true) s0
  switch_to s1 2

/-- The state in which `forked_state` runs `supplemental_page_table_copy`: the parent (thread 0)
holds one resident anonymous page at `uva_a` and the child (thread 1) is running. -/
def prefork_state : VM :=
  let s0 := vm_boot [kpage0, kpage1, kpage2] [false]
  let s1 := state_of (vm_alloc_page s0 VM_ANON uva_a true) s0
  let s2 := state_of (vm_claim_page s1 uva_a) s1
  let s3 := or_state (user_store s2 USER_STACK uva_a 7) s2
  switch_to s3 1

/-- The page `q` is the copy of the source page `p`: the same address, writable flag and
`page_get_type`, and for an uninitialized source page an uninitialized page without a frame
that holds the same loader and argument. -/
def copy_of (q p : Page) : Prop :=
  q.va = p.va ∧ q.writable = p.writable ∧ page_get_type q = page_get_type p
    ∧ ∀ init t aux i, p.payload = .uninit init t aux i →
        q.frame = none ∧ ∃ t' i', q.payload = .uninit init t' aux i'

/-- Two resident anonymous pages of the running thread, page 0 at `uva_a` in frame 0 and page 1
at `uva_b` in frame 1, on a machine with a single swap slot, which is free. -/
def two_anon_state : VM :=
  let s0 := vm_boot [kpage0, kpage1] [false]
  let s1 := state_of (vm_alloc_page s0 VM_ANON uva_a true) s0
  let s2 := state_of (vm_claim_page s1 uva_a) s1
  let s3 := state_of (vm_alloc_page s2 VM_ANON uva_b true) s2
  state_of (vm_claim_page s3 uva_b) s3

/-- Page 0 of `two_anon_state` has been swapped out (it took slot 0) and swapped in again. -/
def swapped_in_state : VM :=
  let s1 := state_of (anon_swap_out two_anon_state 0) two_anon_state
  state_of (anon_swap_in s1 0 kpage0) s1

/-- After `swapped_in_state`, page 1 has been swapped out (it takes the free slot 0). -/
def slot_reused_state : VM :=
  state_of (anon_swap_out swapped_in_state 1) swapped_in_state

/-- A thread at boot while no page-table memory is available. -/
def no_pt_boot_state : VM :=
  { vm_boot [kpage0] [false] with pt_ok := false }

/-- The parent (thread 0) holds one anonymous page at `uva_a` that has been swapped out (no frame,
slot 0); the child (thread 1) is running. -/
def swapped_parent_state : VM :=
  let s0 := vm_boot [kpage0, kpage1] [false]
  let s1 := state_of (vm_alloc_page s0 VM_ANON uva_a true) s0
  let s2 := state_of (vm_claim_page s1 uva_a) s1
  let s3 := state_of (anon_swap_out s2 0) s2
  switch_to s3 1

/-- The parent (thread 0) holds one page of a file mapping at `uva_a` that has been loaded and
then swapped out (no frame); the child (thread 1) is running. -/
def swapped_file_parent_state : VM :=
  let s0 := vm_boot [kpage0, kpage1] [false]
  let s1 := mmap_state (do_mmap s0 uva_a 50 true 0 50 0) s0
  let s2 := state_of (vm_claim_page s1 uva_a) s1
  let s3 := state_of (file_backed_swap_out s2 0) s2
  switch_to s3 1

/-- The address `victim->page->va` that `vm_get_victim` looks at for frame `f` (0 when the frame
has no page). -/
def frame_va (s : VM) (f : Nat) : Nat :=
  match (s.frames f).page with
  | some p => (s.pages p).va
  | none => 0

/-- The accessed bit `vm_get_victim` reads for frame `f`: that of the address of its owning
page in the page table of the running thread. -/
def frame_accessed (s : VM) (f : Nat) : Bool :=
  pml4_is_accessed s s.cur (frame_va s f)

/-- The state `s'` differs from `s` at most in accessed bits of the running thread: the bits of
the frames of `pre` are clear, and the entries of all other pages are as before. -/
def scan_post (s : VM) (pre : List Nat) (s' : VM) : Prop :=
  s'.cur = s.cur ∧ s'.pages = s.pages ∧ s'.frames = s.frames
    ∧ s'.frame_table = s.frame_table
    ∧ (∀ t, t ≠ s.cur → s'.threads t = s.threads t)
    ∧ (∀ g ∈ pre, frame_accessed s' g = false)
    ∧ (∀ x, (∀ g ∈ pre, pg_round_down (frame_va s g) ≠ x) →
        (s'.threads s.cur).pml4 x = (s.threads s.cur).pml4 x)

/-- The child of `forked_state` has read at `uva_a`: the processor has set the accessed bit of
its mapping there. -/
def accessed_fork_state : VM :=
  pml4_set_accessed forked_state 1 uva_a true

/-- An anonymous page has been allocated at `uva_a`. -/
def anon_state1 : VM :=
  state_of (vm_alloc_page_with_initializer (vm_boot [kpage0, kpage1] [false]) VM_ANON uva_a true
    none none) (vm_boot [kpage0, kpage1] [false])

/-- The anonymous page at `uva_a` has been claimed: it is resident in frame 0. -/
def anon_state2 : VM :=
  state_of (vm_claim_page anon_state1 uva_a) anon_state1

/-- Modelled from the spec: the constant `SECTORS_PER_CLUSTER` of include/filesys/fat.h (not
among the sources; `struct fat_boot` notes it as fixed to 1). -/
def SECTORS_PER_CLUSTER : Nat := 1

/-- The value of `sizeof (cluster_t)`; a FAT entry is an `unsigned int`. -/
def sizeof_cluster_t : Nat := 4

/-- The members of `struct fat_boot` of filesys/fat.c apart from the magic number. -/
structure FatBoot where
  sectors_per_cluster : Nat
  total_sectors : Nat
  fat_start : Nat
  fat_sectors : Nat
  root_dir_cluster : Nat

/-- The function `fat_boot_create` of filesys/fat.c for a disk of `disk_size` sectors; the
arithmetic on `disk_sector_t` and `unsigned int` is modulo `2 ^ 32`. -/
def fat_boot_create (disk_size : Nat) : FatBoot :=
  let fat_sectors := ((disk_size + 2 ^ 32 - 1) % 2 ^ 32
    / (DISK_SECTOR_SIZE / sizeof_cluster_t * SECTORS_PER_CLUSTER + 1) + 1) % 2 ^ 32
  { sectors_per_cluster := SECTORS_PER_CLUSTER, total_sectors := disk_size, fat_start := 1,
    fat_sectors := fat_sectors, root_dir_cluster := ROOT_DIR_CLUSTER }

/-- The function `fat_fs_init` of filesys/fat.c: `data_start` and `fat_length` from the boot
record and the disk size (`unsigned int` arithmetic); `fat` is the array allocated later. -/
def fat_fs_init (bs : FatBoot) (disk_size : Nat) (fat : Nat → Nat) : FatFs :=
  { fat := fat,
    fat_length := (disk_size + 2 * 2 ^ 32 - bs.fat_sectors - 1) % 2 ^ 32,
    data_start := (bs.fat_sectors + bs.fat_start) % 2 ^ 32,
    root_dir_cluster := bs.root_dir_cluster }

/-- The function `sector_to_cluster` of filesys/fat.c; the difference is taken in `cluster_t`
arithmetic (modulo `2 ^ 32`). -/
def sector_to_cluster (fs : FatFs) (sctr : Nat) : Nat :=
  let clst := (sctr + 2 ^ 32 - fs.data_start % 2 ^ 32) % 2 ^ 32
  if clst < 2 then 0 else clst

/-- The `while (pos >= DISK_SECTOR_SIZE)` loop of `byte_to_sector`: when the entry of `target`
is `EOChain` the chain is extended by `fat_create_chain`, whose result is not looked at.  The
recursion is on a bound for the number of rounds. -/
def byte_to_sector_loop : Nat → FatFs → Nat → Int → Option (Nat × FatFs)
  | 0, _, _, _ => none
  | fuel + 1, fs, target, pos =>
    if pos ≥ (DISK_SECTOR_SIZE : Int) then
      let grown : Option FatFs :=
        if fat_get fs target = EOChain then
          match fat_create_chain fs target with
          | none => none
          | some (_, fs1) => some fs1
        else some fs
      match grown with
      | none => none
      | some fs1 => byte_to_sector_loop fuel fs1 (fat_get fs1 target) (pos - DISK_SECTOR_SIZE)
    else some (target, fs)

/-- The function `byte_to_sector` of filesys/inode.c (the version compiled with `EFILESYS`):
the sector it returns and the file system afterwards.  One round per sector of `pos`, and one
more for the closing test. -/
def byte_to_sector (fs : FatFs) (inode : Inode) (pos : Int) : Option (Nat × FatFs) :=
  let target := sector_to_cluster fs inode.data.start
  match byte_to_sector_loop (pos.toNat / DISK_SECTOR_SIZE + 1) fs target pos with
  | none => none
  | some (t, fs1) => some (cluster_to_sector fs1 t, fs1)

/-- The function `inode_length` of filesys/inode.c. -/
def inode_length (inode : Inode) : Int :=
  inode.data.length

/-- The `while (size > 0)` loop of `inode_read_at` for an inode that is not a link, with a
bounce buffer that can be allocated: the number of bytes read and the file system afterwards.
The bytes transferred are not part of the state.  The recursion is on a bound for the number of
rounds. -/
def inode_read_at_loop (inode : Inode) : Nat → FatFs → Int → Int → Int → Option (Int × FatFs)
  | 0, _, _, _, _ => none
  | fuel + 1, fs, size, offset, bytes_read =>
    if size > 0 then
      match byte_to_sector fs inode offset with
      | none => none
      | some (_, fs1) =>
        let sector_ofs := Int.tmod offset DISK_SECTOR_SIZE
        let inode_left := inode_length inode - offset
        let sector_left := (DISK_SECTOR_SIZE : Int) - sector_ofs
        let min_left := if inode_left < sector_left then inode_left else sector_left
        let chunk_size := if size < min_left then size else min_left
        if chunk_size ≤ 0 then some (bytes_read, fs1)
        else
          inode_read_at_loop inode fuel fs1 (size - chunk_size) (offset + chunk_size)
            (bytes_read + chunk_size)
    else some (bytes_read, fs)

/-- The function `inode_read_at` of filesys/inode.c: a round reads at least one byte, so
`size + 1` rounds are enough. -/
def inode_read_at (fs : FatFs) (inode : Inode) (size offset : Int) : Option (Int × FatFs) :=
  inode_read_at_loop inode (size.toNat + 1) fs size offset 0

/-- The FAT after `fat_create_chain (0)` in `fs_formatted`: cluster 4 is a chain of its own,
the data of a file that has one cluster. -/
def one_cluster_fat : FatFs :=
  ((fat_create_chain fs_formatted.fat_fs 0).getD (0, fs_formatted.fat_fs)).2

/-- An open inode of `length` bytes whose data start in cluster 4 of `one_cluster_fat`. -/
def one_cluster_inode (length : Nat) : Inode :=
  ⟨0, 1, false, 0, ⟨cluster_to_sector one_cluster_fat 4, length, FILE_TYPE⟩⟩

/-- The record invariant of the frames: every released frame record has been allocated; no
page refers to a released record and no released record is in the frame table; the entries of
the frame table have been allocated and are pairwise different. -/
def live_inv (s : VM) : Prop :=
  (∀ f ∈ s.freed_frames, f < s.next_frame)
    ∧ (∀ p f, (s.pages p).frame = some f → f ∉ s.freed_frames)
    ∧ (∀ f ∈ s.frame_table, f ∉ s.freed_frames ∧ f < s.next_frame)
    ∧ s.frame_table.Nodup

/-- The step from `s` to `s'` releases and allocates no frame record, adds no entry to the
frame table and adds no frame reference to a page. -/
def live_kept (s s' : VM) : Prop :=
  s'.freed_frames = s.freed_frames ∧ s'.next_frame = s.next_frame
    ∧ s'.frame_table.Sublist s.frame_table
    ∧ ∀ p f, (s'.pages p).frame = some f → ∃ q, (s.pages q).frame = some f

/-- Thread 0 holds a resident anonymous page at `uva_a` (page 0) in the only frame of the
machine; thread 1, whose table has no page at `uva_a`, is running and has registered an
anonymous page at `uva_b` (page 1).  The single swap slot is free. -/
def foreign_victim_state : VM :=
  let s0 := vm_boot [kpage0] [false]
  let s1 := state_of (vm_alloc_page s0 VM_ANON uva_a true) s0
  let s2 := state_of (vm_claim_page s1 uva_a) s1
  let s3 := switch_to s2 1
  state_of (vm_alloc_page s3 VM_ANON uva_b true) s3

/-- The child (thread 1) is about to duplicate the address space of the parent (thread 0), which
holds the resident anonymous page at `uva_a`, at a moment when no page-table memory is left. -/
def anon_prefork_no_pt_state : VM :=
  { switch_to anon_state2 1 with pt_ok := false }

/-- The state after `supplemental_page_table_copy` has failed in that situation. -/
def anon_copy_failed_state : VM :=
  state_of (supplemental_page_table_copy anon_prefork_no_pt_state 1 0) anon_prefork_no_pt_state

/-! ## Theorems -/

/-- C5 (the code departs from the claim): with the user pool exhausted, the only swap slot in use
and the victim an anonymous page, `swap_out` of the victim fails, yet `vm_evict_frame` yields the
victim frame and the `vm_claim_page` that triggered the eviction returns true; afterwards the
victim page and the newly claimed page both refer to frame 0, which names the new page as owner. -/
theorem vm_evict_frame_ignores_swap_out_failure :
    full_swap_state.user_pool = []
    ∧ full_swap_state.swap_table = [true]
    ∧ full_swap_state.frame_table = [0]
    ∧ (full_swap_state.frames 0).page = some 0
    ∧ (full_swap_state.pages 0).payload = .anon BITMAP_ERROR
    ∧ value_of (swap_out full_swap_state 0) = some false
    ∧ value_of (vm_evict_frame full_swap_state) = some (some 0)
    ∧ value_of (vm_claim_page full_swap_state uva_b) = some true
    ∧ ((state_of (vm_claim_page full_swap_state uva_b) full_swap_state).pages 0).frame = some 0
    ∧ ((state_of (vm_claim_page full_swap_state uva_b) full_swap_state).pages 1).frame = some 0
    ∧ ((state_of (vm_claim_page full_swap_state uva_b) full_swap_state).frames 0).page = some 1 := by
  decide

@[simp] theorem upd_same {α : Type} (f : Nat → α) (i : Nat) (v : α) : upd f i v i = v := by
  simp [upd]

theorem upd_other {α : Type} (f : Nat → α) (i j : Nat) (v : α) (h : j ≠ i) :
    upd f i v j = f j := by
  simp [upd, h]

@[simp] theorem upd_upd {α : Type} (f : Nat → α) (i : Nat) (v w : α) :
    upd (upd f i v) i w = upd f i w := by
  funext j
  by_cases h : j = i <;> simp [upd, h]

@[simp] theorem free_frame_pages (s : VM) (f : Option Nat) :
    (free_frame s f).pages = s.pages := by
  cases f <;> rfl

@[simp] theorem free_frame_frames (s : VM) (f : Option Nat) :
    (free_frame s f).frames = s.frames := by
  cases f <;> rfl

@[simp] theorem free_frame_threads (s : VM) (f : Option Nat) :
    (free_frame s f).threads = s.threads := by
  cases f <;> rfl

@[simp] theorem free_frame_cur (s : VM) (f : Option Nat) : (free_frame s f).cur = s.cur := by
  cases f <;> rfl

@[simp] theorem free_frame_frame_table (s : VM) (f : Option Nat) :
    (free_frame s f).frame_table = s.frame_table := by
  cases f <;> rfl

@[simp] theorem free_frame_next_frame (s : VM) (f : Option Nat) :
    (free_frame s f).next_frame = s.next_frame := by
  cases f <;> rfl

@[simp] theorem free_frame_next_page (s : VM) (f : Option Nat) :
    (free_frame s f).next_page = s.next_page := by
  cases f <;> rfl

@[simp] theorem free_frame_user_pool (s : VM) (f : Option Nat) :
    (free_frame s f).user_pool = s.user_pool := by
  cases f <;> rfl

@[simp] theorem free_frame_pt_ok (s : VM) (f : Option Nat) :
    (free_frame s f).pt_ok = s.pt_ok := by
  cases f <;> rfl

/-- Releasing a frame record commutes with clearing a mapping. -/
theorem free_frame_clear_eq (s : VM) (f : Option Nat) (pid : Nat) :
    pml4_clear_page (free_frame s f) (free_frame s f).cur ((free_frame s f).pages pid).va
      = free_frame (pml4_clear_page s s.cur (s.pages pid).va) f := by
  cases f <;> rfl

theorem free_frame_inv (s : VM) (f : Option Nat) (hi : Inv s) : Inv (free_frame s f) := by
  cases f <;> exact hi

theorem free_frame_res (s : VM) (f : Option Nat) (hi : ResInv s) : ResInv (free_frame s f) := by
  cases f with
  | none => exact hi
  | some g =>
    exact ⟨hi.aligned, hi.unique, hi.disjoint, hi.bound, hi.mapped, hi.resident, hi.stack, hi.pt,
      hi.pool⟩

theorem find_none_of_aligned (s : VM) (t va : Nat) (ha : pg_round_down va = va)
    (h : spt_find_page s t va = none) :
    ∀ q ∈ (s.threads t).spt, (s.pages q).va ≠ va := by
  unfold spt_find_page at h
  rw [List.find?_eq_none] at h
  intro q hq
  have := h q hq
  simpa [ha] using this

theorem vm_alloc_fresh (s : VM) (type upage : Nat) (w : Bool) (init : Option Loader)
    (aux : Option Aux) (ht : VM_TYPE type ≠ VM_UNINIT)
    (hfind : spt_find_page s s.cur upage = none) (ha : pg_round_down upage = upage)
    (hfresh : ∀ q ∈ (s.threads s.cur).spt, q ≠ s.next_page) :
    vm_alloc_page_with_initializer s type upage w init aux
      = some (true, alloc_post s type upage w init aux) := by
  have hno := find_none_of_aligned s s.cur upage ha hfind
  unfold vm_alloc_page_with_initializer
  simp only [ht, if_false, hfind]
  have hins : (List.find? (fun q => decide ((upd s.pages s.next_page
        { va := upage, frame := none, writable := w, accessible := false,
          payload := .uninit init type aux
            (if VM_TYPE type = VM_ANON then some .anon_initializer
             else if VM_TYPE type = VM_FILE then some .file_backed_initializer else none) } q).va
        = upage)) (s.threads s.cur).spt) = none := by
    rw [List.find?_eq_none]
    intro q hq
    simp [upd_other _ _ _ _ (hfresh q hq), hno q hq]
  simp [spt_insert_page, uninit_new, set_page, set_thread, alloc_post, hins]

theorem vm_get_frame_pool (s : VM) (k : Nat) (rest : List Nat) (hp : s.user_pool = k :: rest)
    (hk : k ≠ 0) :
    vm_get_frame s = some (s.next_frame,
      { s with
        next_frame := s.next_frame + 1,
        frames := upd s.frames s.next_frame { kva := k, page := none },
        frame_table := s.frame_table ++ [s.next_frame],
        user_pool := rest,
        mem := zero_page s.mem k }) := by
  simp [vm_get_frame, palloc_get_page, set_frame, hp, hk]

theorem vm_do_claim_page_pool (s : VM) (page k : Nat) (rest : List Nat)
    (hp : s.user_pool = k :: rest) (hk : k ≠ 0) (hpt : s.pt_ok = true) :
    vm_do_claim_page s page = swap_in (claim_post s page k rest) page k := by
  unfold vm_do_claim_page
  rw [vm_get_frame_pool s k rest hp hk]
  simp [pml4_set_page, set_frame, set_page, set_thread, hpt, claim_post]

theorem swap_in_frame_cond_refl (s : VM) (pid : Nat) : swap_in_frame_cond s s pid := by
  simp [swap_in_frame_cond]

theorem set_payload_frame_cond (s : VM) (pid : Nat) (pl : Payload) :
    swap_in_frame_cond s (set_page s pid { s.pages pid with payload := pl }) pid := by
  refine ⟨rfl, rfl, rfl, rfl, rfl, rfl, rfl, rfl, ?_, ?_⟩
  · intro q
    by_cases h : q = pid
    · subst h; simp [set_page]
    · simp [set_page, upd_other _ _ _ _ h]
  · intro q h
    simp [set_page, upd_other _ _ _ _ h]

theorem swap_in_frame_cond_trans {s1 s2 s3 : VM} {pid : Nat}
    (h1 : swap_in_frame_cond s1 s2 pid) (h2 : swap_in_frame_cond s2 s3 pid) :
    swap_in_frame_cond s1 s3 pid := by
  obtain ⟨a1, a2, a3, a4, a5, a6, a7, a8, a9, a10⟩ := h1
  obtain ⟨b1, b2, b3, b4, b5, b6, b7, b8, b9, b10⟩ := h2
  refine ⟨by rw [b1, a1], by rw [b2, a2], by rw [b3, a3], by rw [b4, a4], by rw [b5, a5],
    by rw [b6, a6], by rw [b7, a7], by rw [b8, a8], ?_, ?_⟩
  · intro q
    obtain ⟨c1, c2, c3, c4⟩ := a9 q
    obtain ⟨d1, d2, d3, d4⟩ := b9 q
    exact ⟨by rw [d1, c1], by rw [d2, c2], by rw [d3, c3], by rw [d4, c4]⟩
  · intro q h
    rw [b10 q h, a10 q h]

theorem lazy_load_segment_frame_cond (s : VM) (pid : Nat) (aux : Option Aux) (r : Bool)
    (s' : VM) (h : lazy_load_segment s pid aux = some (r, s')) : swap_in_frame_cond s s' pid := by
  unfold lazy_load_segment at h
  split at h
  · simp only [Option.some.injEq, Prod.mk.injEq] at h
    obtain ⟨_, rfl⟩ := h
    simp [swap_in_frame_cond]
  · simp at h

theorem anon_swap_in_frame_cond (s : VM) (pid kva : Nat) (r : Bool)
    (s' : VM) (h : anon_swap_in s pid kva = some (r, s')) : swap_in_frame_cond s s' pid := by
  unfold anon_swap_in at h
  split at h
  · split at h
    · simp only [Option.some.injEq, Prod.mk.injEq] at h
      obtain ⟨_, rfl⟩ := h
      exact swap_in_frame_cond_refl _ _
    · split at h
      · simp at h
      · split at h
        · simp only [Option.some.injEq, Prod.mk.injEq] at h
          obtain ⟨_, rfl⟩ := h
          exact swap_in_frame_cond_refl _ _
        · simp only [Option.some.injEq, Prod.mk.injEq] at h
          obtain ⟨_, rfl⟩ := h
          simp [swap_in_frame_cond]
  · simp at h

theorem file_backed_initializer_frame_cond (s : VM) (pid : Nat) (r : Bool)
    (s' : VM) (h : file_backed_initializer s pid = some (r, s')) : swap_in_frame_cond s s' pid := by
  unfold file_backed_initializer at h
  split at h
  · simp only [Option.some.injEq, Prod.mk.injEq] at h
    obtain ⟨_, rfl⟩ := h
    exact set_payload_frame_cond _ _ _
  · simp at h

theorem uninit_initialize_frame_cond (s : VM) (pid : Nat) (r : Bool)
    (s' : VM) (h : uninit_initialize s pid = some (r, s')) : swap_in_frame_cond s s' pid := by
  unfold uninit_initialize at h
  split at h
  · split at h
    · simp only [anon_initializer, Option.some.injEq, Prod.mk.injEq] at h
      obtain ⟨_, rfl⟩ := h
      exact set_payload_frame_cond _ _ _
    · exact swap_in_frame_cond_trans (set_payload_frame_cond _ _ _)
        (lazy_load_segment_frame_cond _ _ _ _ _ h)
  · split at h
    · simp at h
    · rename_i r0 hr0
      split at h
      · simp only [Option.some.injEq] at h
        subst h
        exact file_backed_initializer_frame_cond _ _ _ _ hr0
      · exact swap_in_frame_cond_trans (file_backed_initializer_frame_cond s pid r0.1 r0.2 hr0)
          (lazy_load_segment_frame_cond _ _ _ _ _ h)
  · simp at h

theorem swap_in_frame_cond_of (s : VM) (pid kva : Nat) (r : Bool)
    (s' : VM) (h : swap_in s pid kva = some (r, s')) : swap_in_frame_cond s s' pid := by
  unfold swap_in at h
  split at h
  · exact uninit_initialize_frame_cond _ _ _ _ h
  · exact anon_swap_in_frame_cond _ _ _ _ _ h
  · unfold file_backed_swap_in at h
    split at h
    · exact lazy_load_segment_frame_cond _ _ _ _ _ h
    · simp at h

theorem ptr_sub_eq (a b : Nat) (hb : b ≤ a) (ha : a < 2 ^ 64) : ptr_sub a b = a - b := by
  unfold ptr_sub
  have h1 : a + 2 ^ 64 - b = (a - b) + 2 ^ 64 := by omega
  rw [h1, Nat.add_mod_right]
  exact Nat.mod_eq_of_lt (by omega)

theorem spt_find_page_alloc_post (s : VM) (type upage : Nat) (w : Bool) (init : Option Loader)
    (aux : Option Aux) (hfind : spt_find_page s s.cur upage = none)
    (ha : pg_round_down upage = upage)
    (hfresh : ∀ q ∈ (s.threads s.cur).spt, q ≠ s.next_page) :
    spt_find_page (alloc_post s type upage w init aux) s.cur upage = some s.next_page := by
  have hno := find_none_of_aligned s s.cur upage ha hfind
  unfold spt_find_page
  simp only [alloc_post, upd_same, ha]
  rw [List.find?_append]
  have h1 : List.find? (fun pid => decide ((upd s.pages s.next_page
      { va := upage, frame := none, writable := w, accessible := false,
        payload := .uninit init type aux
          (if VM_TYPE type = VM_ANON then some .anon_initializer
           else if VM_TYPE type = VM_FILE then some .file_backed_initializer else none) } pid).va
      = upage)) (s.threads s.cur).spt = none := by
    rw [List.find?_eq_none]
    intro q hq
    simp [upd_other _ _ _ _ (hfresh q hq), hno q hq]
  rw [h1]
  simp

theorem stack_growth_fresh (s : VM) (nb k : Nat) (rest : List Nat)
    (hfind : spt_find_page s s.cur nb = none) (ha : pg_round_down nb = nb)
    (hfresh : ∀ q ∈ (s.threads s.cur).spt, q ≠ s.next_page)
    (hp : s.user_pool = k :: rest) (hk : k ≠ 0) (hpt : s.pt_ok = true) :
    ∃ s', vm_stack_growth s nb = some s'
      ∧ (s'.threads s.cur).spt = (s.threads s.cur).spt ++ [s.next_page]
      ∧ s'.pages s.next_page = ⟨nb, some s.next_frame, true, false, .anon BITMAP_ERROR⟩
      ∧ (∀ q, q ≠ s.next_page → s'.pages q = s.pages q)
      ∧ (s'.threads s.cur).stack_bottom = ptr_sub (s.threads s.cur).stack_bottom PGSIZE
      ∧ s'.cur = s.cur ∧ s'.frame_table = s.frame_table ++ [s.next_frame] := by
  have htype : VM_TYPE (VM_ANON ||| VM_MARKER_0) ≠ VM_UNINIT := by decide
  have hanon : VM_TYPE (VM_ANON ||| VM_MARKER_0) = VM_ANON := by decide
  unfold vm_stack_growth vm_alloc_page
  rw [vm_alloc_fresh s _ nb true none none htype hfind ha hfresh]
  simp only []
  unfold vm_claim_page
  have hcur : (alloc_post s (VM_ANON ||| VM_MARKER_0) nb true none none).cur = s.cur := rfl
  rw [hcur, spt_find_page_alloc_post s _ nb true none none hfind ha hfresh]
  simp only []
  rw [vm_do_claim_page_pool _ s.next_page k rest (by simpa [alloc_post] using hp) hk
    (by simpa [alloc_post] using hpt)]
  simp [swap_in, claim_post, alloc_post, uninit_initialize, anon_initializer, set_page,
    set_thread, cur_thread, hanon]
  intro q hq
  simp [upd_other _ _ _ _ hq]

/-- C7 (counterexample): the stack-growth test passes for a fault at an address without a page
(`USER_STACK - 3 * PGSIZE`, stack pointer at the address), yet the table gains no page and
`stack_bottom` does not move, because a page is registered at `stack_bottom - PGSIZE`. -/
theorem stack_growth_no_page_added :
    spt_find_page occupied_below_stack_state 0 (USER_STACK - 3 * PGSIZE) = none
    ∧ (ptr_sub (USER_STACK - 3 * PGSIZE) 8 ≤ USER_STACK - 3 * PGSIZE
        ∧ STACK_LIMIT ≤ USER_STACK - 3 * PGSIZE ∧ USER_STACK - 3 * PGSIZE ≤ USER_STACK)
    ∧ value_of (vm_try_handle_fault occupied_below_stack_state (USER_STACK - 3 * PGSIZE)
        (USER_STACK - 3 * PGSIZE) true false true) = some true
    ∧ ((state_of (vm_try_handle_fault occupied_below_stack_state (USER_STACK - 3 * PGSIZE)
        (USER_STACK - 3 * PGSIZE) true false true) occupied_below_stack_state).threads 0).spt
        = (occupied_below_stack_state.threads 0).spt
    ∧ ((state_of (vm_try_handle_fault occupied_below_stack_state (USER_STACK - 3 * PGSIZE)
        (USER_STACK - 3 * PGSIZE) true false true) occupied_below_stack_state).threads 0).stack_bottom
        = (occupied_below_stack_state.threads 0).stack_bottom := by
  decide

/-- C7 (amended): for a valid user address without a page and a fault that is not a
write-protect fault, with `sp` the applicable stack pointer: when the test
`sp - 8 <= addr && addr >= STACK_LIMIT && addr <= USER_STACK` fails the result is false and
the state is unchanged; when it holds and a page is already registered at
`stack_bottom - PGSIZE` the state is unchanged; when it holds, no page is registered there,
`stack_bottom` is page-aligned and the allocator has a free page, the table gains exactly one
page, a writable anonymous page at `stack_bottom - PGSIZE`, and `stack_bottom` decreases by
`PGSIZE`. -/
theorem vm_try_handle_fault_stack_growth (s : VM) (rsp addr : Nat)
    (user write not_present : Bool)
    (h0 : addr ≠ 0) (hk : is_kernel_vaddr addr = false)
    (hwp : ¬(not_present = false ∧ write = true))
    (hnone : spt_find_page s s.cur addr = none) :
    (¬(ptr_sub (if user = true then rsp else (cur_thread s).stack_pointer) 8 ≤ addr
        ∧ addr ≥ STACK_LIMIT ∧ addr ≤ USER_STACK) →
      vm_try_handle_fault s rsp addr user write not_present = some (false, s))
    ∧ ((ptr_sub (if user = true then rsp else (cur_thread s).stack_pointer) 8 ≤ addr
        ∧ addr ≥ STACK_LIMIT ∧ addr ≤ USER_STACK) →
      (∀ q, spt_find_page s s.cur (ptr_sub (cur_thread s).stack_bottom PGSIZE) = some q →
        vm_try_handle_fault s rsp addr user write not_present = some (true, s))
      ∧ (spt_find_page s s.cur ((cur_thread s).stack_bottom - PGSIZE) = none →
        pg_ofs (cur_thread s).stack_bottom = 0 → PGSIZE ≤ (cur_thread s).stack_bottom →
        (cur_thread s).stack_bottom < 2 ^ 64 →
        (∀ q ∈ (s.threads s.cur).spt, q ≠ s.next_page) →
        ∀ k rest, s.user_pool = k :: rest → k ≠ 0 → s.pt_ok = true →
        ∃ s', vm_try_handle_fault s rsp addr user write not_present = some (true, s')
          ∧ (s'.threads s.cur).spt = (s.threads s.cur).spt ++ [s.next_page]
          ∧ s'.pages s.next_page = ⟨(cur_thread s).stack_bottom - PGSIZE, some s.next_frame,
              true, false, .anon BITMAP_ERROR⟩
          ∧ (∀ q, q ≠ s.next_page → s'.pages q = s.pages q)
          ∧ (s'.threads s.cur).stack_bottom = (cur_thread s).stack_bottom - PGSIZE
          ∧ s'.cur = s.cur)) := by
  refine ⟨?_, ?_⟩
  · intro hc
    unfold vm_try_handle_fault
    simp [h0, hk, hwp, hnone, hc]
  · intro hc
    refine ⟨?_, ?_⟩
    · intro q hq
      unfold vm_try_handle_fault
      simp [h0, hk, hwp, hnone, hc, vm_stack_growth, vm_alloc_page, vm_alloc_page_with_initializer, hq,
        show VM_TYPE (VM_ANON ||| VM_MARKER_0) ≠ VM_UNINIT by decide]
    · intro hfind hal hge hlt hfresh k rest hp hk0 hpt
      have hnb : ptr_sub (cur_thread s).stack_bottom PGSIZE
          = (cur_thread s).stack_bottom - PGSIZE := ptr_sub_eq _ _ hge hlt
      have ha : pg_round_down ((cur_thread s).stack_bottom - PGSIZE)
          = (cur_thread s).stack_bottom - PGSIZE := by
        simp only [pg_round_down, pg_ofs, PGSIZE] at *
        omega
      obtain ⟨s', h1, h2, h3, h4, h5, h6, _⟩ :=
        stack_growth_fresh s _ k rest hfind ha hfresh hp hk0 hpt
      refine ⟨s', ?_, h2, h3, h4, ?_, h6⟩
      · unfold vm_try_handle_fault
        simp [h0, hk, hwp, hnone, hc, hnb, h1]
      · rw [h5]
        exact hnb

theorem vm_try_handle_fault_stack_growth_witness :
    spt_find_page (vm_boot [kpage0] [false]) 0 (USER_STACK - PGSIZE - 8) = none
    ∧ ∃ s', vm_try_handle_fault (vm_boot [kpage0] [false]) (USER_STACK - PGSIZE)
          (USER_STACK - PGSIZE - 8) true false true = some (true, s')
        ∧ (s'.threads 0).spt = [0]
        ∧ s'.pages 0 = ⟨USER_STACK - 2 * PGSIZE, some 0, true, false, .anon BITMAP_ERROR⟩
        ∧ (s'.threads 0).stack_bottom = USER_STACK - 2 * PGSIZE := by
  refine ⟨by decide, ?_⟩
  obtain ⟨s', h1, h2, h3, _, h5, _⟩ :=
    ((vm_try_handle_fault_stack_growth (vm_boot [kpage0] [false]) (USER_STACK - PGSIZE)
      (USER_STACK - PGSIZE - 8) true false true (by decide) (by decide) (by decide)
      (by decide)).2 (by decide)).2 (by decide) (by decide) (by decide) (by decide)
      (by decide) kpage0 [] rfl (by decide) rfl
  exact ⟨s', h1, h2, h3, h5⟩

/-- C8 (the code departs from the claim): from `stack_bottom = STACK_LIMIT`, inside
`[USER_STACK - 1 MiB, USER_STACK]`, a fault at `addr = USER_STACK` (no page is ever registered
there, and the test admits `addr <= USER_STACK`) makes `vm_try_handle_fault` register and claim a
stack page at `STACK_LIMIT - PGSIZE` and lower `stack_bottom` below `STACK_LIMIT`; from the
initial stack, two faults at that same address grow the stack twice. -/
theorem stack_grows_below_stack_limit :
    (full_stack_state.threads 0).stack_bottom = STACK_LIMIT
    ∧ value_of (vm_try_handle_fault full_stack_state USER_STACK USER_STACK true false true)
        = some true
    ∧ ((state_of (vm_try_handle_fault full_stack_state USER_STACK USER_STACK true false true)
        full_stack_state).threads 0).stack_bottom = STACK_LIMIT - PGSIZE
    ∧ ((state_of (vm_try_handle_fault full_stack_state USER_STACK USER_STACK true false true)
        full_stack_state).pages 0).va = STACK_LIMIT - PGSIZE
    ∧ ((state_of (vm_try_handle_fault full_stack_state USER_STACK USER_STACK true false true)
        full_stack_state).threads 0).stack_bottom < STACK_LIMIT
    ∧ ((state_of (vm_try_handle_fault
          (state_of (vm_try_handle_fault (vm_boot [kpage0, kpage1] [false]) USER_STACK USER_STACK
            true false true) (vm_boot [] []))
          USER_STACK USER_STACK true false true) (vm_boot [] [])).threads 0).stack_bottom
        = USER_STACK - 3 * PGSIZE := by
  decide

/-- C9 (counterexample): the anonymous page at `uva_a` is resident (frame 0, mapped); a further
`vm_claim_page` on it, and likewise a non-write fault on it, returns false, and the claim has
taken a second frame from the allocator, entered it in the frame table and redirected the frame
reference of the page to it. -/
theorem reclaim_resident_page_not_idempotent :
    spt_find_page resident_state 0 uva_a = some 0
    ∧ (resident_state.pages 0).frame = some 0
    ∧ (resident_state.frames 0).page = some 0
    ∧ translate resident_state 0 uva_a = some kpage0
    ∧ resident_state.frame_table = [0]
    ∧ value_of (vm_claim_page resident_state uva_a) = some false
    ∧ value_of (vm_try_handle_fault resident_state USER_STACK uva_a true false true) = some false
    ∧ (state_of (vm_claim_page resident_state uva_a) resident_state).frame_table = [0, 1]
    ∧ ((state_of (vm_claim_page resident_state uva_a) resident_state).pages 0).frame = some 1
    ∧ (state_of (vm_claim_page resident_state uva_a) resident_state).user_pool = [] := by
  decide

/-- C9 (amended): `vm_claim_page` on the address of a resident page, and a fault on it that is
not a write-protect fault, do not stop at the residency of the page: with a free page `k` in the
allocator the call is `swap_in` run in the state where a new frame holding `k` has been appended
to the frame table and the frame reference and the mapping of the page point to it; whatever it
returns, the frame table has grown by that frame and the page refers to it instead of its former
frame; for an anonymous page that records no swap slot the call returns false. -/
theorem vm_claim_page_resident_takes_frame (s : VM) (va pid f k : Nat) (rest : List Nat)
    (hfind : spt_find_page s s.cur va = some pid)
    (hres : (s.pages pid).frame = some f) (hf : f < s.next_frame)
    (hp : s.user_pool = k :: rest) (hk : k ≠ 0) (hpt : s.pt_ok = true) :
    vm_claim_page s va = swap_in (claim_post s pid k rest) pid k
    ∧ (∀ rsp user write not_present, va ≠ 0 → is_kernel_vaddr va = false →
        ¬(not_present = false ∧ write = true) →
        vm_try_handle_fault s rsp va user write not_present = vm_claim_page s va)
    ∧ (∀ r s', vm_claim_page s va = some (r, s') →
        s'.frame_table = s.frame_table ++ [s.next_frame]
        ∧ (s'.pages pid).frame = some s.next_frame
        ∧ (s'.pages pid).frame ≠ (s.pages pid).frame
        ∧ s'.user_pool = rest)
    ∧ ((s.pages pid).payload = .anon BITMAP_ERROR →
        vm_claim_page s va = some (false, claim_post s pid k rest)) := by
  have h1 : vm_claim_page s va = swap_in (claim_post s pid k rest) pid k := by
    unfold vm_claim_page
    rw [hfind]
    exact vm_do_claim_page_pool s pid k rest hp hk hpt
  refine ⟨h1, ?_, ?_, ?_⟩
  · intro rsp user write not_present h0 hkv hwp
    unfold vm_try_handle_fault vm_claim_page
    simp [h0, hkv, hwp, hfind]
  · intro r s' h
    rw [h1] at h
    obtain ⟨a1, a2, _, _, _, _, _, _, a9, _⟩ := swap_in_frame_cond_of _ _ _ _ _ h
    refine ⟨by rw [a1]; rfl, ?_, ?_, by rw [a2]; rfl⟩
    · rw [(a9 pid).1]; simp [claim_post]
    · rw [(a9 pid).1, hres]
      simp only [claim_post, upd_same, ne_eq, Option.some.injEq]
      omega
  · intro hpl
    rw [h1]
    simp [swap_in, anon_swap_in, claim_post, hpl]

theorem vm_claim_page_resident_takes_frame_witness :
    spt_find_page resident_state resident_state.cur uva_a = some 0
    ∧ (resident_state.pages 0).frame = some 0
    ∧ vm_claim_page resident_state uva_a = some (false, claim_post resident_state 0 kpage1 []) :=
  ⟨by decide, by decide,
    (vm_claim_page_resident_takes_frame resident_state uva_a 0 0 kpage1 [] (by decide)
      (by decide) (by decide) (by decide) (by decide) (by decide)).2.2.2 (by decide)⟩

/-- C1 (the code departs from the claim on the parent side): after the duplication both threads
read the byte 7 at `uva_a`.  A store by the child faults, `vm_handle_wp` gives the child a newly
allocated page, and the parent still reads 7 through its unchanged frame.  A store by the parent
does not fault, because the mapping of the parent is still writable: no frame is allocated, the
byte lands in the frame both pages refer to, and the child now reads 9; a write-protect fault
delivered for the page of the parent would be refused, its `accessible` flag being unset. -/
theorem fork_parent_write_reaches_child :
    (forked_state.pages 0).payload = .anon BITMAP_ERROR
    ∧ (forked_state.pages 0).writable = true
    ∧ (forked_state.threads 0).spt = [0] ∧ (forked_state.threads 1).spt = [1]
    ∧ user_load forked_state 0 uva_a = some 7 ∧ user_load forked_state 1 uva_a = some 7
    ∧ (forked_state.frames 0).kva = kpage0 ∧ (forked_state.frames 1).kva = kpage0
    ∧ (user_store forked_state USER_STACK uva_a 9).isSome = true
    ∧ user_load forked_child_wrote 1 uva_a = some 9
    ∧ user_load forked_child_wrote 0 uva_a = some 7
    ∧ (forked_child_wrote.pages 1).frame = some 1
    ∧ (forked_child_wrote.frames 1).kva = kpage1
    ∧ forked_child_wrote.user_pool = [kpage2]
    ∧ (forked_child_wrote.pages 0).frame = (forked_state.pages 0).frame
    ∧ (forked_child_wrote.frames 0) = (forked_state.frames 0)
    ∧ (user_store (switch_to forked_state 0) USER_STACK uva_a 9).isSome = true
    ∧ user_load forked_parent_wrote 0 uva_a = some 9
    ∧ user_load forked_parent_wrote 1 uva_a = some 9
    ∧ forked_parent_wrote.user_pool = forked_state.user_pool
    ∧ forked_parent_wrote.frame_table = forked_state.frame_table
    ∧ (forked_parent_wrote.frames 0).kva = (forked_parent_wrote.frames 1).kva
    ∧ value_of (vm_try_handle_fault (switch_to forked_state 0) USER_STACK uva_a true true false)
        = some false := by
  decide

theorem swap_read_loop_eq (disk : Nat → Nat → Nat) (sector kva : Nat) :
    ∀ (n i : Nat) (mem : Nat → Nat) (a : Nat),
      swap_read_loop disk sector kva n i mem a
        = if kva + 512 * i ≤ a ∧ a < kva + 512 * (i + n)
          then disk (sector + (a - kva) / 512) ((a - kva) % 512) else mem a := by
  intro n
  induction n with
  | zero =>
    intro i mem a
    simp only [swap_read_loop]
    rw [if_neg]
    omega
  | succ n ih =>
    intro i mem a
    simp only [swap_read_loop]
    rw [ih]
    by_cases h1 : kva + 512 * (i + 1) ≤ a ∧ a < kva + 512 * (i + 1 + n)
    · rw [if_pos h1, if_pos (by omega)]
    · rw [if_neg h1]
      simp only [disk_read, DISK_SECTOR_SIZE]
      by_cases h2 : kva + 512 * i ≤ a ∧ a < kva + 512 * i + 512
      · rw [if_pos h2, if_pos (by omega)]
        have e1 : (a - kva) / 512 = i := by omega
        have e2 : (a - kva) % 512 = a - (kva + 512 * i) := by omega
        rw [e1, e2]
      · rw [if_neg h2, if_neg (by omega)]

theorem swap_write_loop_eq (s : VM) (sector va : Nat) :
    ∀ (n i : Nat) (disk : Nat → Nat → Nat),
      (∀ idx, i ≤ idx → idx < i + n →
        copy_in s (va + DISK_SECTOR_SIZE * idx) DISK_SECTOR_SIZE = some (user_sector s va idx)) →
      swap_write_loop s sector va n i disk
        = some (fun sec => if sector + i ≤ sec ∧ sec < sector + i + n
                           then user_sector s va (sec - sector) else disk sec) := by
  intro n
  induction n with
  | zero =>
    intro i disk _
    simp only [swap_write_loop, Option.some.injEq]
    funext sec
    rw [if_neg]
    omega
  | succ n ih =>
    intro i disk h
    simp only [swap_write_loop]
    rw [h i (Nat.le_refl _) (by omega)]
    simp only []
    rw [ih (i + 1) _ (fun idx h1 h2 => h idx (by omega) (by omega))]
    simp only [Option.some.injEq]
    funext sec
    by_cases h1 : sector + (i + 1) ≤ sec ∧ sec < sector + (i + 1) + n
    · rw [if_pos h1, if_pos (by omega)]
    · rw [if_neg h1]
      by_cases h2 : sec = sector + i
      · rw [if_pos (by omega), h2]
        simp [disk_write]
      · rw [if_neg (by omega)]
        simp [disk_write, upd, h2]

theorem copy_in_sector (s : VM) (va idx : Nat) (pte : Pte) (ha : pg_ofs va = 0)
    (hm : (cur_thread s).pml4 va = some pte) (hi : idx < SLOT_SIZE) :
    copy_in s (va + DISK_SECTOR_SIZE * idx) DISK_SECTOR_SIZE = some (user_sector s va idx)
    ∧ ∀ j, j < DISK_SECTOR_SIZE →
        user_sector s va idx j = s.mem (pte.kva + DISK_SECTOR_SIZE * idx + j) := by
  have hr : ∀ j, j < DISK_SECTOR_SIZE →
      translate s s.cur (va + DISK_SECTOR_SIZE * idx + j)
        = some (pte.kva + DISK_SECTOR_SIZE * idx + j) := by
    intro j hj
    simp only [pg_ofs, PGSIZE, DISK_SECTOR_SIZE, SLOT_SIZE] at *
    have e1 : pg_round_down (va + 512 * idx + j) = va := by
      simp only [pg_round_down, PGSIZE]; omega
    have e2 : pg_ofs (va + 512 * idx + j) = 512 * idx + j := by
      simp only [pg_ofs, PGSIZE]; omega
    unfold translate
    rw [e1]
    unfold cur_thread at hm
    rw [hm]
    simp only [e2, Option.some.injEq]
    omega
  refine ⟨?_, ?_⟩
  · unfold copy_in
    have h0 := hr 0 (by decide)
    have h1 := hr (DISK_SECTOR_SIZE - 1) (by decide)
    simp only [Nat.add_zero] at h0
    have e : va + DISK_SECTOR_SIZE * idx + DISK_SECTOR_SIZE - 1
        = va + DISK_SECTOR_SIZE * idx + (DISK_SECTOR_SIZE - 1) := by
      simp only [DISK_SECTOR_SIZE]; omega
    rw [e, h0, h1]
    rfl
  · intro j hj
    simp only [user_sector, hr j hj]

theorem bitmap_scan_and_flip_free (b : List Bool) (hfree : false ∈ b)
    (hlen : b.length ≤ BITMAP_ERROR) :
    (bitmap_scan_and_flip b).1 = b.indexOf false
    ∧ (bitmap_scan_and_flip b).2 = b.set (b.indexOf false) true
    ∧ b.indexOf false < b.length
    ∧ (bitmap_scan_and_flip b).1 ≠ BITMAP_ERROR := by
  have h := List.indexOf_lt_length.mpr hfree
  unfold bitmap_scan_and_flip
  simp only [h, if_true]
  refine ⟨trivial, trivial, trivial, ?_⟩
  omega

/-- C2 (counterexample): page 0, the anonymous page of the parent, is resident in frame 0 whose
first byte is 7, and a swap slot is free; while the child runs, `anon_swap_out` of that page
followed by `anon_swap_in` into the free page `kpage2` succeeds, but the page at `kpage2` then
starts with 9, the byte the running thread has at the same user address. -/
theorem swap_round_trip_other_address_space :
    (forked_child_wrote.pages 0).payload = .anon BITMAP_ERROR
    ∧ (forked_child_wrote.pages 0).frame = some 0
    ∧ (forked_child_wrote.frames 0).page = some 0
    ∧ (forked_child_wrote.frames 0).kva = kpage0
    ∧ forked_child_wrote.mem kpage0 = 7
    ∧ forked_child_wrote.swap_table = [false]
    ∧ forked_child_wrote.cur = 1
    ∧ value_of (anon_swap_out forked_child_wrote 0) = some true
    ∧ value_of (anon_swap_in (state_of (anon_swap_out forked_child_wrote 0) forked_child_wrote)
        0 kpage2) = some true
    ∧ (state_of (anon_swap_in (state_of (anon_swap_out forked_child_wrote 0) forked_child_wrote)
        0 kpage2) forked_child_wrote).mem kpage2 = 9 := by
  decide

theorem anon_swap_out_resident (s : VM) (pid f slot0 : Nat) (pte : Pte)
    (hpl : (s.pages pid).payload = .anon slot0)
    (hfr : (s.pages pid).frame = some f)
    (ha : pg_ofs (s.pages pid).va = 0)
    (hm : (cur_thread s).pml4 (s.pages pid).va = some pte)
    (hkva : pte.kva = (s.frames f).kva)
    (hfree : false ∈ s.swap_table) (hlen : s.swap_table.length ≤ BITMAP_ERROR) :
    ∃ s1, anon_swap_out s pid = some (true, s1)
      ∧ (s1.pages pid).payload = .anon (s.swap_table.indexOf false)
      ∧ s1.swap_table = s.swap_table.set (s.swap_table.indexOf false) true
      ∧ s1.mem = s.mem
      ∧ (s1.pages pid).frame = none
      ∧ (s1.frames f).page = none
      ∧ (∀ i, i < SLOT_SIZE → ∀ j, j < DISK_SECTOR_SIZE →
          s1.swap_disk (s.swap_table.indexOf false * SLOT_SIZE + i) j
            = s.mem ((s.frames f).kva + DISK_SECTOR_SIZE * i + j)) := by
  obtain ⟨b1, b2, b3, b4⟩ := bitmap_scan_and_flip_free s.swap_table hfree hlen
  have hw := swap_write_loop_eq s (s.swap_table.indexOf false * SLOT_SIZE) (s.pages pid).va
    SLOT_SIZE 0 s.swap_disk
    (fun idx _ h2 => (copy_in_sector s (s.pages pid).va idx pte ha hm (by omega)).1)
  have hsec : ∀ i, i < SLOT_SIZE → ∀ j, j < DISK_SECTOR_SIZE →
      user_sector s (s.pages pid).va i j = s.mem ((s.frames f).kva + DISK_SECTOR_SIZE * i + j) := by
    intro i hi j hj
    rw [(copy_in_sector s (s.pages pid).va i pte ha hm hi).2 j hj, hkva]
  unfold anon_swap_out
  rw [hpl]
  simp only [b1, b2]
  rw [if_neg (by rw [← b1]; exact b4), hw]
  simp only [hfr]
  refine ⟨_, rfl, ?_, ?_, ?_, ?_, ?_, ?_⟩
  · simp [pml4_clear_page, set_thread, set_page, set_frame]
  · simp [pml4_clear_page, set_thread, set_page, set_frame]
  · simp [pml4_clear_page, set_thread, set_page, set_frame]
  · simp [pml4_clear_page, set_thread, set_page, set_frame]
  · simp [pml4_clear_page, set_thread, set_page, set_frame]
  · intro i hi j hj
    simp only [pml4_clear_page, set_thread, set_page, set_frame]
    rw [if_pos (by omega)]
    rw [← hsec i hi j hj]
    congr 1
    omega

/-- C2 (amended): for an anonymous page resident in the running address space (its page-aligned
`va` is mapped by the page table of the running thread to the frame of the page) and a swap
bitmap with a free slot, `anon_swap_out` succeeds and records the lowest free slot, sector `i` of
that slot carries bytes `[512*i, 512*(i+1))` of the frame, and a following `anon_swap_in` into any
frame at `kva` succeeds and leaves there exactly the `PGSIZE` bytes the frame held. -/
theorem anon_swap_round_trip (s : VM) (pid f slot0 kva : Nat) (pte : Pte)
    (hpl : (s.pages pid).payload = .anon slot0)
    (hfr : (s.pages pid).frame = some f)
    (ha : pg_ofs (s.pages pid).va = 0)
    (hm : (cur_thread s).pml4 (s.pages pid).va = some pte)
    (hkva : pte.kva = (s.frames f).kva)
    (hfree : false ∈ s.swap_table) (hlen : s.swap_table.length ≤ BITMAP_ERROR) :
    ∃ s1 s2, anon_swap_out s pid = some (true, s1)
      ∧ (s1.pages pid).payload = .anon (s.swap_table.indexOf false)
      ∧ (∀ i, i < SLOT_SIZE → ∀ j, j < DISK_SECTOR_SIZE →
          s1.swap_disk (s.swap_table.indexOf false * SLOT_SIZE + i) j
            = s.mem ((s.frames f).kva + DISK_SECTOR_SIZE * i + j))
      ∧ anon_swap_in s1 pid kva = some (true, s2)
      ∧ ∀ j, j < PGSIZE → s2.mem (kva + j) = s.mem ((s.frames f).kva + j) := by
  obtain ⟨s1, h1, h2, h3, h4, _, _, h5⟩ :=
    anon_swap_out_resident s pid f slot0 pte hpl hfr ha hm hkva hfree hlen
  have hidx := List.indexOf_lt_length.mpr hfree
  have hne : s.swap_table.indexOf false ≠ BITMAP_ERROR := by omega
  have hlen1 : ¬ (s1.swap_table.length ≤ s.swap_table.indexOf false) := by
    rw [h3, List.length_set]; omega
  have hget : s1.swap_table.getD (s.swap_table.indexOf false) false = true := by
    rw [h3]
    simp [List.getD_eq_getElem?_getD, List.getElem?_set_self, hidx]
  refine ⟨s1, { s1 with
      swap_table := s1.swap_table.set (s.swap_table.indexOf false) false,
      mem := swap_read_loop s1.swap_disk (s.swap_table.indexOf false * SLOT_SIZE) kva SLOT_SIZE 0
        s1.mem }, h1, h2, h5, ?_, ?_⟩
  · unfold anon_swap_in
    rw [h2]
    simp only [hne, if_false, hlen1, hget, Bool.true_eq_false]
  · intro j hj
    simp only [swap_read_loop_eq]
    simp only [PGSIZE, SLOT_SIZE, DISK_SECTOR_SIZE] at *
    rw [if_pos (by omega)]
    have e1 : (kva + j - kva) / 512 < 4096 / 512 := by omega
    have e2 : (kva + j - kva) % 512 < 512 := by omega
    rw [h5 _ e1 _ e2]
    congr 1
    omega

theorem anon_swap_round_trip_witness :
    (resident_state.pages 0).payload = .anon BITMAP_ERROR
    ∧ (resident_state.pages 0).frame = some 0
    ∧ false ∈ resident_state.swap_table
    ∧ ∃ s1 s2, anon_swap_out resident_state 0 = some (true, s1)
        ∧ anon_swap_in s1 0 kpage1 = some (true, s2)
        ∧ ∀ j, j < PGSIZE → s2.mem (kpage1 + j) = resident_state.mem (kpage0 + j) := by
  refine ⟨by decide, by decide, by decide, ?_⟩
  obtain ⟨s1, s2, h1, _, _, h4, h5⟩ :=
    anon_swap_round_trip resident_state 0 0 BITMAP_ERROR kpage1
      { kva := kpage0, writable := true, accessed := false, dirty := false }
      (by decide) (by decide) (by decide) (by decide) (by decide) (by decide) (by decide)
  exact ⟨s1, s2, h1, h4, h5⟩

theorem link_inv_mono (pages pages' : Nat → Page) (frames : Nat → Frame) (nf : Nat)
    (h : link_inv pages frames nf)
    (h1 : ∀ q f, (pages' q).frame = some f → (pages q).frame = some f)
    (h2 : ∀ q f, (pages' q).frame = some f → is_file (pages' q) = false →
      is_file (pages q) = false) :
    link_inv pages' frames nf := by
  refine ⟨fun q f hq => h.1 q f (h1 q f hq), ?_⟩
  intro p f hp hnf
  obtain ⟨a, b⟩ := h.2 p f (h1 p f hp) (h2 p f hp hnf)
  exact ⟨a, fun q hq => b q (h1 q f hq)⟩

theorem link_inv_frames (pages : Nat → Page) (frames frames' : Nat → Frame) (nf nf' : Nat)
    (h : link_inv pages frames nf) (hnf : nf ≤ nf')
    (h1 : ∀ p f, (pages p).frame = some f → is_file (pages p) = false →
      (frames' f).page = (frames f).page) :
    link_inv pages frames' nf' := by
  refine ⟨fun q f hq => Nat.lt_of_lt_of_le (h.1 q f hq) hnf, ?_⟩
  intro p f hp hfile
  obtain ⟨a, b⟩ := h.2 p f hp hfile
  exact ⟨by rw [h1 p f hp hfile]; exact a, b⟩

theorem link_inv_claim (pages : Nat → Page) (frames : Nat → Frame) (nf page : Nat)
    (r : Page) (fr : Frame) (h : link_inv pages frames nf)
    (hr : r.frame = some nf) (hfr : fr.page = some page) :
    link_inv (upd pages page r) (upd frames nf fr) (nf + 1) := by
  refine ⟨?_, ?_⟩
  · intro q f hq
    by_cases e : q = page
    · subst e
      simp only [upd_same, hr, Option.some.injEq] at hq
      omega
    · rw [upd_other _ _ _ _ e] at hq
      have := h.1 q f hq
      omega
  · intro p f hp hfile
    by_cases e : p = page
    · subst e
      simp only [upd_same, hr, Option.some.injEq] at hp
      subst hp
      refine ⟨by simp [hfr], ?_⟩
      intro q hq
      by_contra hne
      rw [upd_other _ _ _ _ hne] at hq
      have := h.1 q _ hq
      omega
    · rw [upd_other _ _ _ _ e] at hp hfile
      have hlt := h.1 p f hp
      obtain ⟨a, b⟩ := h.2 p f hp hfile
      refine ⟨by rw [upd_other _ _ _ _ (by omega : f ≠ nf)]; exact a, ?_⟩
      intro q hq
      by_cases e2 : q = page
      · subst e2
        simp only [upd_same, hr, Option.some.injEq] at hq
        omega
      · rw [upd_other _ _ _ _ e2] at hq
        exact b q hq

theorem link_inv_detach (pages : Nat → Page) (frames : Nat → Frame) (nf pid f : Nat)
    (r : Page) (fr : Frame) (h : link_inv pages frames nf)
    (hp : (pages pid).frame = some f) (hr : r.frame = none) :
    link_inv (upd pages pid r) (upd frames f fr) nf := by
  refine ⟨?_, ?_⟩
  · intro q g hq
    by_cases e : q = pid
    · subst e; simp [hr] at hq
    · rw [upd_other _ _ _ _ e] at hq
      exact h.1 q g hq
  · intro p g hpg hfile
    by_cases e : p = pid
    · subst e; simp [hr] at hpg
    · rw [upd_other _ _ _ _ e] at hpg hfile
      obtain ⟨a, b⟩ := h.2 p g hpg hfile
      have hgf : g ≠ f := by
        intro hgf
        subst hgf
        exact e (b pid hp).symm
      refine ⟨by rw [upd_other _ _ _ _ hgf]; exact a, ?_⟩
      intro q hq
      by_cases e2 : q = pid
      · subst e2; simp [hr] at hq
      · rw [upd_other _ _ _ _ e2] at hq
        exact b q hq

theorem link_inv_share (pages : Nat → Page) (frames : Nat → Frame) (nf dst src : Nat)
    (r : Page) (h : link_inv pages frames nf)
    (hr : r.frame = (pages src).frame) (hrf : is_file r = true)
    (hsrc : is_file (pages src) = true ∨ (pages src).frame = none) :
    link_inv (upd pages dst r) frames nf := by
  refine ⟨?_, ?_⟩
  · intro q g hq
    by_cases e : q = dst
    · subst e
      simp only [upd_same, hr] at hq
      exact h.1 src g hq
    · rw [upd_other _ _ _ _ e] at hq
      exact h.1 q g hq
  · intro p g hpg hfile
    by_cases e : p = dst
    · subst e; simp [hrf] at hfile
    · rw [upd_other _ _ _ _ e] at hpg hfile
      obtain ⟨a, b⟩ := h.2 p g hpg hfile
      refine ⟨a, ?_⟩
      intro q hq
      by_cases e2 : q = dst
      · subst e2
        simp only [upd_same, hr] at hq
        have := b src hq
        subst this
        rcases hsrc with hs | hs
        · simp [hs] at hfile
        · simp [hs] at hq
      · rw [upd_other _ _ _ _ e2] at hq
        exact b q hq

theorem swap_in_file_pages (s : VM) (pid kva : Nat) (r : Bool) (s' : VM)
    (h : swap_in s pid kva = some (r, s')) (hf : is_file (s.pages pid) = true) :
    s'.pages = s.pages := by
  unfold swap_in at h
  unfold is_file at hf
  split at h
  · rename_i e; rw [e] at hf; simp at hf
  · rename_i e; rw [e] at hf; simp at hf
  · unfold file_backed_swap_in at h
    split at h
    · unfold lazy_load_segment at h
      split at h
      · simp only [Option.some.injEq, Prod.mk.injEq] at h
        obtain ⟨_, rfl⟩ := h
        rfl
      · simp at h
    · simp at h

theorem swap_in_inv (s : VM) (pid kva : Nat) (r : Bool) (s' : VM)
    (h : swap_in s pid kva = some (r, s')) (hi : Inv s) : Inv s' := by
  obtain ⟨a1, a2, a3, a4, _, _, _, _, a9, a10⟩ := swap_in_frame_cond_of s pid kva r s' h
  refine ⟨?_, by rw [a2]; exact hi.2⟩
  rw [a3, a4]
  refine link_inv_mono s.pages s'.pages _ _ hi.1 (fun q f hq => by rw [← (a9 q).1]; exact hq) ?_
  intro q f _ hfile
  by_cases e : q = pid
  · subst e
    by_contra hc
    have hc' : is_file (s.pages q) = true := by simpa using hc
    rw [swap_in_file_pages s q kva r s' h hc', hc'] at hfile
    simp at hfile
  · rw [a10 q e] at hfile
    exact hfile

theorem alloc_inv (s : VM) (type upage : Nat) (w : Bool) (init : Option Loader)
    (aux : Option Aux) (r : Bool) (s' : VM)
    (h : vm_alloc_page_with_initializer s type upage w init aux = some (r, s')) (hi : Inv s) :
    Inv s' ∧ s'.user_pool = s.user_pool
      ∧ ∀ q, s'.pages q = s.pages q ∨ (s'.pages q).frame = none := by
  have hupd : ∀ (rec : Page) (q : Nat), rec.frame = none →
      upd s.pages s.next_page rec q = s.pages q ∨ (upd s.pages s.next_page rec q).frame = none := by
    intro rec q hrec
    by_cases e : q = s.next_page
    · subst e; right; simp [hrec]
    · left; exact upd_other _ _ _ _ e
  unfold vm_alloc_page_with_initializer at h
  split at h
  · simp at h
  · split at h
    · simp only [spt_insert_page, uninit_new, set_page, set_thread, upd_upd, upd_same] at h
      have key : ∀ (rec : Page), rec.frame = none →
          link_inv (upd s.pages s.next_page rec) s.frames s.next_frame := by
        intro rec hrec
        refine link_inv_mono s.pages _ _ _ hi.1 ?_ ?_
        · intro q f hq
          by_cases e : q = s.next_page
          · subst e; simp [hrec] at hq
          · rw [upd_other _ _ _ _ e] at hq; exact hq
        · intro q f hq hfile
          by_cases e : q = s.next_page
          · subst e; simp [hrec] at hq
          · rw [upd_other _ _ _ _ e] at hfile; exact hfile
      split at h
      · simp only [Option.some.injEq, Prod.mk.injEq] at h
        obtain ⟨_, rfl⟩ := h
        exact ⟨⟨key _ rfl, hi.2⟩, rfl, fun q => hupd _ q rfl⟩
      · simp only [Option.some.injEq, Prod.mk.injEq] at h
        obtain ⟨_, rfl⟩ := h
        exact ⟨⟨key _ rfl, hi.2⟩, rfl, fun q => hupd _ q rfl⟩
    · simp only [Option.some.injEq, Prod.mk.injEq] at h
      obtain ⟨_, rfl⟩ := h
      exact ⟨hi, rfl, fun q => Or.inl rfl⟩

theorem do_claim_inv (s : VM) (page : Nat) (r : Bool) (s' : VM)
    (hpool : s.user_pool ≠ []) (h : vm_do_claim_page s page = some (r, s')) (hi : Inv s) :
    Inv s' := by
  obtain ⟨k, rest, hp⟩ := List.exists_cons_of_ne_nil hpool
  have hk : k ≠ 0 := by
    intro e
    apply hi.2
    rw [hp, e]
    exact List.mem_cons_self _ _
  have hrest : 0 ∉ rest := by
    intro e
    apply hi.2
    rw [hp]
    exact List.mem_cons_of_mem _ e
  unfold vm_do_claim_page at h
  rw [vm_get_frame_pool s k rest hp hk] at h
  have hlink : link_inv (upd s.pages page { s.pages page with frame := some s.next_frame })
      (upd s.frames s.next_frame { kva := k, page := some page }) (s.next_frame + 1) :=
    link_inv_claim _ _ _ _ _ _ hi.1 rfl rfl
  by_cases hpt : s.pt_ok = true
  · simp only [pml4_set_page, set_frame, set_page, set_thread, upd_upd, upd_same, hpt, if_true,
      Bool.true_eq_false, if_false] at h
    exact swap_in_inv _ _ _ _ _ h ⟨hlink, hrest⟩
  · simp only [pml4_set_page, set_frame, set_page, set_thread, upd_upd, upd_same, hpt, if_true,
      if_false, Option.some.injEq, Prod.mk.injEq] at h
    obtain ⟨_, rfl⟩ := h
    exact ⟨hlink, hrest⟩

theorem claim_inv (s : VM) (va : Nat) (r : Bool) (s' : VM)
    (hpool : s.user_pool ≠ []) (h : vm_claim_page s va = some (r, s')) (hi : Inv s) :
    Inv s' := by
  unfold vm_claim_page at h
  split at h
  · simp only [Option.some.injEq, Prod.mk.injEq] at h
    obtain ⟨_, rfl⟩ := h
    exact hi
  · exact do_claim_inv s _ r s' hpool h hi

theorem handle_wp_inv (s : VM) (page : Option Nat) (r : Bool) (s' : VM)
    (hpool : s.user_pool ≠ []) (h : vm_handle_wp s page = some (r, s')) (hi : Inv s) :
    Inv s' := by
  obtain ⟨k, rest, hp⟩ := List.exists_cons_of_ne_nil hpool
  have hk : k ≠ 0 := by
    intro e
    apply hi.2
    rw [hp, e]
    exact List.mem_cons_self _ _
  have hrest : 0 ∉ rest := by
    intro e
    apply hi.2
    rw [hp]
    exact List.mem_cons_of_mem _ e
  unfold vm_handle_wp at h
  split at h
  · simp at h
  · rename_i pid
    split at h
    · simp only [Option.some.injEq, Prod.mk.injEq] at h
      obtain ⟨_, rfl⟩ := h
      exact hi
    · split at h
      · simp at h
      · rename_i f hf
        have hlink : link_inv s.pages (upd s.frames f { kva := k, page := (s.frames f).page })
            s.next_frame := by
          refine link_inv_frames _ _ _ _ _ hi.1 (Nat.le_refl _) ?_
          intro p g _ _
          by_cases e : g = f
          · subst e; simp
          · rw [upd_other _ _ _ _ e]
        simp only [palloc_get_page, hp, set_frame, hk, if_false, set_page, hf, pml4_set_page,
          set_thread, upd_same] at h
        by_cases hpt : s.pt_ok = true
        · simp only [hpt, if_true, Bool.true_eq_false, if_false, Option.some.injEq,
            Prod.mk.injEq] at h
          obtain ⟨_, rfl⟩ := h
          exact ⟨hlink, hrest⟩
        · simp only [hpt, if_true, if_false, Option.some.injEq, Prod.mk.injEq] at h
          obtain ⟨_, rfl⟩ := h
          exact ⟨hlink, hrest⟩

theorem stack_growth_inv (s : VM) (addr : Nat) (s' : VM)
    (hpool : s.user_pool ≠ []) (h : vm_stack_growth s addr = some s') (hi : Inv s) :
    Inv s' := by
  unfold vm_stack_growth vm_alloc_page at h
  split at h
  · simp at h
  · simp only [Option.some.injEq] at h
    subst h
    rename_i s1 h1
    exact (alloc_inv _ _ _ _ _ _ _ _ h1 hi).1
  · rename_i s1 h1
    obtain ⟨i1, p1, _⟩ := alloc_inv _ _ _ _ _ _ _ _ h1 hi
    have hpool1 : s1.user_pool ≠ [] := by rw [p1]; exact hpool
    split at h
    · simp at h
    · simp only [Option.some.injEq] at h
      subst h
      rename_i s2 h2
      exact claim_inv _ _ _ _ hpool1 h2 i1
    · simp only [Option.some.injEq] at h
      subst h
      rename_i s2 h2
      have h3 : Inv s2 := claim_inv _ _ _ _ hpool1 h2 i1
      exact h3

theorem fault_inv (s : VM) (rsp addr : Nat) (user write not_present : Bool) (r : Bool) (s' : VM)
    (hpool : s.user_pool ≠ [])
    (h : vm_try_handle_fault s rsp addr user write not_present = some (r, s')) (hi : Inv s) :
    Inv s' := by
  unfold vm_try_handle_fault at h
  by_cases hrej : addr = 0 ∨ is_kernel_vaddr addr = true
  · simp only [hrej, if_true, Option.some.injEq, Prod.mk.injEq] at h
    obtain ⟨_, rfl⟩ := h
    exact hi
  · by_cases hwp : not_present = false ∧ write = true
    · simp only [hrej, if_false, hwp, and_self, if_true] at h
      exact handle_wp_inv _ _ _ _ hpool h hi
    · simp only [hrej, if_false, hwp] at h
      cases hfind : spt_find_page s s.cur addr with
      | none =>
        simp only [hfind] at h
        by_cases hc : ptr_sub (if user = true then rsp else (cur_thread s).stack_pointer) 8 ≤ addr
            ∧ addr ≥ STACK_LIMIT ∧ addr ≤ USER_STACK
        · simp only [hc, and_self, if_true] at h
          cases hg : vm_stack_growth s (ptr_sub (cur_thread s).stack_bottom PGSIZE) with
          | none => simp [hg] at h
          | some s1 =>
            simp only [hg, Option.some.injEq, Prod.mk.injEq] at h
            obtain ⟨_, rfl⟩ := h
            exact stack_growth_inv _ _ _ hpool hg hi
        · simp only [hc, if_false, Option.some.injEq, Prod.mk.injEq] at h
          obtain ⟨_, rfl⟩ := h
          exact hi
      | some p =>
        simp only [hfind] at h
        exact do_claim_inv _ _ _ _ hpool h hi

theorem copy_claim_inv (s : VM) (dst va kva : Nat) (w : Bool) (r : Bool) (s' : VM)
    (h : vm_copy_claim_page s dst va kva w = some (r, s')) (hi : Inv s) : Inv s' := by
  unfold vm_copy_claim_page at h
  split at h
  · simp only [Option.some.injEq, Prod.mk.injEq] at h
    obtain ⟨_, rfl⟩ := h
    exact hi
  · rename_i page _
    have hlink : link_inv
        (upd s.pages page { s.pages page with accessible := w, frame := some s.next_frame })
        (upd s.frames s.next_frame { kva := kva, page := some page }) (s.next_frame + 1) :=
      link_inv_claim _ _ _ _ _ _ hi.1 rfl rfl
    by_cases hpt : s.pt_ok = true
    · simp only [pml4_set_page, set_frame, set_page, set_thread, upd_upd, upd_same, hpt, if_true,
        Bool.true_eq_false, if_false] at h
      exact swap_in_inv _ _ _ _ _ h ⟨hlink, hi.2⟩
    · simp only [pml4_set_page, set_frame, set_page, set_thread, upd_upd, upd_same, hpt, if_true,
        if_false, Option.some.injEq, Prod.mk.injEq] at h
      obtain ⟨_, rfl⟩ := h
      exact ⟨hlink, hi.2⟩

theorem pml4_set_page_inv (s : VM) (t upage kpage : Nat) (rw : Bool) (hi : Inv s) :
    Inv (pml4_set_page s t upage kpage rw).2 := by
  unfold pml4_set_page
  split
  · exact hi
  · exact hi

theorem file_backed_initializer_effect (s : VM) (pid : Nat) (r : Bool) (s' : VM)
    (h : file_backed_initializer s pid = some (r, s')) :
    ∃ rec, s' = set_page s pid rec ∧ is_file rec = true ∧ rec.frame = (s.pages pid).frame
      ∧ is_file (s.pages pid) = false := by
  unfold file_backed_initializer at h
  split at h
  · rename_i e
    simp only [Option.some.injEq, Prod.mk.injEq] at h
    obtain ⟨_, rfl⟩ := h
    exact ⟨_, rfl, rfl, rfl, by simp [is_file, e]⟩
  · simp at h

theorem spt_copy_page_inv (s : VM) (dst p : Nat) (r : Bool) (s' : VM)
    (h : spt_copy_page s dst p = some (r, s')) (hi : Inv s) : Inv s' := by
  unfold spt_copy_page at h
  simp only at h
  split at h
  · exact (alloc_inv _ _ _ _ _ _ _ _ h hi).1
  · rename_i file offset prb hpl
    cases ha : vm_alloc_page_with_initializer s VM_FILE (s.pages p).va (s.pages p).writable none
        (some { file := file, offset := offset, page_read_bytes := prb }) with
    | none => simp [ha] at h
    | some x =>
      obtain ⟨b, s1⟩ := x
      have i1 := (alloc_inv _ _ _ _ _ _ _ _ ha hi).1
      cases b with
      | false =>
        simp only [ha, Option.some.injEq, Prod.mk.injEq] at h
        obtain ⟨_, rfl⟩ := h
        exact i1
      | true =>
        simp only [ha] at h
        cases hf : spt_find_page s1 dst (s.pages p).va with
        | none => simp [hf] at h
        | some dst_page =>
          simp only [hf] at h
          cases hb : file_backed_initializer s1 dst_page with
          | none => simp [hb] at h
          | some y =>
            obtain ⟨b2, s2⟩ := y
            obtain ⟨rec, e2, hrec, hrf, hnf⟩ := file_backed_initializer_effect _ _ _ _ hb
            cases b2 with
            | false =>
              simp only [hb, Option.some.injEq, Prod.mk.injEq] at h
              obtain ⟨_, rfl⟩ := h
              rw [e2]
              refine ⟨link_inv_mono s1.pages _ _ _ i1.1 ?_ ?_, i1.2⟩
              · intro q f hq
                by_cases e : q = dst_page
                · subst e
                  simp only [set_page, upd_same, hrf] at hq
                  exact hq
                · simp only [set_page] at hq
                  rw [upd_other _ _ _ _ e] at hq
                  exact hq
              · intro q f _ hfile
                by_cases e : q = dst_page
                · subst e
                  simp only [set_page, upd_same, hrec] at hfile
                  simp at hfile
                · simp only [set_page] at hfile
                  rw [upd_other _ _ _ _ e] at hfile
                  exact hfile
            | true =>
              simp only [hb] at h
              have i3 : Inv (set_page s2 dst_page
                  { s2.pages dst_page with frame := (s2.pages p).frame }) := by
                rw [e2]
                simp only [set_page, upd_upd, upd_same]
                refine ⟨?_, i1.2⟩
                by_cases e : p = dst_page
                · subst e
                  simp only [upd_same]
                  refine link_inv_mono s1.pages _ _ _ i1.1 ?_ ?_
                  · intro q f hq
                    by_cases e : q = p
                    · subst e
                      simp only [upd_same, hrf] at hq
                      exact hq
                    · rw [upd_other _ _ _ _ e] at hq
                      exact hq
                  · intro q f _ hfile
                    by_cases e : q = p
                    · subst e
                      simp only [upd_same, is_file] at hfile
                      simp only [is_file] at hrec
                      rw [hrec] at hfile
                      simp at hfile
                    · rw [upd_other _ _ _ _ e] at hfile
                      exact hfile
                · rw [upd_other _ _ _ _ e]
                  refine link_inv_share s1.pages _ _ dst_page p _ i1.1 rfl ?_ ?_
                  · simpa [is_file] using hrec
                  · rcases (alloc_inv _ _ _ _ _ _ _ _ ha hi).2.2 p with h5 | h5
                    · left; rw [h5]; simp [is_file, hpl]
                    · right; exact h5
              split at h
              · simp at h
              · split at h
                · simp only [Option.some.injEq, Prod.mk.injEq] at h
                  obtain ⟨_, rfl⟩ := h
                  exact pml4_set_page_inv _ _ _ _ _ i3
                · simp only [Option.some.injEq, Prod.mk.injEq] at h
                  obtain ⟨_, rfl⟩ := h
                  exact pml4_set_page_inv _ _ _ _ _ i3
  · rename_i slot hpl
    simp only [vm_alloc_page] at h
    cases ha : vm_alloc_page_with_initializer s VM_ANON (s.pages p).va (s.pages p).writable
        none none with
    | none => simp [ha] at h
    | some x =>
      obtain ⟨b, s1⟩ := x
      have i1 := (alloc_inv _ _ _ _ _ _ _ _ ha hi).1
      cases b with
      | false =>
        simp only [ha, Option.some.injEq, Prod.mk.injEq] at h
        obtain ⟨_, rfl⟩ := h
        exact i1
      | true =>
        simp only [ha] at h
        split at h
        · simp at h
        · exact copy_claim_inv _ _ _ _ _ _ _ h i1

theorem spt_copy_loop_inv (dst : Nat) : ∀ (l : List Nat) (s : VM) (r : Bool) (s' : VM),
    spt_copy_loop dst l s = some (r, s') → Inv s → Inv s' := by
  intro l
  induction l with
  | nil =>
    intro s r s' h hi
    simp only [spt_copy_loop, Option.some.injEq, Prod.mk.injEq] at h
    obtain ⟨_, rfl⟩ := h
    exact hi
  | cons p rest ih =>
    intro s r s' h hi
    simp only [spt_copy_loop] at h
    cases hc : spt_copy_page s dst p with
    | none => simp [hc] at h
    | some x =>
      obtain ⟨b, s1⟩ := x
      have i1 := spt_copy_page_inv _ _ _ _ _ hc hi
      cases b with
      | false =>
        simp only [hc, Option.some.injEq, Prod.mk.injEq] at h
        obtain ⟨_, rfl⟩ := h
        exact i1
      | true =>
        simp only [hc] at h
        exact ih s1 r s' h i1

theorem detach_frame_inv (s : VM) (pid : Nat) (hi : Inv s) : Inv (detach_frame s pid) := by
  unfold detach_frame
  split
  · rename_i f hf
    exact ⟨link_inv_detach _ _ _ _ _ _ _ hi.1 hf rfl, hi.2⟩
  · exact hi

theorem pml4_clear_page_inv (s : VM) (t upage : Nat) (hi : Inv s) :
    Inv (pml4_clear_page s t upage) := hi

theorem file_write_back_inv (s : VM) (pid file : Nat) (offset : Int) (prb : Nat) (s' : VM)
    (h : file_write_back s pid file offset prb = some s') (hi : Inv s) : Inv s' := by
  unfold file_write_back at h
  split at h
  · split at h
    · rename_i s1 h1
      simp only [Option.some.injEq] at h
      subst h
      unfold file_write_at at h1
      split at h1
      · simp only [Option.some.injEq] at h1
        subst h1
        unfold pml4_set_dirty
        split
        · exact hi
        · exact hi
      · simp at h1
    · simp at h
  · simp only [Option.some.injEq] at h
    subst h
    exact hi

theorem destroy_inv (s : VM) (pid : Nat) (s' : VM) (h : destroy s pid = some s') (hi : Inv s) :
    Inv s' := by
  unfold destroy at h
  split at h
  · simp only [Option.some.injEq] at h
    subst h
    exact hi
  · unfold anon_destroy at h
    split at h
    · simp only at h
      split at h
      · simp at h
      · rename_i s1 h1
        simp only [Option.some.injEq] at h
        subst h
        have i1 : Inv s1 := by
          split at h1
          · unfold bitmap_reset at h1
            split at h1
            · simp only [Option.some.injEq] at h1
              subst h1
              exact hi
            · simp at h1
          · simp only [Option.some.injEq] at h1
            subst h1
            exact hi
        exact pml4_clear_page_inv _ _ _ (free_frame_inv _ _ (detach_frame_inv _ _ i1))
    · simp at h
  · unfold file_backed_destroy at h
    split at h
    · split at h
      · simp at h
      · rename_i s1 h1
        simp only [Option.some.injEq] at h
        subst h
        exact pml4_clear_page_inv _ _ _ (detach_frame_inv _ _ (file_write_back_inv _ _ _ _ _ _ h1 hi))
    · simp at h

theorem do_munmap_loop_inv : ∀ (fuel : Nat) (s : VM) (addr : Nat) (s' : VM),
    do_munmap_loop fuel s addr = some s' → Inv s → Inv s' := by
  intro fuel
  induction fuel with
  | zero =>
    intro s addr s' h _
    simp [do_munmap_loop] at h
  | succ n ih =>
    intro s addr s' h hi
    simp only [do_munmap_loop] at h
    split at h
    · simp only [Option.some.injEq] at h
      subst h
      exact hi
    · split at h
      · simp at h
      · rename_i s1 h1
        exact ih s1 _ s' h (destroy_inv _ _ _ h1 hi)

theorem reach_inv (s : VM) (h : Reach s) : Inv s := by
  induction h with
  | boot pool swap hp =>
    refine ⟨⟨?_, ?_⟩, hp⟩
    · intro q f hq; simp [vm_boot, page0] at hq
    · intro p f hq; simp [vm_boot, page0] at hq
  | switch s t _ ih => exact ih
  | pt_memory s b _ ih => exact ih
  | alloc s type upage w init aux r s' _ h ih => exact (alloc_inv _ _ _ _ _ _ _ _ h ih).1
  | claim s va r s' _ hp h ih => exact claim_inv _ _ _ _ hp h ih
  | fault s rsp addr user write np r s' _ hp h ih => exact fault_inv _ _ _ _ _ _ _ _ hp h ih
  | copy s dst src r s' _ _ h ih => exact spt_copy_loop_inv _ _ _ _ _ h ih
  | munmap s addr s' _ h ih => exact do_munmap_loop_inv _ _ _ _ h ih
  | destroy_page s pid s' _ h ih => exact destroy_inv _ _ _ h ih

theorem result_of_value (r : Option (Bool × VM)) (b : Bool) (d : VM)
    (h : value_of r = some b) : r = some (b, state_of r d) := by
  cases r with
  | none => simp [value_of] at h
  | some x =>
    obtain ⟨b', s⟩ := x
    simp only [value_of, Option.some.injEq] at h
    subst h
    rfl

theorem pg_round_down_aligned (va : Nat) (h : pg_ofs va = 0) : pg_round_down va = va := by
  simp only [pg_round_down, pg_ofs, PGSIZE] at *
  omega

/-- Steps that leave the tables, the addresses and frame references of the pages, and the set of
mapped addresses as they are. -/
theorem res_same (s s' : VM) (h : ResInv s)
    (ht : ∀ t, (s'.threads t).spt = (s.threads t).spt
      ∧ (∀ va, ((s'.threads t).pml4 va).isSome = ((s.threads t).pml4 va).isSome))
    (hs : ∀ t, pg_ofs (s'.threads t).stack_bottom = 0 ∧ (s'.threads t).stack_bottom < 2 ^ 64)
    (hp : ∀ q, (s'.pages q).va = (s.pages q).va
      ∧ (s'.pages q).frame.isSome = (s.pages q).frame.isSome)
    (hn : s'.next_page = s.next_page) (hpt : s'.pt_ok = true)
    (hpool : ∀ x, x ∈ s'.user_pool → x ∈ s.user_pool) : ResInv s' := by
  refine ⟨?_, ?_, ?_, ?_, ?_, ?_, hs, hpt, fun e => h.pool (hpool 0 e)⟩
  · intro t p hp1
    rw [(ht t).1] at hp1
    rw [(hp p).1]
    exact h.aligned t p hp1
  · intro t p q hp1 hq1 e
    rw [(ht t).1] at hp1 hq1
    rw [(hp p).1, (hp q).1] at e
    exact h.unique t p q hp1 hq1 e
  · intro t t' p h1 h2
    rw [(ht t).1] at h1
    rw [(ht t').1] at h2
    exact h.disjoint t t' p h1 h2
  · intro t p h1
    rw [(ht t).1] at h1
    rw [hn]
    exact h.bound t p h1
  · intro t va hm
    rw [(ht t).2 va] at hm
    obtain ⟨p, h1, h2⟩ := h.mapped t va hm
    exact ⟨p, by rw [(ht t).1]; exact h1, by rw [(hp p).1]; exact h2⟩
  · intro t p h1
    rw [(ht t).1] at h1
    rw [(hp p).1, (hp p).2, (ht t).2]
    exact h.resident t p h1

/-- Steps that set (`b = true`) or clear (`b = false`) both the frame reference of one page of the
running table and the mapping of its address in the running page table. -/
theorem res_set (s s' : VM) (pid : Nat) (b : Bool) (h : ResInv s)
    (hpid : pid ∈ (s.threads s.cur).spt)
    (hp_other : ∀ q, q ≠ pid → (s'.pages q).va = (s.pages q).va
      ∧ (s'.pages q).frame.isSome = (s.pages q).frame.isSome)
    (hp_pid : (s'.pages pid).va = (s.pages pid).va ∧ (s'.pages pid).frame.isSome = b)
    (ht_other : ∀ t, t ≠ s.cur → s'.threads t = s.threads t)
    (ht_spt : (s'.threads s.cur).spt = (s.threads s.cur).spt)
    (ht_pid : ((s'.threads s.cur).pml4 (s.pages pid).va).isSome = b)
    (ht_pml4 : ∀ x, x ≠ (s.pages pid).va →
      ((s'.threads s.cur).pml4 x).isSome = ((s.threads s.cur).pml4 x).isSome)
    (ht_stack : (s'.threads s.cur).stack_bottom = (s.threads s.cur).stack_bottom)
    (hn : s'.next_page = s.next_page) (hpt : s'.pt_ok = true)
    (hpool : ∀ x, x ∈ s'.user_pool → x ∈ s.user_pool) : ResInv s' := by
  have hva : ∀ q, (s'.pages q).va = (s.pages q).va := by
    intro q
    by_cases e : q = pid
    · subst e; exact hp_pid.1
    · exact (hp_other q e).1
  have hspt : ∀ t, (s'.threads t).spt = (s.threads t).spt := by
    intro t
    by_cases e : t = s.cur
    · subst e; exact ht_spt
    · rw [ht_other t e]
  refine ⟨?_, ?_, ?_, ?_, ?_, ?_, ?_, hpt, fun e => h.pool (hpool 0 e)⟩
  · intro t p hp1
    rw [hspt] at hp1
    rw [hva]
    exact h.aligned t p hp1
  · intro t p q hp1 hq1 e
    rw [hspt] at hp1 hq1
    rw [hva, hva] at e
    exact h.unique t p q hp1 hq1 e
  · intro t t' p h1 h2
    rw [hspt] at h1 h2
    exact h.disjoint t t' p h1 h2
  · intro t p h1
    rw [hspt] at h1
    rw [hn]
    exact h.bound t p h1
  · intro t va hm
    by_cases e : t = s.cur
    · subst e
      by_cases e2 : va = (s.pages pid).va
      · exact ⟨pid, by rw [hspt]; exact hpid, by rw [hva]; exact e2.symm⟩
      · rw [ht_pml4 va e2] at hm
        obtain ⟨p, h1, h2⟩ := h.mapped _ va hm
        exact ⟨p, by rw [hspt]; exact h1, by rw [hva]; exact h2⟩
    · rw [ht_other t e] at hm
      obtain ⟨p, h1, h2⟩ := h.mapped _ va hm
      exact ⟨p, by rw [hspt]; exact h1, by rw [hva]; exact h2⟩
  · intro t p h1
    rw [hspt] at h1
    rw [hva]
    by_cases e : t = s.cur
    · subst e
      by_cases e2 : p = pid
      · subst e2
        rw [hp_pid.2, ht_pid]
      · have hne : (s.pages p).va ≠ (s.pages pid).va := by
          intro e3
          exact e2 (h.unique _ p pid h1 hpid e3)
        rw [(hp_other p e2).2, ht_pml4 _ hne]
        exact h.resident _ p h1
    · have hne : p ≠ pid := by
        intro e3
        subst e3
        exact e (h.disjoint _ _ p h1 hpid)
      rw [(hp_other p hne).2, ht_other t e]
      exact h.resident t p h1
  · intro t
    by_cases e : t = s.cur
    · subst e
      rw [ht_stack]
      exact h.stack _
    · rw [ht_other t e]
      exact h.stack t

theorem swap_in_res (s : VM) (pid kva : Nat) (r : Bool) (s' : VM)
    (h : swap_in s pid kva = some (r, s')) (hi : ResInv s) : ResInv s' := by
  obtain ⟨_, a2, _, _, a5, a6, _, a8, a9, _⟩ := swap_in_frame_cond_of s pid kva r s' h
  refine res_same s s' hi ?_ ?_ ?_ a5 (by rw [a8]; exact hi.pt) (by rw [a2]; exact fun x hx => hx)
  · intro t; rw [a6]; exact ⟨rfl, fun _ => rfl⟩
  · intro t; rw [a6]; exact hi.stack t
  · intro q; exact ⟨(a9 q).2.1, by rw [(a9 q).1]⟩

theorem alloc_post_res (s : VM) (type upage : Nat) (w : Bool) (init : Option Loader)
    (aux : Option Aux) (ha : pg_ofs upage = 0)
    (hfind : spt_find_page s s.cur upage = none) (hi : ResInv s) :
    ResInv (alloc_post s type upage w init aux) := by
  have hrd := pg_round_down_aligned upage ha
  have hno := find_none_of_aligned s s.cur upage hrd hfind
  have hspt : ∀ t p, p ∈ ((alloc_post s type upage w init aux).threads t).spt →
      (p ∈ (s.threads t).spt) ∨ (t = s.cur ∧ p = s.next_page) := by
    intro t p hp
    by_cases e : t = s.cur
    · subst e
      simp only [alloc_post, upd_same, List.mem_append, List.mem_singleton] at hp
      rcases hp with hp | hp
      · exact Or.inl hp
      · exact Or.inr ⟨rfl, hp⟩
    · simp only [alloc_post, upd_other _ _ _ _ e] at hp
      exact Or.inl hp
  have hold : ∀ t p, p ∈ (s.threads t).spt →
      (alloc_post s type upage w init aux).pages p = s.pages p := by
    intro t p hp
    have := hi.bound t p hp
    simp only [alloc_post]
    exact upd_other _ _ _ _ (by omega)
  have hnew : ((alloc_post s type upage w init aux).pages s.next_page).va = upage
      ∧ ((alloc_post s type upage w init aux).pages s.next_page).frame = none := by
    simp [alloc_post]
  have hmem : ∀ t p, p ∈ (s.threads t).spt →
      p ∈ ((alloc_post s type upage w init aux).threads t).spt := by
    intro t p hp
    by_cases e : t = s.cur
    · subst e
      simp only [alloc_post, upd_same, List.mem_append]
      exact Or.inl hp
    · simp only [alloc_post, upd_other _ _ _ _ e]
      exact hp
  have hpml4 : ∀ t, ((alloc_post s type upage w init aux).threads t).pml4 = (s.threads t).pml4 := by
    intro t
    by_cases e : t = s.cur
    · subst e; simp [alloc_post]
    · simp only [alloc_post, upd_other _ _ _ _ e]
  have hstack : ∀ t, ((alloc_post s type upage w init aux).threads t).stack_bottom
      = (s.threads t).stack_bottom := by
    intro t
    by_cases e : t = s.cur
    · subst e; simp [alloc_post]
    · simp only [alloc_post, upd_other _ _ _ _ e]
  refine ⟨?_, ?_, ?_, ?_, ?_, ?_, ?_, hi.pt, hi.pool⟩
  · intro t p hp
    rcases hspt t p hp with h1 | ⟨_, h1⟩
    · rw [hold t p h1]; exact hi.aligned t p h1
    · subst h1; rw [hnew.1]; exact ha
  · intro t p q hp hq e
    rcases hspt t p hp with h1 | ⟨ht1, h1⟩
    · rcases hspt t q hq with h2 | ⟨ht2, h2⟩
      · rw [hold t p h1, hold t q h2] at e
        exact hi.unique t p q h1 h2 e
      · subst h2
        subst ht2
        rw [hold _ p h1, hnew.1] at e
        exact absurd e (hno p h1)
    · rcases hspt t q hq with h2 | ⟨_, h2⟩
      · subst h1
        subst ht1
        rw [hold _ q h2, hnew.1] at e
        exact absurd e.symm (hno q h2)
      · rw [h1, h2]
  · intro t t' p hp hp'
    rcases hspt t p hp with h1 | ⟨ht1, h1⟩
    · rcases hspt t' p hp' with h2 | ⟨_, h2⟩
      · exact hi.disjoint t t' p h1 h2
      · have := hi.bound t p h1
        omega
    · rcases hspt t' p hp' with h2 | ⟨ht2, _⟩
      · have := hi.bound t' p h2
        omega
      · rw [ht1, ht2]
  · intro t p hp
    rcases hspt t p hp with h1 | ⟨_, h1⟩
    · have := hi.bound t p h1
      simp only [alloc_post]
      omega
    · simp only [alloc_post]
      omega
  · intro t va hm
    rw [hpml4] at hm
    obtain ⟨p, h1, h2⟩ := hi.mapped t va hm
    exact ⟨p, hmem t p h1, by rw [hold t p h1]; exact h2⟩
  · intro t p hp
    rw [hpml4]
    rcases hspt t p hp with h1 | ⟨ht1, h1⟩
    · rw [hold t p h1]; exact hi.resident t p h1
    · subst h1
      subst ht1
      rw [hnew.1, hnew.2]
      constructor
      · intro hx; simp at hx
      · intro hx
        obtain ⟨p, h1, h2⟩ := hi.mapped _ upage hx
        exact absurd h2 (hno p h1)
  · intro t
    rw [hstack]
    exact hi.stack t

theorem alloc_res (s : VM) (type upage : Nat) (w : Bool) (init : Option Loader)
    (aux : Option Aux) (r : Bool) (s' : VM) (ha : pg_ofs upage = 0)
    (h : vm_alloc_page_with_initializer s type upage w init aux = some (r, s')) (hi : ResInv s) :
    ResInv s' ∧ s'.user_pool = s.user_pool ∧ s'.cur = s.cur ∧ s.next_page ≤ s'.next_page
      ∧ (∀ q, q < s.next_page → s'.pages q = s.pages q) := by
  by_cases ht : VM_TYPE type = VM_UNINIT
  · simp [vm_alloc_page_with_initializer, ht] at h
  · cases hfind : spt_find_page s s.cur upage with
    | some q =>
      simp only [vm_alloc_page_with_initializer, ht, if_false, hfind, Option.some.injEq,
        Prod.mk.injEq] at h
      obtain ⟨_, rfl⟩ := h
      exact ⟨hi, rfl, rfl, Nat.le_refl _, fun _ _ => rfl⟩
    | none =>
      have hfresh : ∀ q ∈ (s.threads s.cur).spt, q ≠ s.next_page := by
        intro q hq
        have := hi.bound _ q hq
        omega
      rw [vm_alloc_fresh s type upage w init aux ht hfind (pg_round_down_aligned upage ha) hfresh]
        at h
      simp only [Option.some.injEq, Prod.mk.injEq] at h
      obtain ⟨_, rfl⟩ := h
      refine ⟨alloc_post_res s type upage w init aux ha hfind hi, rfl, rfl, ?_, ?_⟩
      · simp [alloc_post]
      · intro q hq
        simp only [alloc_post]
        exact upd_other _ _ _ _ (by omega)

theorem find_mem (s : VM) (t va p : Nat) (h : spt_find_page s t va = some p) :
    p ∈ (s.threads t).spt := by
  unfold spt_find_page at h
  exact List.mem_of_find?_eq_some h

theorem pool_split (s : VM) (hpool : s.user_pool ≠ []) (h0 : 0 ∉ s.user_pool) :
    ∃ k rest, s.user_pool = k :: rest ∧ k ≠ 0 ∧ ∀ x, x ∈ rest → x ∈ s.user_pool := by
  obtain ⟨k, rest, hp⟩ := List.exists_cons_of_ne_nil hpool
  refine ⟨k, rest, hp, ?_, ?_⟩
  · intro e
    apply h0
    rw [hp, e]
    exact List.mem_cons_self _ _
  · intro x hx
    rw [hp]
    exact List.mem_cons_of_mem _ hx

theorem claim_post_res (s : VM) (page k : Nat) (rest : List Nat)
    (hpage : page ∈ (s.threads s.cur).spt) (hrest : ∀ x, x ∈ rest → x ∈ s.user_pool)
    (hi : ResInv s) : ResInv (claim_post s page k rest) := by
  have hrd := pg_round_down_aligned _ (hi.aligned _ page hpage)
  refine res_set s _ page true hi hpage ?_ ?_ ?_ ?_ ?_ ?_ ?_ rfl hi.pt hrest
  · intro q hq
    simp only [claim_post, upd_other _ _ _ _ hq, and_self]
  · simp [claim_post]
  · intro t ht
    simp only [claim_post, upd_other _ _ _ _ ht]
  · simp [claim_post]
  · simp [claim_post, hrd]
  · intro x hx
    simp only [claim_post, upd_same, hrd, upd_other _ _ _ _ hx]
  · simp [claim_post]

theorem do_claim_res (s : VM) (page : Nat) (r : Bool) (s' : VM)
    (hpage : page ∈ (s.threads s.cur).spt)
    (hpool : s.user_pool ≠ []) (h : vm_do_claim_page s page = some (r, s')) (hi : ResInv s) :
    ResInv s' := by
  obtain ⟨k, rest, hp, hk, hrest⟩ := pool_split s hpool hi.pool
  rw [vm_do_claim_page_pool s page k rest hp hk hi.pt] at h
  exact swap_in_res _ _ _ _ _ h (claim_post_res s page k rest hpage hrest hi)

theorem claim_res (s : VM) (va : Nat) (r : Bool) (s' : VM)
    (hpool : s.user_pool ≠ []) (h : vm_claim_page s va = some (r, s')) (hi : ResInv s) :
    ResInv s' := by
  unfold vm_claim_page at h
  cases hf : spt_find_page s s.cur va with
  | none =>
    simp only [hf, Option.some.injEq, Prod.mk.injEq] at h
    obtain ⟨_, rfl⟩ := h
    exact hi
  | some page =>
    simp only [hf] at h
    exact do_claim_res s page r s' (find_mem _ _ _ _ hf) hpool h hi

theorem handle_wp_res (s : VM) (addr : Nat) (r : Bool) (s' : VM)
    (hpool : s.user_pool ≠ [])
    (h : vm_handle_wp s (spt_find_page s s.cur addr) = some (r, s')) (hi : ResInv s) :
    ResInv s' := by
  obtain ⟨k, rest, hp, hk, hrest⟩ := pool_split s hpool hi.pool
  cases hf : spt_find_page s s.cur addr with
  | none => simp [hf, vm_handle_wp] at h
  | some pid =>
    have hpid := find_mem _ _ _ _ hf
    have hrd := pg_round_down_aligned _ (hi.aligned _ pid hpid)
    rw [hf] at h
    unfold vm_handle_wp at h
    simp only at h
    by_cases hacc : (s.pages pid).accessible = false
    · simp only [hacc, if_true, Option.some.injEq, Prod.mk.injEq] at h
      obtain ⟨_, rfl⟩ := h
      exact hi
    · simp only [hacc, if_false] at h
      cases hfr : (s.pages pid).frame with
      | none => simp [hfr] at h
      | some f =>
        simp only [hfr, palloc_get_page, hp, set_frame, hk, if_false, set_page, pml4_set_page,
          set_thread, upd_same, hi.pt, if_true, Bool.true_eq_false, Option.some.injEq,
          Prod.mk.injEq] at h
        obtain ⟨_, rfl⟩ := h
        refine res_set s _ pid true hi hpid ?_ ?_ ?_ ?_ ?_ ?_ ?_ rfl rfl hrest
        · intro q _; exact ⟨rfl, rfl⟩
        · exact ⟨rfl, by simp [hfr]⟩
        · intro t ht
          simp only [upd_other _ _ _ _ ht]
        · simp
        · simp [hrd]
        · intro x hx
          simp only [upd_same, hrd, upd_other _ _ _ _ hx]
        · simp

theorem ptr_sub_aligned (a : Nat) (h : pg_ofs a = 0) :
    pg_ofs (ptr_sub a PGSIZE) = 0 ∧ ptr_sub a PGSIZE < 2 ^ 64 := by
  simp only [pg_ofs, ptr_sub, PGSIZE] at *
  norm_num
  omega

theorem set_stack_bottom_res (s : VM) (hi : ResInv s) :
    ResInv (set_thread s s.cur
      { cur_thread s with stack_bottom := ptr_sub (cur_thread s).stack_bottom PGSIZE }) := by
  refine res_same s _ hi ?_ ?_ (fun _ => ⟨rfl, rfl⟩) rfl hi.pt (fun _ hx => hx)
  · intro t
    by_cases e : t = s.cur
    · subst e; simp [set_thread, cur_thread]
    · simp only [set_thread, upd_other _ _ _ _ e, and_self, implies_true]
  · intro t
    by_cases e : t = s.cur
    · subst e
      simp only [set_thread, cur_thread, upd_same]
      exact ptr_sub_aligned _ (hi.stack _).1
    · simp only [set_thread, upd_other _ _ _ _ e]
      exact hi.stack t

theorem stack_growth_res (s : VM) (addr : Nat) (s' : VM) (ha : pg_ofs addr = 0)
    (hpool : s.user_pool ≠ []) (h : vm_stack_growth s addr = some s') (hi : ResInv s) :
    ResInv s' := by
  unfold vm_stack_growth vm_alloc_page at h
  cases h1 : vm_alloc_page_with_initializer s (VM_ANON ||| VM_MARKER_0) addr true none none with
  | none => simp [h1] at h
  | some x =>
    obtain ⟨b, s1⟩ := x
    obtain ⟨i1, p1, _, _, _⟩ := alloc_res _ _ _ _ _ _ _ _ ha h1 hi
    have hpool1 : s1.user_pool ≠ [] := by rw [p1]; exact hpool
    cases b with
    | false =>
      simp only [h1, Option.some.injEq] at h
      subst h
      exact i1
    | true =>
      simp only [h1] at h
      cases h2 : vm_claim_page s1 addr with
      | none => simp [h2] at h
      | some y =>
        obtain ⟨b2, s2⟩ := y
        have i2 := claim_res _ _ _ _ hpool1 h2 i1
        cases b2 with
        | false =>
          simp only [h2, Option.some.injEq] at h
          subst h
          exact i2
        | true =>
          simp only [h2, Option.some.injEq] at h
          subst h
          exact set_stack_bottom_res s2 i2

theorem fault_res (s : VM) (rsp addr : Nat) (user write not_present : Bool) (r : Bool) (s' : VM)
    (hpool : s.user_pool ≠ [])
    (h : vm_try_handle_fault s rsp addr user write not_present = some (r, s')) (hi : ResInv s) :
    ResInv s' := by
  unfold vm_try_handle_fault at h
  by_cases hrej : addr = 0 ∨ is_kernel_vaddr addr = true
  · simp only [hrej, if_true, Option.some.injEq, Prod.mk.injEq] at h
    obtain ⟨_, rfl⟩ := h
    exact hi
  · by_cases hwp : not_present = false ∧ write = true
    · simp only [hrej, if_false, hwp, and_self, if_true] at h
      exact handle_wp_res _ _ _ _ hpool h hi
    · simp only [hrej, if_false, hwp] at h
      cases hfind : spt_find_page s s.cur addr with
      | none =>
        simp only [hfind] at h
        by_cases hc : ptr_sub (if user = true then rsp else (cur_thread s).stack_pointer) 8 ≤ addr
            ∧ addr ≥ STACK_LIMIT ∧ addr ≤ USER_STACK
        · simp only [hc, and_self, if_true] at h
          cases hg : vm_stack_growth s (ptr_sub (cur_thread s).stack_bottom PGSIZE) with
          | none => simp [hg] at h
          | some s1 =>
            simp only [hg, Option.some.injEq, Prod.mk.injEq] at h
            obtain ⟨_, rfl⟩ := h
            exact stack_growth_res _ _ _ (ptr_sub_aligned _ (hi.stack _).1).1 hpool hg hi
        · simp only [hc, if_false, Option.some.injEq, Prod.mk.injEq] at h
          obtain ⟨_, rfl⟩ := h
          exact hi
      | some p =>
        simp only [hfind] at h
        exact do_claim_res _ _ _ _ (find_mem _ _ _ _ hfind) hpool h hi

theorem copy_claim_res (s : VM) (va kva : Nat) (w : Bool) (r : Bool) (s' : VM)
    (h : vm_copy_claim_page s s.cur va kva w = some (r, s')) (hi : ResInv s) : ResInv s' := by
  unfold vm_copy_claim_page at h
  cases hf : spt_find_page s s.cur va with
  | none =>
    simp only [hf, Option.some.injEq, Prod.mk.injEq] at h
    obtain ⟨_, rfl⟩ := h
    exact hi
  | some page =>
    have hpage := find_mem _ _ _ _ hf
    have hrd := pg_round_down_aligned _ (hi.aligned _ page hpage)
    simp only [hf, pml4_set_page, set_frame, set_page, set_thread, upd_upd, upd_same, hi.pt,
      if_true, Bool.true_eq_false, if_false] at h
    refine swap_in_res _ _ _ _ _ h ?_
    refine res_set s _ page true hi hpage ?_ ?_ ?_ ?_ ?_ ?_ ?_ rfl rfl (fun _ hx => hx)
    · intro q hq
      simp only [upd_other _ _ _ _ hq, and_self]
    · simp
    · intro t ht
      simp only [upd_other _ _ _ _ ht]
    · simp
    · simp [hrd]
    · intro x hx
      simp only [upd_same, hrd, upd_other _ _ _ _ hx]
    · simp

theorem copy_claim_frame (s : VM) (dst va kva : Nat) (w : Bool) (r : Bool) (s' : VM)
    (h : vm_copy_claim_page s dst va kva w = some (r, s')) :
    s'.cur = s.cur ∧ s'.next_page = s.next_page ∧ ∀ q, (s'.pages q).va = (s.pages q).va := by
  unfold vm_copy_claim_page at h
  cases hf : spt_find_page s dst va with
  | none =>
    simp only [hf, Option.some.injEq, Prod.mk.injEq] at h
    obtain ⟨_, rfl⟩ := h
    exact ⟨rfl, rfl, fun _ => rfl⟩
  | some page =>
    have hva : ∀ q, ((upd s.pages page
        { s.pages page with accessible := w, frame := some s.next_frame }) q).va
        = (s.pages q).va := by
      intro q
      by_cases e : q = page
      · subst e; simp
      · rw [upd_other _ _ _ _ e]
    by_cases hpt : s.pt_ok = true
    · simp only [hf, pml4_set_page, set_frame, set_page, set_thread, upd_upd, upd_same, hpt,
        if_true, Bool.true_eq_false, if_false] at h
      obtain ⟨_, _, _, _, a5, _, a7, _, a9, _⟩ := swap_in_frame_cond_of _ _ _ _ _ h
      exact ⟨a7, a5, fun q => by rw [(a9 q).2.1]; exact hva q⟩
    · simp only [hf, pml4_set_page, set_frame, set_page, set_thread, upd_upd, upd_same, hpt,
        if_true, if_false, Option.some.injEq, Prod.mk.injEq] at h
      obtain ⟨_, rfl⟩ := h
      exact ⟨rfl, rfl, hva⟩

theorem file_backed_initializer_va (s : VM) (pid : Nat) (r : Bool) (s' : VM)
    (h : file_backed_initializer s pid = some (r, s')) :
    ∃ rec, s' = set_page s pid rec ∧ rec.va = (s.pages pid).va
      ∧ rec.frame = (s.pages pid).frame := by
  unfold file_backed_initializer at h
  split at h
  · simp only [Option.some.injEq, Prod.mk.injEq] at h
    obtain ⟨_, rfl⟩ := h
    exact ⟨_, rfl, rfl, rfl⟩
  · simp at h

theorem spt_copy_page_res (s : VM) (p : Nat) (r : Bool) (s' : VM)
    (ha : pg_ofs (s.pages p).va = 0)
    (h : spt_copy_page s s.cur p = some (r, s')) (hi : ResInv s) :
    ResInv s' ∧ s'.cur = s.cur ∧ s.next_page ≤ s'.next_page
      ∧ ∀ q, q < s.next_page → (s'.pages q).va = (s.pages q).va := by
  unfold spt_copy_page at h
  simp only at h
  split at h
  · obtain ⟨i1, _, c1, n1, v1⟩ := alloc_res _ _ _ _ _ _ _ _ ha h hi
    exact ⟨i1, c1, n1, fun q hq => by rw [v1 q hq]⟩
  · rename_i file offset prb hpl
    cases hal : vm_alloc_page_with_initializer s VM_FILE (s.pages p).va (s.pages p).writable none
        (some { file := file, offset := offset, page_read_bytes := prb }) with
    | none => simp [hal] at h
    | some x =>
      obtain ⟨b, s1⟩ := x
      obtain ⟨i1, _, c1, n1, v1⟩ := alloc_res _ _ _ _ _ _ _ _ ha hal hi
      cases b with
      | false =>
        simp only [hal, Option.some.injEq, Prod.mk.injEq] at h
        obtain ⟨_, rfl⟩ := h
        exact ⟨i1, c1, n1, fun q hq => by rw [v1 q hq]⟩
      | true =>
        simp only [hal] at h
        rw [← c1] at h
        cases hf : spt_find_page s1 s1.cur (s.pages p).va with
        | none => simp [hf] at h
        | some dst_page =>
          have hdst := find_mem _ _ _ _ hf
          have hrd := pg_round_down_aligned _ (i1.aligned _ dst_page hdst)
          simp only [hf] at h
          cases hb : file_backed_initializer s1 dst_page with
          | none => simp [hb] at h
          | some y =>
            obtain ⟨b2, s2⟩ := y
            obtain ⟨rec, e2, hrva, hrfr⟩ := file_backed_initializer_va _ _ _ _ hb
            have i2 : ResInv s2 := by
              rw [e2]
              refine res_same s1 _ i1 (fun _ => ⟨rfl, fun _ => rfl⟩) i1.stack ?_ rfl i1.pt
                (fun _ hx => hx)
              intro q
              by_cases e : q = dst_page
              · subst e; simp [set_page, hrva, hrfr]
              · simp only [set_page, upd_other _ _ _ _ e, and_self]
            have hva2 : ∀ q, (s2.pages q).va = (s1.pages q).va := by
              intro q
              rw [e2]
              by_cases e : q = dst_page
              · subst e; simp [set_page, hrva]
              · simp only [set_page, upd_other _ _ _ _ e]
            cases b2 with
            | false =>
              simp only [hb, Option.some.injEq, Prod.mk.injEq] at h
              obtain ⟨_, rfl⟩ := h
              refine ⟨i2, by rw [e2]; exact c1, by rw [e2]; exact n1, ?_⟩
              intro q hq
              rw [hva2, v1 q hq]
            | true =>
              simp only [hb] at h
              cases hfr : (s2.pages p).frame with
              | none =>
                have : (upd s2.pages dst_page
                    { s2.pages dst_page with frame := (s2.pages p).frame } p).frame = none := by
                  by_cases e : p = dst_page
                  · subst e; simp [hfr]
                  · simp only [upd_other _ _ _ _ e, hfr]
                simp only [set_page] at h
                simp [this] at h
              | some f =>
                have hx : (upd s2.pages dst_page
                    { s2.pages dst_page with frame := (s2.pages p).frame } p).frame = some f := by
                  by_cases e : p = dst_page
                  · subst e; simp [hfr]
                  · simp only [upd_other _ _ _ _ e, hfr]
                simp only [set_page] at h
                have hpt2 : s2.pt_ok = true := i2.pt
                have hcur2 : s2.cur = s1.cur := by rw [e2]; rfl
                have hdst2 : dst_page ∈ (s2.threads s2.cur).spt := by rw [e2]; exact hdst
                have hrd2 : pg_round_down (s2.pages dst_page).va = (s2.pages dst_page).va := by
                  rw [hva2]; exact hrd
                simp only [hx, pml4_set_page, set_thread, hpt2, if_true, upd_same,
                  Bool.true_eq_false, if_false, Option.some.injEq, Prod.mk.injEq] at h
                obtain ⟨_, rfl⟩ := h
                refine ⟨?_, by simp only []; rw [hcur2, c1],
                  by simp only []; rw [e2]; exact n1, ?_⟩
                · refine res_set s2 _ dst_page true i2 hdst2 ?_ ?_ ?_ ?_ ?_ ?_ ?_ rfl rfl
                    (fun _ hx => hx)
                  · intro q hq
                    simp only [upd_other _ _ _ _ hq, and_self]
                  · simp [hfr]
                  · intro t ht
                    simp only [upd_other _ _ _ _ ht]
                  · simp
                  · simp [hrd2]
                  · intro x hx
                    simp only [upd_same, hrd2, upd_other _ _ _ _ hx]
                  · simp
                · intro q hq
                  have : ((upd s2.pages dst_page
                      { s2.pages dst_page with frame := (s2.pages p).frame }) q).va
                      = (s2.pages q).va := by
                    by_cases e : q = dst_page
                    · subst e; simp
                    · rw [upd_other _ _ _ _ e]
                  simp only []
                  rw [this, hva2, v1 q hq]
  · rename_i slot hpl
    simp only [vm_alloc_page] at h
    cases hal : vm_alloc_page_with_initializer s VM_ANON (s.pages p).va (s.pages p).writable
        none none with
    | none => simp [hal] at h
    | some x =>
      obtain ⟨b, s1⟩ := x
      obtain ⟨i1, _, c1, n1, v1⟩ := alloc_res _ _ _ _ _ _ _ _ ha hal hi
      cases b with
      | false =>
        simp only [hal, Option.some.injEq, Prod.mk.injEq] at h
        obtain ⟨_, rfl⟩ := h
        exact ⟨i1, c1, n1, fun q hq => by rw [v1 q hq]⟩
      | true =>
        simp only [hal] at h
        rw [← c1] at h
        cases hfr : (s1.pages p).frame with
        | none => simp [hfr] at h
        | some f =>
          simp only [hfr] at h
          obtain ⟨c2, n2, v2⟩ := copy_claim_frame _ _ _ _ _ _ _ h
          refine ⟨copy_claim_res _ _ _ _ _ _ h i1, by rw [c2, c1], by rw [n2]; exact n1, ?_⟩
          intro q hq
          rw [v2, v1 q hq]

theorem spt_copy_loop_res (dst : Nat) : ∀ (l : List Nat) (s : VM) (r : Bool) (s' : VM),
    s.cur = dst → (∀ p, p ∈ l → p < s.next_page ∧ pg_ofs (s.pages p).va = 0) →
    spt_copy_loop dst l s = some (r, s') → ResInv s → ResInv s' := by
  intro l
  induction l with
  | nil =>
    intro s r s' _ _ h hi
    simp only [spt_copy_loop, Option.some.injEq, Prod.mk.injEq] at h
    obtain ⟨_, rfl⟩ := h
    exact hi
  | cons p rest ih =>
    intro s r s' hc hl h hi
    simp only [spt_copy_loop] at h
    subst hc
    cases hcp : spt_copy_page s s.cur p with
    | none => simp [hcp] at h
    | some x =>
      obtain ⟨b, s1⟩ := x
      obtain ⟨i1, c1, n1, v1⟩ :=
        spt_copy_page_res s p b s1 (hl p (List.mem_cons_self _ _)).2 hcp hi
      cases b with
      | false =>
        simp only [hcp, Option.some.injEq, Prod.mk.injEq] at h
        obtain ⟨_, rfl⟩ := h
        exact i1
      | true =>
        simp only [hcp] at h
        refine ih s1 r s' c1 ?_ h i1
        intro q hq
        obtain ⟨b1, b2⟩ := hl q (List.mem_cons_of_mem _ hq)
        exact ⟨by omega, by rw [v1 q b1]; exact b2⟩

theorem detach_clear_res (s : VM) (pid : Nat) (hpid : pid ∈ (s.threads s.cur).spt)
    (hi : ResInv s) :
    ResInv (pml4_clear_page (detach_frame s pid) (detach_frame s pid).cur
      ((detach_frame s pid).pages pid).va) := by
  have hrd := pg_round_down_aligned _ (hi.aligned _ pid hpid)
  unfold detach_frame
  cases hfr : (s.pages pid).frame with
  | none =>
    simp only [pml4_clear_page, set_thread]
    refine res_set s _ pid false hi hpid ?_ ?_ ?_ ?_ ?_ ?_ ?_ rfl hi.pt (fun _ hx => hx)
    · intro q _; exact ⟨rfl, rfl⟩
    · exact ⟨rfl, by simp [hfr]⟩
    · intro t ht
      simp only [upd_other _ _ _ _ ht]
    · simp
    · simp [hrd]
    · intro x hx
      simp only [upd_same, hrd, upd_other _ _ _ _ hx]
    · simp
  | some f =>
    simp only [pml4_clear_page, set_thread, set_page, set_frame, upd_same]
    refine res_set s _ pid false hi hpid ?_ ?_ ?_ ?_ ?_ ?_ ?_ rfl hi.pt (fun _ hx => hx)
    · intro q hq
      simp only [upd_other _ _ _ _ hq, and_self]
    · simp
    · intro t ht
      simp only [upd_other _ _ _ _ ht]
    · simp
    · simp [hrd]
    · intro x hx
      simp only [upd_same, hrd, upd_other _ _ _ _ hx]
    · simp

theorem file_write_back_res (s : VM) (pid file : Nat) (offset : Int) (prb : Nat) (s' : VM)
    (h : file_write_back s pid file offset prb = some s') (hi : ResInv s) :
    ResInv s' ∧ s'.cur = s.cur ∧ s'.pages = s.pages
      ∧ ∀ t, (s'.threads t).spt = (s.threads t).spt := by
  unfold file_write_back at h
  split at h
  · split at h
    · rename_i s1 h1
      simp only [Option.some.injEq] at h
      subst h
      unfold file_write_at at h1
      split at h1
      · simp only [Option.some.injEq] at h1
        subst h1
        unfold pml4_set_dirty
        simp only
        split
        · rename_i pte hpte
          refine ⟨?_, rfl, rfl, ?_⟩
          · refine res_same s _ hi ?_ ?_ (fun _ => ⟨rfl, rfl⟩) rfl hi.pt (fun _ hx => hx)
            · intro t
              by_cases e : t = s.cur
              · subst e
                simp only [set_thread, upd_same, true_and]
                intro va
                by_cases e2 : va = pg_round_down (s.pages pid).va
                · subst e2; simp [hpte]
                · rw [upd_other _ _ _ _ e2]
              · simp only [set_thread, upd_other _ _ _ _ e, and_self, implies_true]
            · intro t
              by_cases e : t = s.cur
              · subst e
                simp only [set_thread, upd_same]
                exact hi.stack _
              · simp only [set_thread, upd_other _ _ _ _ e]
                exact hi.stack t
          · intro t
            by_cases e : t = s.cur
            · subst e; simp [set_thread]
            · simp only [set_thread, upd_other _ _ _ _ e]
        · exact ⟨res_same s _ hi (fun _ => ⟨rfl, fun _ => rfl⟩) hi.stack
            (fun _ => ⟨rfl, rfl⟩) rfl hi.pt (fun _ hx => hx), rfl, rfl, fun _ => rfl⟩
      · simp at h1
    · simp at h
  · simp only [Option.some.injEq] at h
    subst h
    exact ⟨hi, rfl, rfl, fun _ => rfl⟩

theorem destroy_res (s : VM) (pid : Nat) (s' : VM) (hpid : pid ∈ (s.threads s.cur).spt)
    (h : destroy s pid = some s') (hi : ResInv s) : ResInv s' ∧ s'.cur = s.cur := by
  unfold destroy at h
  split at h
  · simp only [Option.some.injEq] at h
    subst h
    exact ⟨hi, rfl⟩
  · unfold anon_destroy at h
    split at h
    · simp only at h
      split at h
      · simp at h
      · rename_i s1 h1
        simp only [Option.some.injEq] at h
        subst h
        have i1 : ResInv s1 ∧ s1.cur = s.cur ∧ s1.threads = s.threads := by
          split at h1
          · unfold bitmap_reset at h1
            split at h1
            · simp only [Option.some.injEq] at h1
              subst h1
              exact ⟨res_same s _ hi (fun _ => ⟨rfl, fun _ => rfl⟩) hi.stack
                (fun _ => ⟨rfl, rfl⟩) rfl hi.pt (fun _ hx => hx), rfl, rfl⟩
            · simp at h1
          · simp only [Option.some.injEq] at h1
            subst h1
            exact ⟨hi, rfl, rfl⟩
        rw [free_frame_clear_eq]
        refine ⟨free_frame_res _ _
          (detach_clear_res s1 pid (by rw [i1.2.1, i1.2.2]; exact hpid) i1.1), ?_⟩
        rw [free_frame_cur]
        unfold detach_frame
        split
        · simp only [pml4_clear_page, set_thread, set_page, set_frame]; exact i1.2.1
        · simp only [pml4_clear_page, set_thread]; exact i1.2.1
    · simp at h
  · unfold file_backed_destroy at h
    split at h
    · split at h
      · simp at h
      · rename_i s1 h1
        simp only [Option.some.injEq] at h
        subst h
        obtain ⟨i1, c1, _, t1⟩ := file_write_back_res _ _ _ _ _ _ h1 hi
        refine ⟨detach_clear_res s1 pid (by rw [c1, t1]; exact hpid) i1, ?_⟩
        unfold detach_frame
        split
        · simp only [pml4_clear_page, set_thread, set_page, set_frame]; exact c1
        · simp only [pml4_clear_page, set_thread]; exact c1
    · simp at h

theorem do_munmap_loop_res : ∀ (fuel : Nat) (s : VM) (addr : Nat) (s' : VM),
    do_munmap_loop fuel s addr = some s' → ResInv s → ResInv s' := by
  intro fuel
  induction fuel with
  | zero =>
    intro s addr s' h _
    simp [do_munmap_loop] at h
  | succ n ih =>
    intro s addr s' h hi
    simp only [do_munmap_loop] at h
    cases hf : spt_find_page s s.cur addr with
    | none =>
      simp only [hf, Option.some.injEq] at h
      subst h
      exact hi
    | some page =>
      simp only [hf] at h
      cases hd : destroy s page with
      | none => simp [hd] at h
      | some s1 =>
        simp only [hd] at h
        exact ih s1 _ s' h (destroy_res s page s1 (find_mem _ _ _ _ hf) hd hi).1

theorem reach_res (s : VM) (h : ReachOwn s) : ResInv s := by
  induction h with
  | boot pool swap hp =>
    refine ⟨?_, ?_, ?_, ?_, ?_, ?_, ?_, rfl, hp⟩
    · intro t p h; simp [vm_boot, thread0] at h
    · intro t p q h; simp [vm_boot, thread0] at h
    · intro t t' p h; simp [vm_boot, thread0] at h
    · intro t p h; simp [vm_boot, thread0] at h
    · intro t va h; simp [vm_boot, thread0] at h
    · intro t p h; simp [vm_boot, thread0] at h
    · intro t
      have e : ((vm_boot pool swap).threads t).stack_bottom = USER_STACK - PGSIZE := rfl
      rw [e]
      exact ⟨by decide, by decide⟩
  | switch s t _ ih =>
    exact res_same s _ ih (fun _ => ⟨rfl, fun _ => rfl⟩) ih.stack (fun _ => ⟨rfl, rfl⟩) rfl ih.pt
      (fun _ hx => hx)
  | alloc s type upage w init aux r s' _ ha h ih => exact (alloc_res _ _ _ _ _ _ _ _ ha h ih).1
  | claim s va r s' _ hp h ih => exact claim_res _ _ _ _ hp h ih
  | fault s rsp addr user write np r s' _ hp h ih => exact fault_res _ _ _ _ _ _ _ _ hp h ih
  | copy s src r s' _ h ih =>
    exact spt_copy_loop_res s.cur _ s r s' rfl
      (fun p hp => ⟨ih.bound src p hp, ih.aligned src p hp⟩) h ih
  | munmap s addr s' _ h ih => exact do_munmap_loop_res _ _ _ _ h ih
  | destroy_page s pid s' _ hpid h ih => exact (destroy_res s pid s' hpid h ih).1

theorem reach_of_own (s : VM) (h : ReachOwn s) : Reach s := by
  induction h with
  | boot pool swap hp => exact Reach.boot pool swap hp
  | switch s t _ ih => exact Reach.switch s t ih
  | alloc s type upage w init aux r s' _ _ h ih => exact Reach.alloc s type upage w init aux r s' ih h
  | claim s va r s' _ hp h ih => exact Reach.claim s va r s' ih hp h
  | fault s rsp addr user write np r s' _ hp h ih =>
    exact Reach.fault s rsp addr user write np r s' ih hp h
  | copy s src r s' hr h ih => exact Reach.copy s s.cur src r s' ih (reach_res s hr).pt h
  | munmap s addr s' _ h ih => exact Reach.munmap s addr s' ih h
  | destroy_page s pid s' _ _ h ih => exact Reach.destroy_page s pid s' ih h

theorem file_forked_reach : ReachOwn file_forked_state := by
  have h0 : ReachOwn (vm_boot [kpage0, kpage1] [false]) := ReachOwn.boot _ _ (by decide)
  have h1 : ReachOwn file_state1 :=
    ReachOwn.alloc _ VM_FILE uva_a true (some .lazy_load_segment)
      (some { file := 3, offset := 0, page_read_bytes := 50 }) true _ h0 (by decide)
      (result_of_value _ true _ (by decide))
  have h2 : ReachOwn file_state2 :=
    ReachOwn.claim _ uva_a true _ h1 (by decide) (result_of_value _ true _ (by decide))
  exact ReachOwn.copy _ 0 true _ (ReachOwn.switch _ 1 h2) (result_of_value _ true _ (by decide))

theorem no_pt_reach : Reach no_pt_state2 := by
  have h0 : Reach (vm_boot [kpage0] [false]) := Reach.boot _ _ (by decide)
  have h1 := Reach.alloc _ VM_ANON uva_a true none none true _ h0
    (result_of_value _ true (vm_boot [kpage0] [false]) (by decide))
  exact Reach.claim _ uva_a false _ (Reach.pt_memory _ false h1) (by decide)
    (result_of_value _ false _ (by decide))

/-- C3 (counterexample): in the state reached when the child has duplicated an address space
holding a resident file-backed page, page 1 of the child refers to frame 0, whose owner is page 0
of the parent; in the state reached by a `vm_claim_page` that returned false for lack of
page-table memory, page 0 has a frame reference while its address is not mapped; and after a
`supplemental_page_table_copy` that returned false for lack of page-table memory, page 1 of the
child has a frame reference to the record 1, which has been released and is not in the frame
table, while its address is not mapped. -/
theorem frame_owner_not_page :
    ReachOwn file_forked_state
    ∧ (1 ∈ (file_forked_state.threads 1).spt
      ∧ (file_forked_state.pages 1).frame = some 0
      ∧ (file_forked_state.frames 0).page = some 0)
    ∧ Reach no_pt_state2
    ∧ (value_of (vm_claim_page no_pt_state1 uva_a) = some false
      ∧ 0 ∈ (no_pt_state2.threads 0).spt
      ∧ (no_pt_state2.pages 0).frame = some 0
      ∧ translate no_pt_state2 0 (no_pt_state2.pages 0).va = none)
    ∧ value_of (supplemental_page_table_copy anon_prefork_no_pt_state 1 0) = some false
    ∧ (anon_copy_failed_state.threads 1).spt = [1]
    ∧ (anon_copy_failed_state.pages 1).frame = some 1
    ∧ anon_copy_failed_state.freed_frames = [1]
    ∧ anon_copy_failed_state.frame_table = [0]
    ∧ translate anon_copy_failed_state 1 (anon_copy_failed_state.pages 1).va = none :=
  ⟨file_forked_reach, by decide, no_pt_reach, by decide, by decide⟩

theorem VM_TYPE_idem (t : Nat) : VM_TYPE (VM_TYPE t) = VM_TYPE t := by
  unfold VM_TYPE
  rw [Nat.and_assoc]
  rfl

theorem find_some_va (s : VM) (t va q : Nat) (h : spt_find_page s t va = some q) :
    (s.pages q).va = pg_round_down va := by
  unfold spt_find_page at h
  have := List.find?_some h
  simpa using this

/-- Claim C11, counterexample: for the address `uva_a + 1`, which is not page-aligned, the
allocation in an empty table returns true and enters one page, yet `spt_find_page` at that same
address afterwards returns no page. -/
theorem alloc_unaligned_not_found :
    value_of (vm_alloc_page_with_initializer (vm_boot [kpage0] [false]) VM_ANON (uva_a + 1) true
        none none) = some true
    ∧ ((state_of (vm_alloc_page_with_initializer (vm_boot [kpage0] [false]) VM_ANON (uva_a + 1)
        true none none) (vm_boot [kpage0] [false])).threads 0).spt = [0]
    ∧ spt_find_page (state_of (vm_alloc_page_with_initializer (vm_boot [kpage0] [false]) VM_ANON
        (uva_a + 1) true none none) (vm_boot [kpage0] [false])) 0 (uva_a + 1) = none := by
  decide

/-- Claim C11, amended: for a page-aligned address `upage` and a type whose `VM_TYPE` is not
`VM_UNINIT` (the record handed out by the allocator not being in the table yet),
`vm_alloc_page_with_initializer` returns; it returns false exactly when the table of the running
thread already holds a page at `upage`, and then the state is unchanged; when it returns true the
table has gained exactly the new record, which is an uninitialized page at `upage` without a
frame, with the given writable flag, loader and argument and with `page_get_type` equal to
`VM_TYPE type`, every other record is unchanged, and `spt_find_page` at `upage` returns it. -/
theorem vm_alloc_page_with_initializer_aligned (s : VM) (type upage : Nat) (w : Bool)
    (init : Option Loader) (aux : Option Aux) (ha : pg_ofs upage = 0)
    (ht : VM_TYPE type ≠ VM_UNINIT)
    (hfresh : ∀ q ∈ (s.threads s.cur).spt, q ≠ s.next_page) :
    ∃ r s', vm_alloc_page_with_initializer s type upage w init aux = some (r, s')
      ∧ (r = false ↔ ∃ q ∈ (s.threads s.cur).spt, (s.pages q).va = upage)
      ∧ (r = false → s' = s)
      ∧ (r = true →
          s'.cur = s.cur
          ∧ (s'.threads s.cur).spt = (s.threads s.cur).spt ++ [s.next_page]
          ∧ (∀ t, t ≠ s.cur → s'.threads t = s.threads t)
          ∧ (∀ q, q ≠ s.next_page → s'.pages q = s.pages q)
          ∧ (s'.pages s.next_page).va = upage
          ∧ (s'.pages s.next_page).frame = none
          ∧ (s'.pages s.next_page).writable = w
          ∧ ops_type (s'.pages s.next_page) = VM_UNINIT
          ∧ page_get_type (s'.pages s.next_page) = VM_TYPE type
          ∧ (∃ i, (s'.pages s.next_page).payload = .uninit init type aux i)
          ∧ spt_find_page s' s'.cur upage = some s.next_page) := by
  have hrd : pg_round_down upage = upage := by
    simp only [pg_ofs] at ha
    simp [pg_round_down, ha]
  cases hfind : spt_find_page s s.cur upage with
  | some q =>
    refine ⟨false, s, ?_, ?_, fun _ => rfl, fun h => by simp at h⟩
    · simp [vm_alloc_page_with_initializer, ht, hfind]
    · simp only [true_iff]
      refine ⟨q, find_mem _ _ _ _ hfind, ?_⟩
      rw [find_some_va _ _ _ _ hfind, hrd]
  | none =>
    refine ⟨true, alloc_post s type upage w init aux,
      vm_alloc_fresh s type upage w init aux ht hfind hrd hfresh, ?_, fun h => by simp at h, ?_⟩
    · simp only [Bool.true_eq_false, false_iff, not_exists, not_and]
      exact find_none_of_aligned s s.cur upage hrd hfind
    · intro _
      refine ⟨rfl, by simp [alloc_post], ?_, ?_, by simp [alloc_post], by simp [alloc_post],
        by simp [alloc_post], by simp [alloc_post, ops_type],
        by simp [alloc_post, page_get_type], ?_, ?_⟩
      · intro t h
        simp [alloc_post, upd_other _ _ _ _ h]
      · intro q h
        simp [alloc_post, upd_other _ _ _ _ h]
      · simp only [alloc_post, upd_same]
        exact ⟨_, rfl⟩
      · exact spt_find_page_alloc_post s type upage w init aux hfind hrd hfresh

/-- Witness for C11: the allocation of an anonymous page at `uva_a` in a table without pages. -/
theorem vm_alloc_page_with_initializer_aligned_witness :
    ∃ r s', vm_alloc_page_with_initializer (vm_boot [kpage0] [false]) VM_ANON uva_a true none none
        = some (r, s')
      ∧ (r = false ↔ ∃ q ∈ ((vm_boot [kpage0] [false]).threads 0).spt,
          ((vm_boot [kpage0] [false]).pages q).va = uva_a)
      ∧ (r = false → s' = vm_boot [kpage0] [false])
      ∧ (r = true →
          s'.cur = 0
          ∧ (s'.threads 0).spt = ((vm_boot [kpage0] [false]).threads 0).spt ++ [0]
          ∧ (∀ t, t ≠ 0 → s'.threads t = (vm_boot [kpage0] [false]).threads t)
          ∧ (∀ q, q ≠ 0 → s'.pages q = (vm_boot [kpage0] [false]).pages q)
          ∧ (s'.pages 0).va = uva_a
          ∧ (s'.pages 0).frame = none
          ∧ (s'.pages 0).writable = true
          ∧ ops_type (s'.pages 0) = VM_UNINIT
          ∧ page_get_type (s'.pages 0) = VM_TYPE VM_ANON
          ∧ (∃ i, (s'.pages 0).payload = .uninit none VM_ANON none i)
          ∧ spt_find_page s' s'.cur uva_a = some 0) :=
  vm_alloc_page_with_initializer_aligned (vm_boot [kpage0] [false]) VM_ANON uva_a true none none
    (by decide) (by decide) (by simp [vm_boot, thread0])

/-- Claim C12, failing input: in `forked_state` the child (thread 1) runs, the table of the
parent (thread 0) holds page 0 at `uva_a` and the table of the child holds page 1 at `uva_a`.
`spt_remove_page` on the table of the parent and its page 0 returns, but the table of the parent
still holds page 0, `spt_find_page` on it at `uva_a` still returns page 0, and it is the page of
the child that has left the table of the child. -/
theorem spt_remove_page_other_table :
    forked_state.cur = 1
    ∧ (forked_state.threads 0).spt = [0] ∧ (forked_state.threads 1).spt = [1]
    ∧ (forked_state.pages 0).va = uva_a
    ∧ (spt_remove_page forked_state 0 0).isSome = true
    ∧ ((or_state (spt_remove_page forked_state 0 0) forked_state).threads 0).spt = [0]
    ∧ spt_find_page (or_state (spt_remove_page forked_state 0 0) forked_state) 0
        (forked_state.pages 0).va = some 0
    ∧ ((or_state (spt_remove_page forked_state 0 0) forked_state).threads 1).spt = [] := by
  decide

theorem vm_claim_page_heap_ok (s : VM) (va : Nat) :
    vm_claim_page_heap s true va = vm_claim_page s va := by
  unfold vm_claim_page_heap vm_claim_page
  cases spt_find_page s s.cur va with
  | none => rfl
  | some p => rfl

theorem vm_alloc_page_with_initializer_heap_ok (s : VM) (type upage : Nat) (w : Bool)
    (init : Option Loader) (aux : Option Aux) :
    vm_alloc_page_with_initializer_heap s true type upage w init aux
      = vm_alloc_page_with_initializer s type upage w init aux := by
  unfold vm_alloc_page_with_initializer_heap
  by_cases ht : VM_TYPE type = VM_UNINIT
  · simp [ht, vm_alloc_page_with_initializer]
  · cases hf : spt_find_page s s.cur upage with
    | none => simp [ht, malloc]
    | some p => simp [ht, vm_alloc_page_with_initializer, hf]

/-- Claim C15, failing input: the kernel heap is exhausted, so `malloc` returns the null pointer.
Claiming an address at which the table holds a page then stops the kernel in `vm_get_frame`
(`ASSERT (frame != NULL)`) instead of returning false, and allocating a page at a free address
stops the kernel on the null record instead of returning false. -/
theorem malloc_failure_stops_kernel (s : VM) (va pid : Nat) (type upage : Nat) (w : Bool)
    (init : Option Loader) (aux : Option Aux)
    (hfound : spt_find_page s s.cur va = some pid)
    (ht : VM_TYPE type ≠ VM_UNINIT) (hfree : spt_find_page s s.cur upage = none) :
    vm_claim_page_heap s false va = none
    ∧ vm_alloc_page_with_initializer_heap s false type upage w init aux = none := by
  constructor
  · simp [vm_claim_page_heap, hfound, vm_do_claim_page_heap, vm_get_frame_heap, malloc]
  · simp [vm_alloc_page_with_initializer_heap, ht, hfree, malloc]

/-- Witness for C15: a table with one unclaimed anonymous page at `uva_a` and no page at
`uva_b`. -/
theorem malloc_failure_stops_kernel_witness :
    vm_claim_page_heap (state_of (vm_alloc_page (vm_boot [kpage0] [false]) VM_ANON uva_a true)
        (vm_boot [kpage0] [false])) false uva_a = none
    ∧ vm_alloc_page_with_initializer_heap
        (state_of (vm_alloc_page (vm_boot [kpage0] [false]) VM_ANON uva_a true)
          (vm_boot [kpage0] [false])) false VM_ANON uva_b true none none = none :=
  malloc_failure_stops_kernel _ uva_a 0 VM_ANON uva_b true none none (by decide) (by decide)
    (by decide)

theorem get_empty_cluster_loop_spec (fs : FatFs) (fuel : Nat) :
    ∀ clst, fs.fat_length ≤ clst + fuel →
      clst ≤ get_empty_cluster_loop fs fuel clst
      ∧ (∀ d, clst ≤ d → d < get_empty_cluster_loop fs fuel clst → d < fs.fat_length →
          fat_get fs d ≠ 0)
      ∧ (get_empty_cluster_loop fs fuel clst < fs.fat_length →
          fat_get fs (get_empty_cluster_loop fs fuel clst) = 0)
      ∧ (fs.fat_length ≤ get_empty_cluster_loop fs fuel clst →
          ∀ d, clst ≤ d → d < fs.fat_length → fat_get fs d ≠ 0) := by
  induction fuel with
  | zero =>
    intro clst h
    simp only [get_empty_cluster_loop]
    refine ⟨Nat.le_refl _, ?_, ?_, ?_⟩
    · intro d h1 h2; omega
    · intro h1; omega
    · intro _ d h1 h2; omega
  | succ n ih =>
    intro clst h
    simp only [get_empty_cluster_loop]
    by_cases hlt : clst < fs.fat_length
    · by_cases hz : fat_get fs clst = 0
      · rw [if_pos hlt, if_pos hz]
        refine ⟨Nat.le_refl _, ?_, ?_, ?_⟩
        · intro d h1 h2; omega
        · intro _; exact hz
        · intro h1; omega
      · rw [if_pos hlt, if_neg hz]
        obtain ⟨a, b, c, d⟩ := ih (clst + 1) (by omega)
        refine ⟨by omega, ?_, c, ?_⟩
        · intro x h1 h2 h3
          by_cases e : x = clst
          · subst e; exact hz
          · exact b x (by omega) h2 h3
        · intro h1 x h2 h3
          by_cases e : x = clst
          · subst e; exact hz
          · exact d h1 x (by omega) h3
    · rw [if_neg hlt]
      refine ⟨Nat.le_refl _, ?_, ?_, ?_⟩
      · intro d h1 h2; omega
      · intro h1; omega
      · intro _ d h1 h2; omega

theorem get_empty_cluster_lowest (fs : FatFs) (c : Nat) (h : lowest_free fs c) :
    get_empty_cluster fs = c := by
  obtain ⟨h1, h2, h3, h4⟩ := h
  obtain ⟨a, b, c', d⟩ := get_empty_cluster_loop_spec fs fs.fat_length (fs.root_dir_cluster + 1)
    (by omega)
  unfold get_empty_cluster
  by_cases hr : get_empty_cluster_loop fs fs.fat_length (fs.root_dir_cluster + 1)
      < fs.fat_length
  · have hz := c' hr
    by_contra hne
    rcases Nat.lt_or_gt_of_ne hne with hlt | hgt
    · exact h4 _ (by omega) hlt hz
    · exact b c (by omega) hgt h2 h3
  · exact absurd h3 (d (by omega) c (by omega) h2)

theorem get_empty_cluster_full (fs : FatFs)
    (h : ∀ d, fs.root_dir_cluster < d → d < fs.fat_length → fat_get fs d ≠ 0) :
    fs.fat_length ≤ get_empty_cluster fs := by
  obtain ⟨a, b, c', d⟩ := get_empty_cluster_loop_spec fs fs.fat_length (fs.root_dir_cluster + 1)
    (by omega)
  unfold get_empty_cluster
  by_contra hr
  have hr' : get_empty_cluster_loop fs fs.fat_length (fs.root_dir_cluster + 1)
      < fs.fat_length := by omega
  exact h _ (by omega) hr' (c' hr')

theorem nodup_length_le (l : List Nat) (n : Nat) (hn : l.Nodup) (hb : ∀ x ∈ l, x < n) :
    l.length ≤ n := by
  have h1 : l.toFinset ⊆ Finset.range n := by
    intro x hx
    rw [List.mem_toFinset] at hx
    exact Finset.mem_range.mpr (hb x hx)
  have h2 := Finset.card_le_card h1
  rw [List.toFinset_card_of_nodup hn, Finset.card_range] at h2
  exact h2

theorem fat_create_chain_walk_last (fs : FatFs) (l : List Nat) :
    ∀ (fuel c : Nat), l.head? = some c → fat_chain fs l = true → (∀ x ∈ l, x ≠ EOChain) →
      l.length ≤ fuel → ∃ last, l.getLast? = some last ∧
        fat_create_chain_walk fs fuel c = some last := by
  induction l with
  | nil => intro fuel c h; simp at h
  | cons a t ih =>
    intro fuel c hh hc hne hlen
    simp only [List.head?_cons, Option.some.injEq] at hh
    subst hh
    cases fuel with
    | zero => simp at hlen
    | succ n =>
      cases t with
      | nil =>
        simp only [fat_chain, decide_eq_true_eq] at hc
        exact ⟨a, rfl, by simp [fat_create_chain_walk, hc]⟩
      | cons d rest =>
        simp only [fat_chain, Bool.and_eq_true, decide_eq_true_eq] at hc
        obtain ⟨last, h1, h2⟩ := ih n d rfl hc.2
          (fun x hx => hne x (List.mem_cons_of_mem _ hx))
          (by simp only [List.length_cons] at hlen ⊢; omega)
        refine ⟨last, ?_, ?_⟩
        · rw [List.getLast?_cons_cons]; exact h1
        · have hd : fat_get fs a ≠ EOChain := by
            rw [hc.1]
            exact hne d (by simp)
          simp only [fat_create_chain_walk, hd, ne_eq, not_false_eq_true, if_true]
          rw [hc.1]
          exact h2

theorem fat_chain_congr (fs fs' : FatFs) (l : List Nat)
    (h : ∀ x ∈ l, fat_get fs' x = fat_get fs x) : fat_chain fs' l = fat_chain fs l := by
  induction l with
  | nil => rfl
  | cons a t ih =>
    cases t with
    | nil => simp [fat_chain, h a (by simp)]
    | cons d rest =>
      simp only [fat_chain, h a (by simp)]
      rw [ih (fun x hx => h x (List.mem_cons_of_mem _ hx))]

theorem fat_chain_append (fs fs' : FatFs) (c : Nat) (l : List Nat) :
    ∀ last, l.getLast? = some last → fat_chain fs l = true → l.Nodup →
      (∀ x ∈ l, x ≠ last → fat_get fs' x = fat_get fs x) →
      fat_get fs' last = c → fat_get fs' c = EOChain →
      fat_chain fs' (l ++ [c]) = true := by
  induction l with
  | nil => intro last h; simp at h
  | cons a t ih =>
    intro last hl hc hnd hsame hlast hend
    cases t with
    | nil =>
      simp only [List.getLast?_singleton, Option.some.injEq] at hl
      subst hl
      simp [fat_chain, hlast, hend]
    | cons d rest =>
      rw [List.getLast?_cons_cons] at hl
      simp only [fat_chain, Bool.and_eq_true, decide_eq_true_eq] at hc
      have hnd' := (List.nodup_cons.mp hnd)
      have hal : a ≠ last := by
        intro e
        apply hnd'.1
        rw [e]
        exact List.mem_of_getLast?_eq_some hl
      have := ih last hl hc.2 hnd'.2
        (fun x hx hxl => hsame x (List.mem_cons_of_mem _ hx) hxl) hlast hend
      simp only [List.cons_append, fat_chain, Bool.and_eq_true, decide_eq_true_eq]
      refine ⟨?_, ?_⟩
      · rw [hsame a (by simp) hal]; exact hc.1
      · simpa using this

theorem fat_chain_entries_ne_zero (fs : FatFs) (l : List Nat) (hc : fat_chain fs l = true)
    (hz : ∀ x ∈ l, x ≠ 0) : ∀ x ∈ l, fat_get fs x ≠ 0 := by
  induction l with
  | nil => intro x hx; simp at hx
  | cons a t ih =>
    cases t with
    | nil =>
      intro x hx
      simp only [List.mem_singleton] at hx
      subst hx
      simp only [fat_chain, decide_eq_true_eq] at hc
      rw [hc]
      decide
    | cons d rest =>
      simp only [fat_chain, Bool.and_eq_true, decide_eq_true_eq] at hc
      intro x hx
      rcases List.mem_cons.mp hx with e | hx'
      · subst e
        rw [hc.1]
        exact hz d (by simp)
      · exact ih hc.2 (fun y hy => hz y (List.mem_cons_of_mem _ hy)) x hx'

/-- Claim C17: for a FAT whose cluster numbers lie below `EOChain` and whose chain `l` starting
at `clst` (when `clst` is not 0) ends in `EOChain` and is acyclic: if `c` is the lowest free
cluster above the root directory cluster, `fat_create_chain` returns `c` and the entry of `c`
is `EOChain` afterwards; for `clst` 0 no other entry changes; otherwise the former last cluster
of the chain has the entry `c`, no other entry changes, and the chain starting at `clst` is `l`
followed by `c`.  If no cluster above the root directory cluster is free, the function returns 0
and the file system is unchanged. -/
theorem fat_create_chain_extends (fs : FatFs) (clst : Nat) (l : List Nat)
    (hlen : fs.fat_length ≤ EOChain) (hwf : clst ≠ 0 → chain_wf fs clst l) :
    (∀ c, lowest_free fs c →
      ∃ fs', fat_create_chain fs clst = some (c, fs')
        ∧ fat_get fs' c = EOChain
        ∧ fs'.fat_length = fs.fat_length ∧ fs'.data_start = fs.data_start
        ∧ fs'.root_dir_cluster = fs.root_dir_cluster
        ∧ (clst = 0 → ∀ x, x ≠ c → fat_get fs' x = fat_get fs x)
        ∧ (clst ≠ 0 → ∃ last, l.getLast? = some last ∧ fat_get fs last = EOChain
            ∧ fat_get fs' last = c
            ∧ (∀ x, x ≠ c → x ≠ last → fat_get fs' x = fat_get fs x)
            ∧ chain_wf fs' clst (l ++ [c])))
    ∧ ((∀ d, fs.root_dir_cluster < d → d < fs.fat_length → fat_get fs d ≠ 0) →
        fat_create_chain fs clst = some (0, fs)) := by
  constructor
  · intro c hc
    have he := get_empty_cluster_lowest fs c hc
    obtain ⟨h1, h2, h3, h4⟩ := hc
    have hnot : ¬ c ≥ fs.fat_length := by omega
    by_cases h0 : clst = 0
    · refine ⟨fat_put fs c EOChain, ?_, ?_, rfl, rfl, rfl, ?_, fun h => absurd h0 h⟩
      · simp [fat_create_chain, he, hnot, h0]
      · simp [fat_get, fat_put]
      · intro _ x hx
        simp [fat_get, fat_put, upd_other _ _ _ _ hx]
    · obtain ⟨hh, hch, hnd, hb⟩ := hwf h0
      have hcl : c ∉ l := by
        intro hm
        exact fat_chain_entries_ne_zero fs l hch (fun x hx => (hb x hx).1) c hm h3
      have hch1 : fat_chain (fat_put fs c EOChain) l = true := by
        rw [fat_chain_congr fs (fat_put fs c EOChain) l]
        · exact hch
        · intro x hx
          have : x ≠ c := fun e => hcl (e ▸ hx)
          simp [fat_get, fat_put, upd_other _ _ _ _ this]
      have hne : ∀ x ∈ l, x ≠ EOChain := by
        intro x hx
        have := (hb x hx).2
        omega
      obtain ⟨last, hl, hw⟩ := fat_create_chain_walk_last (fat_put fs c EOChain) l
        fs.fat_length clst hh hch1 hne (nodup_length_le l _ hnd (fun x hx => (hb x hx).2))
      have hlm : last ∈ l := List.mem_of_getLast?_eq_some hl
      have hlc : last ≠ c := fun e => hcl (e ▸ hlm)
      have hlast : fat_get fs last = EOChain := by
        obtain ⟨ys, rfl⟩ := List.getLast?_eq_some_iff.1 hl
        clear hw hlm hl hne hch1 hcl hb hnd hh hwf
        induction ys with
        | nil => simpa [fat_chain] using hch
        | cons a t ih =>
          cases t with
          | nil =>
            simp only [List.cons_append, List.nil_append, fat_chain, Bool.and_eq_true,
              decide_eq_true_eq] at hch
            exact hch.2
          | cons d rest =>
            simp only [List.cons_append, fat_chain, Bool.and_eq_true,
              decide_eq_true_eq] at hch
            exact ih (by simpa [fat_chain] using hch.2)
      refine ⟨fat_put (fat_put fs c EOChain) last c, ?_, ?_, rfl, rfl, rfl,
        fun h => absurd h h0, fun _ => ⟨last, hl, hlast, ?_, ?_, ?_⟩⟩
      · have hw' : fat_create_chain_walk (fat_put fs c EOChain)
            (fat_put fs c EOChain).fat_length clst = some last := hw
        simp only [fat_create_chain, he, hnot, if_false, h0, hw']
      · simp [fat_get, fat_put, upd_other _ _ _ _ (Ne.symm hlc)]
      · simp [fat_get, fat_put]
      · intro x hx hxl
        simp [fat_get, fat_put, upd_other _ _ _ _ hx, upd_other _ _ _ _ hxl]
      · refine ⟨?_, ?_, ?_, ?_⟩
        · cases l with
          | nil => simp at hh
          | cons a t => simpa using hh
        · refine fat_chain_append fs _ c l last hl hch hnd ?_ ?_ ?_
          · intro x hx hxl
            have : x ≠ c := fun e => hcl (e ▸ hx)
            simp [fat_get, fat_put, upd_other _ _ _ _ this, upd_other _ _ _ _ hxl]
          · simp [fat_get, fat_put]
          · simp [fat_get, fat_put, upd_other _ _ _ _ (Ne.symm hlc)]
        · rw [List.nodup_append]
          refine ⟨hnd, List.nodup_singleton c, ?_⟩
          intro x hx hx'
          simp only [List.mem_singleton] at hx'
          exact hcl (hx' ▸ hx)
        · intro x hx
          rcases List.mem_append.mp hx with hx1 | hx2
          · exact hb x hx1
          · simp only [List.mem_singleton] at hx2
            subst hx2
            exact ⟨by omega, h2⟩
  · intro hfull
    have := get_empty_cluster_full fs hfull
    simp [fat_create_chain, this]

/-- Witness for C17: in `fs_formatted` the chain starting at cluster 2 is 2, 3 and the lowest
free cluster is 4. -/
theorem fat_create_chain_extends_witness :
    lowest_free fs_formatted.fat_fs 4
    ∧ chain_wf fs_formatted.fat_fs 2 [2, 3]
    ∧ (∀ c, lowest_free fs_formatted.fat_fs c →
      ∃ fs', fat_create_chain fs_formatted.fat_fs 2 = some (c, fs')
        ∧ fat_get fs' c = EOChain
        ∧ fs'.fat_length = fs_formatted.fat_fs.fat_length
        ∧ fs'.data_start = fs_formatted.fat_fs.data_start
        ∧ fs'.root_dir_cluster = fs_formatted.fat_fs.root_dir_cluster
        ∧ (2 = 0 → ∀ x, x ≠ c → fat_get fs' x = fat_get fs_formatted.fat_fs x)
        ∧ (2 ≠ 0 → ∃ last, [2, 3].getLast? = some last
            ∧ fat_get fs_formatted.fat_fs last = EOChain
            ∧ fat_get fs' last = c
            ∧ (∀ x, x ≠ c → x ≠ last → fat_get fs' x = fat_get fs_formatted.fat_fs x)
            ∧ chain_wf fs' 2 ([2, 3] ++ [c])))
    ∧ ((∀ d, fs_formatted.fat_fs.root_dir_cluster < d → d < fs_formatted.fat_fs.fat_length →
          fat_get fs_formatted.fat_fs d ≠ 0) →
        fat_create_chain fs_formatted.fat_fs 2 = some (0, fs_formatted.fat_fs)) :=
  ⟨⟨by decide, by decide, by decide, fun d h1 h2 => by
      have h1' : 1 < d := h1
      interval_cases d <;> decide⟩,
    ⟨by decide, by decide, by decide, by decide⟩,
    fat_create_chain_extends fs_formatted.fat_fs 2 [2, 3] (by decide)
      (fun _ => ⟨by decide, by decide, by decide, by decide⟩)⟩

/-- Claim C18, failing input: with `pclst` 0 the function only stores `EOChain` in entry 0 of
the FAT, whatever the chain is, so no cluster of the chain becomes free.  In `fs_formatted`, whose
clusters 2 and 3 form the chain 2, 3, the call `fat_remove_chain (2, 0)` leaves the entries of
2 and 3 as they were and changes entry 0, which lies outside the chain; the call
`fat_remove_chain (2, 1)` frees cluster 2 but leaves the last cluster 3 in use and the entry of
`pclst` unchanged. -/
theorem fat_remove_chain_frees_nothing :
    (∀ (fs : FatFs) (clst : Nat), fat_remove_chain fs clst 0 = some (fat_put fs 0 EOChain))
    ∧ fat_get fs_formatted.fat_fs 2 = 3 ∧ fat_get fs_formatted.fat_fs 3 = EOChain
    ∧ fat_get fs_formatted.fat_fs 0 = 0
    ∧ (fat_remove_chain fs_formatted.fat_fs 2 0).isSome = true
    ∧ fat_get ((fat_remove_chain fs_formatted.fat_fs 2 0).getD fs_formatted.fat_fs) 2 = 3
    ∧ fat_get ((fat_remove_chain fs_formatted.fat_fs 2 0).getD fs_formatted.fat_fs) 3 = EOChain
    ∧ fat_get ((fat_remove_chain fs_formatted.fat_fs 2 0).getD fs_formatted.fat_fs) 0 = EOChain
    ∧ (fat_remove_chain fs_formatted.fat_fs 2 1).isSome = true
    ∧ fat_get ((fat_remove_chain fs_formatted.fat_fs 2 1).getD fs_formatted.fat_fs) 2 = 0
    ∧ fat_get ((fat_remove_chain fs_formatted.fat_fs 2 1).getD fs_formatted.fat_fs) 3 = EOChain
    ∧ fat_get ((fat_remove_chain fs_formatted.fat_fs 2 1).getD fs_formatted.fat_fs) 1
        = fat_get fs_formatted.fat_fs 1 := by
  refine ⟨fun fs clst => by simp [fat_remove_chain], ?_⟩
  decide

/-- Claim C19, failing input: the last close of a removed inode changes entry 0 of the FAT and
no other entry, whatever the file is.  In `fs_formatted` three clusters are in use.  Creating a file of
1024 bytes takes the clusters 4 (the inode), 5, 6 and 7 (the data), so seven are in use.  After
`filesys_remove` and the last `inode_close` of the removed inode the clusters 4, 5, 6 and 7 are
still in use: the close calls `fat_remove_chain` with the sector of the inode and `pclst` 0,
which stores `EOChain` in entry 0 and frees nothing, so eight entries are in use. -/
theorem create_remove_leaks_clusters :
    (∀ (s : Filesys) (sector : Nat) (cnt : Int) (data : InodeDisk),
      inode_close s ⟨sector, 1, true, cnt, data⟩
        = some (⟨sector, 0, true, cnt, data⟩,
          ⟨fat_put s.fat_fs 0 EOChain, upd s.disk sector data⟩))
    ∧ fat_used fs_formatted.fat_fs = 3
    ∧ fat_used (fs_of (filesys_create fs_formatted 1024 true true) fs_formatted).fat_fs = 7
    ∧ (fs_create_remove 1024).isSome = true
    ∧ fat_get ((fs_create_remove 1024).getD fs_formatted).fat_fs 4 = EOChain
    ∧ fat_get ((fs_create_remove 1024).getD fs_formatted).fat_fs 5 = 6
    ∧ fat_get ((fs_create_remove 1024).getD fs_formatted).fat_fs 6 = 7
    ∧ fat_get ((fs_create_remove 1024).getD fs_formatted).fat_fs 7 = EOChain
    ∧ fat_get ((fs_create_remove 1024).getD fs_formatted).fat_fs 0 = EOChain
    ∧ fat_used ((fs_create_remove 1024).getD fs_formatted).fat_fs = 8 := by
  refine ⟨fun s sector cnt data => by simp [inode_close, fat_remove_chain], ?_⟩
  decide

theorem vm_alloc_true (s s1 : VM) (type upage : Nat) (w : Bool) (init : Option Loader)
    (aux : Option Aux)
    (h : vm_alloc_page_with_initializer s type upage w init aux = some (true, s1)) :
    s1 = alloc_post s type upage w init aux := by
  unfold vm_alloc_page_with_initializer at h
  split at h
  · simp at h
  · split at h
    · simp only [spt_insert_page, uninit_new, set_page, set_thread, upd_same, upd_upd,
        Option.some.injEq] at h
      split at h
      · simp at h
      · simp only [Prod.mk.injEq, true_and] at h
        rw [← h]
        rfl
    · simp at h

theorem vm_alloc_file_some (s : VM) (upage : Nat) (w : Bool) (init : Option Loader)
    (aux : Option Aux) :
    ∃ b s1, vm_alloc_page_with_initializer s VM_FILE upage w init aux = some (b, s1) := by
  unfold vm_alloc_page_with_initializer
  have : ¬ VM_TYPE VM_FILE = VM_UNINIT := by decide
  simp only [this, if_false]
  split
  · exact ⟨_, _, rfl⟩
  · exact ⟨_, _, rfl⟩

theorem same_table_refl (s : VM) : same_table s s := ⟨rfl, fun _ => rfl, fun _ => rfl⟩

theorem same_table_trans (a b c : VM) (h1 : same_table a b) (h2 : same_table b c) :
    same_table a c :=
  ⟨h2.1.trans h1.1, fun t => (h2.2.1 t).trans (h1.2.1 t), fun q => (h2.2.2 q).trans (h1.2.2 q)⟩

theorem same_table_find (s s' : VM) (h : same_table s s') (t va : Nat) :
    spt_find_page s' t va = spt_find_page s t va := by
  unfold spt_find_page
  rw [h.2.1 t]
  congr 1
  funext pid
  rw [h.2.2 pid]

theorem same_table_pml4 (s : VM) (t : Nat) (f : Nat → Option Pte) :
    same_table s (set_thread s t { s.threads t with pml4 := f }) := by
  refine ⟨rfl, ?_, fun _ => rfl⟩
  intro u
  by_cases e : u = t
  · subst e; simp [set_thread]
  · simp [set_thread, upd_other _ _ _ _ e]

theorem same_table_free (s : VM) (f : Option Nat) : same_table s (free_frame s f) := by
  cases f <;> exact ⟨rfl, fun _ => rfl, fun _ => rfl⟩

theorem same_table_clear (s : VM) (t va : Nat) : same_table s (pml4_clear_page s t va) :=
  same_table_pml4 s t _

theorem same_table_set_dirty (s : VM) (t va : Nat) (v : Bool) :
    same_table s (pml4_set_dirty s t va v) := by
  unfold pml4_set_dirty
  split
  · exact same_table_pml4 s t _
  · exact same_table_refl s

theorem same_table_detach (s : VM) (pid : Nat) : same_table s (detach_frame s pid) := by
  unfold detach_frame
  split
  · refine ⟨rfl, fun _ => rfl, ?_⟩
    intro q
    by_cases e : q = pid
    · subst e; simp [set_page, set_frame]
    · simp [set_page, set_frame, upd_other _ _ _ _ e]
  · exact same_table_refl s

theorem same_table_write_at (s s' : VM) (file va n : Nat) (offset : Int)
    (h : file_write_at s file va n offset = some s') : same_table s s' := by
  unfold file_write_at at h
  cases hc : copy_in s va n with
  | none => simp [hc] at h
  | some buf =>
    simp only [hc, Option.some.injEq] at h
    subst h
    exact ⟨rfl, fun _ => rfl, fun _ => rfl⟩

theorem same_table_write_back (s s' : VM) (pid file : Nat) (offset : Int) (n : Nat)
    (h : file_write_back s pid file offset n = some s') : same_table s s' := by
  unfold file_write_back at h
  by_cases hd : pml4_is_dirty s s.cur (s.pages pid).va = true
  · simp only [hd, if_true] at h
    cases hw : file_write_at s file (s.pages pid).va n offset with
    | none => simp [hw] at h
    | some s1 =>
      simp only [hw, Option.some.injEq] at h
      subst h
      exact same_table_trans _ _ _ (same_table_write_at _ _ _ _ _ _ hw)
        (same_table_set_dirty _ _ _ _)
  · simp only [hd, Bool.false_eq_true, if_false, Option.some.injEq] at h
    subst h
    exact same_table_refl s

theorem same_table_destroy (s s' : VM) (pid : Nat) (h : destroy s pid = some s') :
    same_table s s' := by
  unfold destroy at h
  cases hp : (s.pages pid).payload with
  | uninit a b c d =>
    rw [hp] at h
    have h' : some s = some s' := h
    simp only [Option.some.injEq] at h'
    subst h'
    exact same_table_refl s
  | anon slot =>
    rw [hp] at h
    have h' : anon_destroy s pid = some s' := h
    clear h
    rename' h' => h
    simp only [anon_destroy, hp] at h
    by_cases hs : slot ≠ BITMAP_ERROR
    · rw [if_pos hs] at h
      cases hb : bitmap_reset s.swap_table slot with
      | none => simp [hb] at h
      | some b =>
        simp only [hb, Option.some.injEq] at h
        subst h
        have h1 : same_table s { s with swap_table := b } := ⟨rfl, fun _ => rfl, fun _ => rfl⟩
        rw [free_frame_clear_eq]
        exact same_table_trans _ _ _ h1
          (same_table_trans _ _ _ (same_table_detach _ _)
            (same_table_trans _ _ _ (same_table_clear _ _ _) (same_table_free _ _)))
    · rw [if_neg hs] at h
      simp only [Option.some.injEq] at h
      subst h
      rw [free_frame_clear_eq]
      exact same_table_trans _ _ _ (same_table_detach _ _)
        (same_table_trans _ _ _ (same_table_clear _ _ _) (same_table_free _ _))
  | file f o n =>
    rw [hp] at h
    have h' : file_backed_destroy s pid = some s' := h
    clear h
    rename' h' => h
    simp only [file_backed_destroy, hp] at h
    cases hw : file_write_back s pid f o n with
    | none => simp [hw] at h
    | some s1 =>
      simp only [hw, Option.some.injEq] at h
      subst h
      exact same_table_trans _ _ _ (same_table_write_back _ _ _ _ _ _ hw)
        (same_table_trans _ _ _ (same_table_detach _ _) (same_table_clear _ _ _))

theorem pages_pml4 (s : VM) (t : Nat) (th : Thread) : (set_thread s t th).pages = s.pages := rfl

theorem pages_set_dirty (s : VM) (t va : Nat) (v : Bool) :
    (pml4_set_dirty s t va v).pages = s.pages := by
  unfold pml4_set_dirty
  split <;> rfl

theorem pages_detach (s : VM) (pid q : Nat) (h : q ≠ pid) :
    (detach_frame s pid).pages q = s.pages q := by
  unfold detach_frame
  split
  · simp [set_page, set_frame, upd_other _ _ _ _ h]
  · rfl

theorem pages_write_back (s s' : VM) (pid file : Nat) (offset : Int) (n : Nat)
    (h : file_write_back s pid file offset n = some s') : s'.pages = s.pages := by
  unfold file_write_back at h
  by_cases hd : pml4_is_dirty s s.cur (s.pages pid).va = true
  · simp only [hd, if_true] at h
    cases hw : file_write_at s file (s.pages pid).va n offset with
    | none => simp [hw] at h
    | some s1 =>
      simp only [hw, Option.some.injEq] at h
      subst h
      rw [pages_set_dirty]
      unfold file_write_at at hw
      cases hc : copy_in s (s.pages pid).va n with
      | none => simp [hc] at hw
      | some buf =>
        simp only [hc, Option.some.injEq] at hw
        subst hw
        rfl
  · simp only [hd, Bool.false_eq_true, if_false, Option.some.injEq] at h
    subst h
    rfl

theorem destroy_other_pages (s s' : VM) (pid : Nat) (h : destroy s pid = some s') :
    ∀ q, q ≠ pid → s'.pages q = s.pages q := by
  intro q hq
  unfold destroy at h
  cases hp : (s.pages pid).payload with
  | uninit a b c d =>
    rw [hp] at h
    have h' : some s = some s' := h
    simp only [Option.some.injEq] at h'
    subst h'
    rfl
  | anon slot =>
    rw [hp] at h
    have h' : anon_destroy s pid = some s' := h
    clear h
    simp only [anon_destroy, hp] at h'
    by_cases hs : slot ≠ BITMAP_ERROR
    · rw [if_pos hs] at h'
      cases hb : bitmap_reset s.swap_table slot with
      | none => simp [hb] at h'
      | some b =>
        simp only [hb, Option.some.injEq] at h'
        subst h'
        rw [free_frame_clear_eq, free_frame_pages]
        simp only [pml4_clear_page, pages_pml4]
        rw [pages_detach _ _ _ hq]
    · rw [if_neg hs] at h'
      simp only [Option.some.injEq] at h'
      subst h'
      rw [free_frame_clear_eq, free_frame_pages]
      simp only [pml4_clear_page, pages_pml4]
      rw [pages_detach _ _ _ hq]
  | file f o n =>
    rw [hp] at h
    have h' : file_backed_destroy s pid = some s' := h
    clear h
    simp only [file_backed_destroy, hp] at h'
    cases hw : file_write_back s pid f o n with
    | none => simp [hw] at h'
    | some s1 =>
      simp only [hw, Option.some.injEq] at h'
      subst h'
      simp only [pml4_clear_page, pages_pml4]
      rw [pages_detach _ _ _ hq, pages_write_back _ _ _ _ _ _ hw]

theorem destroy_all_other_pages : ∀ (l : List Nat) (s s' : VM), destroy_all l s = some s' →
    ∀ q, q ∉ l → s'.pages q = s.pages q := by
  intro l
  induction l with
  | nil =>
    intro s s' h q _
    simp only [destroy_all, Option.some.injEq] at h
    subst h
    rfl
  | cons p rest ih =>
    intro s s' h q hq
    simp only [destroy_all] at h
    cases hd : destroy s p with
    | none => simp [hd] at h
    | some s1 =>
      simp only [hd] at h
      rw [ih s1 s' h q (fun hm => hq (List.mem_cons_of_mem _ hm))]
      exact destroy_other_pages s s1 p hd q (fun e => hq (e ▸ List.mem_cons_self _ _))

theorem pg_round_down_add_pages (a i : Nat) :
    pg_round_down (a + i * PGSIZE) = pg_round_down a + i * PGSIZE := by
  unfold pg_round_down
  rw [Nat.add_mul_mod_self_right]
  have := Nat.mod_le a PGSIZE
  omega

theorem run_length_le (s : VM) (addr n : Nat) (ps : Nat → Nat)
    (hrun : ∀ i, i < n → spt_find_page s s.cur (addr + i * PGSIZE) = some (ps i)) :
    n ≤ (s.threads s.cur).spt.length := by
  have hsub : (List.range n).map ps ⊆ (s.threads s.cur).spt := by
    intro x hx
    obtain ⟨i, hi, rfl⟩ := List.mem_map.mp hx
    exact find_mem _ _ _ _ (hrun i (List.mem_range.mp hi))
  have hnd : ((List.range n).map ps).Nodup := by
    apply List.Nodup.map_on _ (List.nodup_range n)
    intro i hi j hj e
    have h1 := find_some_va _ _ _ _ (hrun i (List.mem_range.mp hi))
    have h2 := find_some_va _ _ _ _ (hrun j (List.mem_range.mp hj))
    rw [e, h2, pg_round_down_add_pages, pg_round_down_add_pages] at h1
    have hp : (0 : Nat) < PGSIZE := by decide
    have : j * PGSIZE = i * PGSIZE := by omega
    exact (Nat.eq_of_mul_eq_mul_right hp this).symm
  have := (List.Nodup.subperm hnd hsub).length_le
  simpa using this

theorem do_munmap_loop_run : ∀ (n fuel : Nat) (s : VM) (addr : Nat) (ps : Nat → Nat),
    n + 1 ≤ fuel →
    (∀ i, i < n → spt_find_page s s.cur (addr + i * PGSIZE) = some (ps i)) →
    spt_find_page s s.cur (addr + n * PGSIZE) = none →
    do_munmap_loop fuel s addr = destroy_all ((List.range n).map ps) s := by
  intro n
  induction n with
  | zero =>
    intro fuel s addr ps hf _ hend
    obtain ⟨f, rfl⟩ : ∃ f, fuel = f + 1 := ⟨fuel - 1, by omega⟩
    simp only [Nat.zero_mul, Nat.add_zero] at hend
    simp [do_munmap_loop, hend, destroy_all]
  | succ n ih =>
    intro fuel s addr ps hf hrun hend
    obtain ⟨f, rfl⟩ : ∃ f, fuel = f + 1 := ⟨fuel - 1, by omega⟩
    have h0 := hrun 0 (by omega)
    simp only [Nat.zero_mul, Nat.add_zero] at h0
    rw [List.range_succ_eq_map, List.map_cons, List.map_map]
    simp only [do_munmap_loop, h0, destroy_all]
    cases hd : destroy s (ps 0) with
    | none => rfl
    | some s1 =>
      have hst := same_table_destroy s s1 (ps 0) hd
      simp only
      apply ih f s1 (addr + PGSIZE) (ps ∘ Nat.succ) (by omega)
      · intro i hi
        rw [hst.1, same_table_find s s1 hst]
        have e : addr + PGSIZE + i * PGSIZE = addr + (i + 1) * PGSIZE := by ring
        rw [e]
        exact hrun (i + 1) (by omega)
      · rw [hst.1, same_table_find s s1 hst]
        have e : addr + PGSIZE + n * PGSIZE = addr + (n + 1) * PGSIZE := by ring
        rw [e]
        exact hend

/-- Claim C14, counterexample: in `mapped_then_anon_state` the mapping created at `uva_a` is
one page (page 0) and page 1, at the address right after it, is a resident anonymous page.
`do_munmap` at `uva_a` returns, and afterwards the anonymous page has lost its frame and its
hardware mapping. -/
theorem do_munmap_destroys_next_page :
    (mapped_then_anon_state.threads 0).spt = [0, 1]
    ∧ (mapped_then_anon_state.pages 0).va = uva_a
    ∧ page_get_type (mapped_then_anon_state.pages 0) = VM_FILE
    ∧ (mapped_then_anon_state.pages 1).va = uva_b
    ∧ page_get_type (mapped_then_anon_state.pages 1) = VM_ANON
    ∧ (mapped_then_anon_state.pages 1).frame = some 1
    ∧ (translate mapped_then_anon_state 0 uva_b).isSome = true
    ∧ (do_munmap mapped_then_anon_state uva_a).isSome = true
    ∧ ((or_state (do_munmap mapped_then_anon_state uva_a) mapped_then_anon_state).pages 1).frame
        = none
    ∧ translate (or_state (do_munmap mapped_then_anon_state uva_a) mapped_then_anon_state) 0
        uva_b = none := by
  decide

/-- Claim C14, amended: when the table of the running thread holds the pages `ps 0`, ...,
`ps (n - 1)` at `addr`, `addr + PGSIZE`, ... and no page at `addr + n * PGSIZE`, `do_munmap`
at `addr` is the run of `destroy` on exactly these `n` pages in order, of whatever kind and
mapping they are; the record of every other page is unchanged. -/
theorem do_munmap_destroys_run (s : VM) (addr n : Nat) (ps : Nat → Nat)
    (hrun : ∀ i, i < n → spt_find_page s s.cur (addr + i * PGSIZE) = some (ps i))
    (hend : spt_find_page s s.cur (addr + n * PGSIZE) = none) :
    do_munmap s addr = destroy_all ((List.range n).map ps) s
    ∧ ∀ s', do_munmap s addr = some s' →
        ∀ q, q ∉ (List.range n).map ps → s'.pages q = s.pages q := by
  have h1 : do_munmap s addr = destroy_all ((List.range n).map ps) s := by
    unfold do_munmap cur_thread
    exact do_munmap_loop_run n _ s addr ps
      (Nat.succ_le_succ (run_length_le s addr n ps hrun)) hrun hend
  refine ⟨h1, ?_⟩
  intro s' h q hq
  rw [h1] at h
  exact destroy_all_other_pages _ s s' h q hq

/-- Witness for C14: in `mapped_then_anon_state` the run at `uva_a` is the two pages 0 and 1. -/
theorem do_munmap_destroys_run_witness :
    (destroy_all [0, 1] mapped_then_anon_state).isSome = true
    ∧ do_munmap mapped_then_anon_state uva_a
        = destroy_all ((List.range 2).map id) mapped_then_anon_state
    ∧ ∀ s', do_munmap mapped_then_anon_state uva_a = some s' →
        ∀ q, q ∉ (List.range 2).map id → s'.pages q = mapped_then_anon_state.pages q :=
  ⟨by decide,
    do_munmap_destroys_run mapped_then_anon_state uva_a 2 id
      (fun i hi => by interval_cases i <;> decide) (by decide)⟩

theorem vm_alloc_true_find (s s1 : VM) (type upage : Nat) (w : Bool) (init : Option Loader)
    (aux : Option Aux)
    (h : vm_alloc_page_with_initializer s type upage w init aux = some (true, s1)) :
    spt_find_page s s.cur upage = none := by
  unfold vm_alloc_page_with_initializer at h
  by_cases ht : VM_TYPE type = VM_UNINIT
  · simp [ht] at h
  · cases hf : spt_find_page s s.cur upage with
    | none => rfl
    | some q => simp [ht, hf] at h

theorem find_alloc_post_eq (s : VM) (type upage : Nat) (w : Bool) (init : Option Loader)
    (aux : Option Aux) (q : Nat) (hfind : spt_find_page s s.cur upage = none)
    (h : spt_find_page (alloc_post s type upage w init aux) s.cur upage = some q) :
    q = s.next_page := by
  by_contra hne
  have hva := find_some_va _ _ _ _ h
  have hm := find_mem _ _ _ _ h
  simp only [alloc_post, upd_same, List.mem_append, List.mem_singleton] at hm
  rcases hm with hm | hm
  · simp only [alloc_post, upd_other _ _ _ _ hne] at hva
    unfold spt_find_page at hfind
    rw [List.find?_eq_none] at hfind
    have := hfind q hm
    simp [hva] at this
  · exact hne hm

theorem spt_copy_page_effect (s s1 : VM) (p : Nat) (hp : p < s.next_page)
    (h : spt_copy_page s s.cur p = some (true, s1)) :
    s1.cur = s.cur
    ∧ (s1.threads s.cur).spt = (s.threads s.cur).spt ++ [s.next_page]
    ∧ s1.next_page = s.next_page + 1
    ∧ (∀ q, q ≠ s.next_page → s1.pages q = s.pages q)
    ∧ (s1.pages s.next_page).va = (s.pages p).va
    ∧ (s1.pages s.next_page).writable = (s.pages p).writable
    ∧ page_get_type (s1.pages s.next_page) = page_get_type (s.pages p)
    ∧ (∀ init t aux i, (s.pages p).payload = .uninit init t aux i →
        (s1.pages s.next_page).frame = none
        ∧ ∃ t' i', (s1.pages s.next_page).payload = .uninit init t' aux i') := by
  have hpn : p ≠ s.next_page := by omega
  unfold spt_copy_page at h
  dsimp only at h
  cases hpay : (s.pages p).payload with
  | uninit init t aux i =>
    rw [hpay] at h
    have h' : vm_alloc_page_with_initializer s (page_get_type (s.pages p)) (s.pages p).va
        (s.pages p).writable init aux = some (true, s1) := h
    have := vm_alloc_true _ _ _ _ _ _ _ h'
    subst this
    refine ⟨rfl, by simp [alloc_post], rfl, ?_, by simp [alloc_post], by simp [alloc_post],
      ?_, ?_⟩
    · intro q hq
      simp [alloc_post, upd_other _ _ _ _ hq]
    · simp [alloc_post, page_get_type, hpay, VM_TYPE_idem]
    · intro init' t' aux' i' e
      simp only [Payload.uninit.injEq] at e
      obtain ⟨rfl, rfl, rfl, rfl⟩ := e
      refine ⟨by simp [alloc_post], ?_⟩
      simp only [alloc_post, upd_same]
      exact ⟨_, _, rfl⟩
  | file file offset prb =>
    rw [hpay] at h
    have h' : (match vm_alloc_page_with_initializer s VM_FILE (s.pages p).va (s.pages p).writable
          none (some { file := file, offset := offset, page_read_bytes := prb }) with
        | none => none
        | some (false, s1) => some (false, s1)
        | some (true, s1) =>
          match spt_find_page s1 s.cur (s.pages p).va with
          | none => none
          | some dst_page =>
            match file_backed_initializer s1 dst_page with
            | none => none
            | some (false, s2) => some (false, s2)
            | some (true, s2) =>
              let s3 := set_page s2 dst_page
                { s2.pages dst_page with frame := (s2.pages p).frame }
              match (s3.pages p).frame with
              | none => none
              | some f =>
                let r := pml4_set_page s3 s3.cur (s3.pages dst_page).va (s3.frames f).kva
                  (s3.pages p).writable
                if r.1 = false then some (false, r.2) else some (true, r.2))
        = some (true, s1) := h
    clear h
    cases ha : vm_alloc_page_with_initializer s VM_FILE (s.pages p).va (s.pages p).writable
        none (some { file := file, offset := offset, page_read_bytes := prb }) with
    | none => simp [ha] at h'
    | some x =>
      obtain ⟨b, sA⟩ := x
      cases b with
      | false => simp [ha] at h'
      | true =>
        have hfind := vm_alloc_true_find _ _ _ _ _ _ _ ha
        have := vm_alloc_true _ _ _ _ _ _ _ ha
        subst this
        rw [ha] at h'
        dsimp only at h'
        cases hf : spt_find_page (alloc_post s VM_FILE (s.pages p).va (s.pages p).writable none
            (some { file := file, offset := offset, page_read_bytes := prb })) s.cur
            (s.pages p).va with
        | none => simp [hf] at h'
        | some q =>
          have := find_alloc_post_eq _ _ _ _ _ _ q hfind hf
          subst this
          rw [hf] at h'
          simp only [file_backed_initializer, alloc_post, upd_same, set_page, upd_upd,
            upd_other _ _ _ _ hpn] at h'
          cases hfr : (s.pages p).frame with
          | none => simp [hfr] at h'
          | some f =>
            simp only [hfr, pml4_set_page, set_thread, upd_same] at h'
            by_cases hpt : s.pt_ok = true
            · simp only [hpt, if_true, Bool.true_eq_false, if_false, Option.some.injEq,
                Prod.mk.injEq, true_and] at h'
              subst h'
              refine ⟨rfl, by simp, rfl, ?_, by simp, by simp, ?_, ?_⟩
              · intro q hq
                simp [upd_other _ _ _ _ hq]
              · simp [page_get_type, hpay]
              · intro init' t' aux' i' e
                cases e
            · simp [hpt] at h'
  | anon slot =>
    rw [hpay] at h
    have h' : (match vm_alloc_page s VM_ANON (s.pages p).va (s.pages p).writable with
        | none => none
        | some (false, s1) => some (false, s1)
        | some (true, s1) =>
          match (s1.pages p).frame with
          | none => none
          | some f => vm_copy_claim_page s1 s.cur (s.pages p).va (s1.frames f).kva
              (s.pages p).writable) = some (true, s1) := h
    clear h
    unfold vm_alloc_page at h'
    cases ha : vm_alloc_page_with_initializer s VM_ANON (s.pages p).va (s.pages p).writable
        none none with
    | none => simp [ha] at h'
    | some x =>
      obtain ⟨b, sA⟩ := x
      cases b with
      | false => simp [ha] at h'
      | true =>
        have hfind := vm_alloc_true_find _ _ _ _ _ _ _ ha
        have := vm_alloc_true _ _ _ _ _ _ _ ha
        subst this
        rw [ha] at h'
        dsimp only at h'
        have hpA : (alloc_post s VM_ANON (s.pages p).va (s.pages p).writable none none).pages p
            = s.pages p := by simp [alloc_post, upd_other _ _ _ _ hpn]
        rw [hpA] at h'
        cases hfr : (s.pages p).frame with
        | none => simp [hfr] at h'
        | some f =>
          simp only [hfr] at h'
          unfold vm_copy_claim_page at h'
          cases hf : spt_find_page (alloc_post s VM_ANON (s.pages p).va (s.pages p).writable
              none none) s.cur (s.pages p).va with
          | none => simp [hf] at h'
          | some q =>
            have := find_alloc_post_eq _ _ _ _ _ _ q hfind hf
            subst this
            have e2 : VM_TYPE VM_ANON = VM_ANON := by decide
            rw [hf] at h'
            simp only [alloc_post, set_frame, set_page, upd_same, upd_upd, pml4_set_page,
              set_thread, e2, if_true] at h'
            by_cases hpt : s.pt_ok = true
            · simp only [hpt, if_true, Bool.true_eq_false, if_false, swap_in, upd_same,
                uninit_initialize, anon_initializer, set_page, upd_upd, Option.some.injEq,
                Prod.mk.injEq, true_and] at h'
              subst h'
              refine ⟨rfl, by simp, rfl, ?_, by simp, by simp, ?_, ?_⟩
              · intro q hq
                simp [upd_other _ _ _ _ hq]
              · simp [page_get_type, hpay]
              · intro init' t' aux' i' e
                cases e
            · simp [hpt] at h'

theorem spt_copy_loop_effect : ∀ (l : List Nat) (s s' : VM),
    (∀ p ∈ l, p < s.next_page) → spt_copy_loop s.cur l s = some (true, s') →
    s'.cur = s.cur
    ∧ s.next_page ≤ s'.next_page
    ∧ (∀ q, q < s.next_page → s'.pages q = s.pages q)
    ∧ (∀ q, q ∈ (s.threads s.cur).spt → q ∈ (s'.threads s.cur).spt)
    ∧ ∀ p ∈ l, ∃ q ∈ (s'.threads s.cur).spt, copy_of (s'.pages q) (s.pages p) := by
  intro l
  induction l with
  | nil =>
    intro s s' _ h
    simp only [spt_copy_loop, Option.some.injEq, Prod.mk.injEq, true_and] at h
    subst h
    exact ⟨rfl, Nat.le_refl _, fun _ _ => rfl, fun _ h => h, fun p hp => by simp at hp⟩
  | cons p rest ih =>
    intro s s' hb h
    simp only [spt_copy_loop] at h
    cases hc : spt_copy_page s s.cur p with
    | none => simp [hc] at h
    | some x =>
      obtain ⟨b, s1⟩ := x
      cases b with
      | false => simp [hc] at h
      | true =>
        rw [hc] at h
        dsimp only at h
        obtain ⟨e1, e2, e3, e4, e5, e6, e7, e8⟩ :=
          spt_copy_page_effect s s1 p (hb p (List.mem_cons_self _ _)) hc
        rw [← e1] at h
        obtain ⟨i1, i2, i3, i4, i5⟩ := ih s1 s' (fun r hr => by
          have := hb r (List.mem_cons_of_mem _ hr)
          omega) h
        rw [e1] at i4 i5
        refine ⟨i1.trans e1, by omega, ?_, ?_, ?_⟩
        · intro q hq
          rw [i3 q (by omega), e4 q (by omega)]
        · intro q hq
          apply i4
          rw [e2]
          exact List.mem_append_left _ hq
        · intro r hr
          rcases List.mem_cons.mp hr with e | hr'
          · subst e
            refine ⟨s.next_page, i4 _ (by rw [e2]; simp), ?_⟩
            rw [i3 _ (by omega)]
            exact ⟨e5, e6, e7, e8⟩
          · obtain ⟨q, hq, hcopy⟩ := i5 r hr'
            have hr1 : r ≠ s.next_page := by
              have := hb r hr
              omega
            rw [e4 r hr1] at hcopy
            exact ⟨q, hq, hcopy⟩

/-- Claim C13, counterexample: in `other_runs_state` thread 2 runs and the table of thread 0
holds one page.  `supplemental_page_table_copy` with destination thread 1 and source thread 0
returns true, but the table of thread 1 holds no page afterwards: the page was entered into the
table of the running thread 2. -/
theorem copy_misses_other_destination :
    other_runs_state.cur = 2
    ∧ (other_runs_state.threads 0).spt = [0]
    ∧ (other_runs_state.pages 0).va = uva_a
    ∧ value_of (supplemental_page_table_copy other_runs_state 1 0) = some true
    ∧ ((state_of (supplemental_page_table_copy other_runs_state 1 0)
        other_runs_state).threads 1).spt = []
    ∧ spt_find_page (state_of (supplemental_page_table_copy other_runs_state 1 0)
        other_runs_state) 1 uva_a = none
    ∧ ((state_of (supplemental_page_table_copy other_runs_state 1 0)
        other_runs_state).threads 2).spt = [1] := by
  decide

/-- Claim C13, amended: whenever `supplemental_page_table_copy` returns true for a destination
that is the table of the running thread (the source pages being records that exist), the
destination holds, for every page of the source, a page at the same address with the same
writable flag and the same `page_get_type`; for an uninitialized source page that page is an
uninitialized page without a frame that holds the same loader and the same argument. -/
theorem copy_into_running_thread (s s' : VM) (src : Nat)
    (hb : ∀ p ∈ (s.threads src).spt, p < s.next_page)
    (h : supplemental_page_table_copy s s.cur src = some (true, s')) :
    ∀ p ∈ (s.threads src).spt,
      ∃ q ∈ (s'.threads s.cur).spt,
        (s'.pages q).va = (s.pages p).va
        ∧ (s'.pages q).writable = (s.pages p).writable
        ∧ page_get_type (s'.pages q) = page_get_type (s.pages p)
        ∧ ∀ init t aux i, (s.pages p).payload = .uninit init t aux i →
            (s'.pages q).frame = none
            ∧ ∃ t' i', (s'.pages q).payload = .uninit init t' aux i' := by
  unfold supplemental_page_table_copy at h
  exact (spt_copy_loop_effect _ s s' hb h).2.2.2.2

/-- Witness for C13: the copy that `forked_state` runs, from the parent into the running
child. -/
theorem copy_into_running_thread_witness :
    value_of (supplemental_page_table_copy prefork_state prefork_state.cur 0) = some true
    ∧ ∀ p ∈ (prefork_state.threads 0).spt,
      ∃ q ∈ ((state_of (supplemental_page_table_copy prefork_state prefork_state.cur 0)
          prefork_state).threads prefork_state.cur).spt,
        ((state_of (supplemental_page_table_copy prefork_state prefork_state.cur 0)
            prefork_state).pages q).va = (prefork_state.pages p).va
        ∧ ((state_of (supplemental_page_table_copy prefork_state prefork_state.cur 0)
            prefork_state).pages q).writable = (prefork_state.pages p).writable
        ∧ page_get_type ((state_of (supplemental_page_table_copy prefork_state
            prefork_state.cur 0) prefork_state).pages q) = page_get_type (prefork_state.pages p)
        ∧ ∀ init t aux i, (prefork_state.pages p).payload = .uninit init t aux i →
            ((state_of (supplemental_page_table_copy prefork_state prefork_state.cur 0)
              prefork_state).pages q).frame = none
            ∧ ∃ t' i', ((state_of (supplemental_page_table_copy prefork_state
                prefork_state.cur 0) prefork_state).pages q).payload
                = .uninit init t' aux i' :=
  ⟨by decide,
    copy_into_running_thread prefork_state _ 0 (by decide)
      (result_of_value _ true prefork_state (by decide))⟩

theorem anon_swap_in_keeps_slot (s s' : VM) (pid kva : Nat)
    (h : anon_swap_in s pid kva = some (true, s')) :
    (s'.pages pid).payload = (s.pages pid).payload := by
  unfold anon_swap_in at h
  cases hp : (s.pages pid).payload with
  | uninit a b c d => rw [hp] at h; simp at h
  | file a b c => rw [hp] at h; simp at h
  | anon slot =>
    rw [hp] at h
    dsimp only at h
    by_cases h1 : slot = BITMAP_ERROR
    · simp [h1] at h
    · rw [if_neg h1] at h
      by_cases h2 : s.swap_table.length ≤ slot
      · simp [h2] at h
      · rw [if_neg h2] at h
        by_cases h3 : s.swap_table.getD slot false = false
        · rw [if_pos h3] at h
          simp at h
        · rw [if_neg h3] at h
          simp only [Option.some.injEq, Prod.mk.injEq, true_and] at h
          subst h
          exact hp

/-- Claim C22, failing input: page 0 recorded slot 0 and `anon_swap_in` on it succeeds.
Afterwards bit 0 of the swap bitmap is free, but the page still records slot 0 (the closing
assignment of `anon_swap_in` goes to the local `sector`).  When page 1 is swapped out next it
takes slot 0, and a later `anon_destroy` of page 0 frees bit 0, the slot that holds page 1. -/
theorem anon_swap_in_slot_not_cleared :
    ((state_of (anon_swap_out two_anon_state 0) two_anon_state).pages 0).payload = .anon 0
    ∧ value_of (anon_swap_in (state_of (anon_swap_out two_anon_state 0) two_anon_state) 0
        kpage0) = some true
    ∧ swapped_in_state.swap_table = [false]
    ∧ (swapped_in_state.pages 0).payload = .anon 0
    ∧ value_of (anon_swap_out swapped_in_state 1) = some true
    ∧ (slot_reused_state.pages 1).payload = .anon 0
    ∧ slot_reused_state.swap_table = [true]
    ∧ (anon_destroy slot_reused_state 0).isSome = true
    ∧ (or_state (anon_destroy slot_reused_state 0) slot_reused_state).swap_table = [false]
    ∧ ((or_state (anon_destroy slot_reused_state 0) slot_reused_state).pages 1).payload
        = .anon 0 := by
  decide

/-- Claim C23, counterexample: page 0 of `resident_state` is an anonymous page that records no
swap slot; `anon_swap_in` on it returns false. -/
theorem anon_swap_in_no_slot_returns_false :
    (resident_state.pages 0).payload = .anon BITMAP_ERROR
    ∧ value_of (anon_swap_in resident_state 0 kpage1) = some false := by
  decide

/-- Claim C23, amended: `anon_swap_in` on an anonymous page that records no swap slot returns
false and leaves the state, with it the frame contents and the swap bitmap, unchanged. -/
theorem anon_swap_in_no_slot (s : VM) (pid kva : Nat)
    (h : (s.pages pid).payload = .anon BITMAP_ERROR) :
    anon_swap_in s pid kva = some (false, s) := by
  unfold anon_swap_in
  rw [h]
  simp

/-- Witness for C23: page 0 of `two_anon_state`. -/
theorem anon_swap_in_no_slot_witness :
    anon_swap_in two_anon_state 0 kpage0 = some (false, two_anon_state) :=
  anon_swap_in_no_slot two_anon_state 0 kpage0 (by decide)

/-- Claim C27, failing input: a fault at `USER_STACK - 3 * PGSIZE` passes the stack-growth test.
In `occupied_below_stack_state` a page is already registered at `stack_bottom - PGSIZE`, so
`vm_alloc_page` fails; in `no_pt_boot_state` the page is allocated but its claim fails.  In both
cases `vm_try_handle_fault` returns true, and `stack_bottom` has not moved. -/
theorem stack_growth_failure_returns_true :
    value_of (vm_alloc_page occupied_below_stack_state (VM_ANON ||| VM_MARKER_0)
        (ptr_sub (cur_thread occupied_below_stack_state).stack_bottom PGSIZE) true) = some false
    ∧ value_of (vm_try_handle_fault occupied_below_stack_state (USER_STACK - 3 * PGSIZE)
        (USER_STACK - 3 * PGSIZE) true false true) = some true
    ∧ value_of (vm_claim_page
        (state_of (vm_alloc_page no_pt_boot_state (VM_ANON ||| VM_MARKER_0)
          (ptr_sub (cur_thread no_pt_boot_state).stack_bottom PGSIZE) true) no_pt_boot_state)
        (ptr_sub (cur_thread no_pt_boot_state).stack_bottom PGSIZE)) = some false
    ∧ value_of (vm_try_handle_fault no_pt_boot_state (USER_STACK - 3 * PGSIZE)
        (USER_STACK - 3 * PGSIZE) true false true) = some true
    ∧ ((state_of (vm_try_handle_fault no_pt_boot_state (USER_STACK - 3 * PGSIZE)
        (USER_STACK - 3 * PGSIZE) true false true) no_pt_boot_state).threads 0).stack_bottom
        = (no_pt_boot_state.threads 0).stack_bottom
    ∧ translate (state_of (vm_try_handle_fault no_pt_boot_state (USER_STACK - 3 * PGSIZE)
        (USER_STACK - 3 * PGSIZE) true false true) no_pt_boot_state) 0
        (USER_STACK - 3 * PGSIZE) = none := by
  decide

/-- Claim C28, failing input: the table of the parent holds an anonymous page that is swapped
out (`swapped_parent_state`), or a file-backed page that is swapped out
(`swapped_file_parent_state`); its frame reference is null.  `supplemental_page_table_copy` run
by the child reads `src_page->frame->kva` and stops the kernel: no boolean is returned. -/
theorem copy_dereferences_absent_frame :
    (swapped_parent_state.pages 0).payload = .anon 0
    ∧ (swapped_parent_state.pages 0).frame = none
    ∧ (swapped_parent_state.threads 0).spt = [0]
    ∧ value_of (supplemental_page_table_copy swapped_parent_state 1 0) = none
    ∧ (swapped_file_parent_state.pages 0).payload = .file 0 0 50
    ∧ (swapped_file_parent_state.pages 0).frame = none
    ∧ (swapped_file_parent_state.threads 0).spt = [0]
    ∧ value_of (supplemental_page_table_copy swapped_file_parent_state 1 0) = none := by
  decide

theorem stack_growth_path_value (s s' : VM) (rsp addr : Nat) (user write not_present r : Bool)
    (h0 : addr ≠ 0) (hk : is_kernel_vaddr addr = false)
    (hwp : ¬ (not_present = false ∧ write = true))
    (hnone : spt_find_page s s.cur addr = none)
    (hwin : ptr_sub (if user = true then rsp else (cur_thread s).stack_pointer) 8 ≤ addr
      ∧ addr ≥ STACK_LIMIT ∧ addr ≤ USER_STACK)
    (h : vm_try_handle_fault s rsp addr user write not_present = some (r, s')) : r = true := by
  unfold vm_try_handle_fault at h
  simp only [h0, hk, false_or, Bool.false_eq_true, if_false, hwp, hnone] at h
  rw [if_pos hwin] at h
  cases hg : vm_stack_growth s (ptr_sub (cur_thread s).stack_bottom PGSIZE) with
  | none => simp [hg] at h
  | some s1 =>
    simp only [hg, Option.some.injEq, Prod.mk.injEq] at h
    exact h.1.symm

theorem indexOf_false_lowest (b : List Bool) (h : false ∈ b) :
    b.indexOf false < b.length
    ∧ b.getD (b.indexOf false) true = false
    ∧ ∀ j, j < b.indexOf false → b.getD j false = true := by
  induction b with
  | nil => simp at h
  | cons x t ih =>
    cases x with
    | false =>
      refine ⟨by simp, by simp, ?_⟩
      intro j hj
      simp at hj
    | true =>
      have ht : false ∈ t := by simpa using h
      obtain ⟨h1, h2, h3⟩ := ih ht
      have e : (true :: t).indexOf false = t.indexOf false + 1 := by
        simp [List.indexOf_cons]
      rw [e]
      refine ⟨by simp [h1], by simpa using h2, ?_⟩
      intro j hj
      cases j with
      | zero => simp
      | succ k =>
        have := h3 k (by omega)
        simpa using this

theorem frame_va_congr (s s' : VM) (hp : s'.pages = s.pages) (hf : s'.frames = s.frames)
    (f : Nat) : frame_va s' f = frame_va s f := by
  unfold frame_va
  rw [hp, hf]

theorem frame_accessed_congr (s s' : VM) (hc : s'.cur = s.cur) (hp : s'.pages = s.pages)
    (hf : s'.frames = s.frames) (f : Nat)
    (h : (s'.threads s.cur).pml4 (pg_round_down (frame_va s f))
      = (s.threads s.cur).pml4 (pg_round_down (frame_va s f))) :
    frame_accessed s' f = frame_accessed s f := by
  unfold frame_accessed pml4_is_accessed
  rw [frame_va_congr s s' hp hf, hc, h]

theorem set_accessed_post (s : VM) (va : Nat)
    (hacc : pml4_is_accessed s s.cur va = true) :
    (pml4_set_accessed s s.cur va false).cur = s.cur
    ∧ (pml4_set_accessed s s.cur va false).pages = s.pages
    ∧ (pml4_set_accessed s s.cur va false).frames = s.frames
    ∧ (pml4_set_accessed s s.cur va false).frame_table = s.frame_table
    ∧ (∀ t, t ≠ s.cur → (pml4_set_accessed s s.cur va false).threads t = s.threads t)
    ∧ pml4_is_accessed (pml4_set_accessed s s.cur va false) s.cur va = false
    ∧ (∀ x, x ≠ pg_round_down va →
        ((pml4_set_accessed s s.cur va false).threads s.cur).pml4 x
          = (s.threads s.cur).pml4 x) := by
  unfold pml4_is_accessed at hacc
  unfold pml4_set_accessed pml4_is_accessed
  cases hpte : (s.threads s.cur).pml4 (pg_round_down va) with
  | none => rw [hpte] at hacc; simp at hacc
  | some pte =>
    simp only [set_thread, upd_same]
    refine ⟨trivial, trivial, trivial, trivial, ?_, trivial, ?_⟩
    · intro t ht
      rw [upd_other _ _ _ _ ht]
    · intro x hx
      rw [upd_other _ _ _ _ hx]

theorem vm_get_victim_scan_prefix : ∀ (pre : List Nat) (s : VM) (rest : List Nat),
    (∀ g ∈ pre, ∃ p, (s.frames g).page = some p) →
    (∀ g ∈ pre, frame_accessed s g = true) →
    pre.Pairwise (fun a b => pg_round_down (frame_va s a) ≠ pg_round_down (frame_va s b)) →
    ∃ s', vm_get_victim_scan (pre ++ rest) s = vm_get_victim_scan rest s'
      ∧ scan_post s pre s' := by
  intro pre
  induction pre with
  | nil =>
    intro s rest _ _ _
    exact ⟨s, rfl, rfl, rfl, rfl, rfl, fun _ _ => rfl, fun g hg => by simp at hg,
      fun _ _ => rfl⟩
  | cons g pre ih =>
    intro s rest hown hacc hpw
    obtain ⟨p, hp⟩ := hown g (List.mem_cons_self _ _)
    have hg : pml4_is_accessed s s.cur (s.pages p).va = true := by
      have := hacc g (List.mem_cons_self _ _)
      simpa [frame_accessed, frame_va, hp] using this
    have hva : frame_va s g = (s.pages p).va := by simp [frame_va, hp]
    obtain ⟨c1, c2, c3, c4, c5, c6, c7⟩ := set_accessed_post s (s.pages p).va hg
    obtain ⟨hd, hpw'⟩ := List.pairwise_cons.mp hpw
    have hsame : ∀ h ∈ pre, frame_accessed (pml4_set_accessed s s.cur (s.pages p).va false) h
        = frame_accessed s h := by
      intro h hh
      apply frame_accessed_congr s _ c1 c2 c3
      apply c7
      rw [← hva]
      exact Ne.symm (hd h hh)
    obtain ⟨s', hrun, q1, q2, q3, q4, q5, q6, q7⟩ :=
      ih (pml4_set_accessed s s.cur (s.pages p).va false) rest
        (fun h hh => by rw [c3]; exact hown h (List.mem_cons_of_mem _ hh))
        (fun h hh => by rw [hsame h hh]; exact hacc h (List.mem_cons_of_mem _ hh))
        (by
          refine List.Pairwise.imp ?_ hpw'
          intro a b hab
          rw [frame_va_congr s _ c2 c3, frame_va_congr s _ c2 c3]
          exact hab)
    rw [c1] at q1 q5 q7
    refine ⟨s', ?_, q1, q2.trans c2, q3.trans c3, q4.trans c4, ?_, ?_, ?_⟩
    · simp only [List.cons_append, vm_get_victim_scan, hp, hg, if_true]
      exact hrun
    · intro t ht
      rw [q5 t ht, c5 t ht]
    · intro h hh
      rcases List.mem_cons.mp hh with e | hh'
      · subst e
        have e1 : frame_accessed s' h
            = frame_accessed (pml4_set_accessed s s.cur (s.pages p).va false) h := by
          have hc' : s'.cur = (pml4_set_accessed s s.cur (s.pages p).va false).cur := by
            rw [q1, c1]
          apply frame_accessed_congr _ s' hc' q2 q3
          rw [c1]
          apply q7
          intro k hk
          rw [frame_va_congr s _ c2 c3, frame_va_congr s _ c2 c3]
          exact Ne.symm (hd k hk)
        rw [e1]
        unfold frame_accessed
        rw [frame_va_congr s _ c2 c3, hva, c1]
        exact c6
      · exact q6 h hh'
    · intro x hx
      rw [q7 x (fun k hk => by
        rw [frame_va_congr s _ c2 c3]
        exact hx k (List.mem_cons_of_mem _ hk))]
      apply c7
      rw [← hva]
      exact Ne.symm (hx g (List.mem_cons_self _ _))

/-- Claim C24, counterexample: in `accessed_fork_state` the frame table holds frame 0 (owned
by the page of the parent) and frame 1 (owned by the page of the child), both pages lie at
`uva_a`, and the accessed bit of that address is set, so every frame has its bit set.
`vm_get_victim` does not return the head frame 0: clearing the bit for frame 0 clears it for
frame 1 as well, and frame 1 is returned. -/
theorem vm_get_victim_same_address :
    accessed_fork_state.frame_table = [0, 1]
    ∧ frame_va accessed_fork_state 0 = uva_a ∧ frame_va accessed_fork_state 1 = uva_a
    ∧ frame_accessed accessed_fork_state 0 = true
    ∧ frame_accessed accessed_fork_state 1 = true
    ∧ value_of (vm_get_victim accessed_fork_state) = some 1 := by
  decide

/-- Claim C24, amended: for a frame table whose frames all have an owning page, the owning
pages lying at pairwise different page addresses, with the accessed bit of a frame read at the
address of its owner in the page table of the running thread: `vm_get_victim` returns the
first frame whose bit is clear, having cleared the bit of every frame before it and changed no
other entry of the page table; when every bit is set it returns the head frame and every bit is
clear afterwards.  Pages, frames and the frame table are unchanged. -/
theorem vm_get_victim_second_chance (s : VM)
    (hown : ∀ g ∈ s.frame_table, ∃ p, (s.frames g).page = some p)
    (hpw : s.frame_table.Pairwise
      (fun a b => pg_round_down (frame_va s a) ≠ pg_round_down (frame_va s b))) :
    (∀ pre f post, s.frame_table = pre ++ f :: post →
        (∀ g ∈ pre, frame_accessed s g = true) → frame_accessed s f = false →
        ∃ s', vm_get_victim s = some (f, s') ∧ scan_post s pre s')
    ∧ (∀ h t, s.frame_table = h :: t → (∀ g ∈ s.frame_table, frame_accessed s g = true) →
        ∃ s', vm_get_victim s = some (h, s') ∧ scan_post s s.frame_table s') := by
  constructor
  · intro pre f post hft hacc hf
    rw [hft] at hown hpw
    obtain ⟨s', hrun, hpost⟩ := vm_get_victim_scan_prefix pre s (f :: post)
      (fun g hg => hown g (List.mem_append_left _ hg)) hacc
      (List.pairwise_append.mp hpw).1
    refine ⟨s', ?_, hpost⟩
    obtain ⟨q1, q2, q3, q4, q5, q6, q7⟩ := hpost
    obtain ⟨p, hp⟩ := hown f (List.mem_append_right _ (List.mem_cons_self _ _))
    have hf' : frame_accessed s' f = false := by
      rw [frame_accessed_congr s s' q1 q2 q3 f, hf]
      apply q7
      intro g hg
      exact (List.pairwise_append.mp hpw).2.2 g hg f (List.mem_cons_self _ _)
    have hp' : (s'.frames f).page = some p := by rw [q3]; exact hp
    have hacc' : pml4_is_accessed s' s'.cur (s'.pages p).va = false := by
      simpa [frame_accessed, frame_va, hp'] using hf'
    unfold vm_get_victim
    rw [hft, hrun]
    simp [vm_get_victim_scan, hp', hacc']
  · intro h t hft hacc
    obtain ⟨s', hrun, hpost⟩ := vm_get_victim_scan_prefix s.frame_table s [] hown hacc hpw
    refine ⟨s', ?_, hpost⟩
    rw [List.append_nil] at hrun
    have hft' : s'.frame_table = h :: t := by rw [hpost.2.2.2.1]; exact hft
    unfold vm_get_victim
    rw [hrun]
    simp [vm_get_victim_scan, hft']

/-- Witness for C24: in `two_anon_state` the two frames are owned by the pages at `uva_a` and
`uva_b`; the bit of the head frame is clear and the head frame is returned. -/
theorem vm_get_victim_second_chance_witness :
    two_anon_state.frame_table = [] ++ 0 :: [1]
    ∧ frame_accessed two_anon_state 0 = false
    ∧ (∀ pre f post, two_anon_state.frame_table = pre ++ f :: post →
        (∀ g ∈ pre, frame_accessed two_anon_state g = true) →
        frame_accessed two_anon_state f = false →
        ∃ s', vm_get_victim two_anon_state = some (f, s') ∧ scan_post two_anon_state pre s')
    ∧ (∀ h t, two_anon_state.frame_table = h :: t →
        (∀ g ∈ two_anon_state.frame_table, frame_accessed two_anon_state g = true) →
        ∃ s', vm_get_victim two_anon_state = some (h, s')
          ∧ scan_post two_anon_state two_anon_state.frame_table s') :=
  ⟨by decide, by decide,
    vm_get_victim_second_chance two_anon_state
      (fun g hg => by
        have e : two_anon_state.frame_table = [0, 1] := by decide
        rw [e] at hg
        have : g = 0 ∨ g = 1 := by simpa using hg
        rcases this with h | h
        · subst h; exact ⟨0, by decide⟩
        · subst h; exact ⟨1, by decide⟩)
      (by decide)⟩

/-- Claim C25, counterexample: in `two_anon_state` the frame table is frame 0, frame 1 and no
accessed bit is set.  `vm_get_victim` selects frame 0, and the next `vm_get_victim` selects
frame 0 again, not the frame after the previous victim. -/
theorem vm_get_victim_restarts_at_head :
    two_anon_state.frame_table = [0, 1]
    ∧ frame_accessed two_anon_state 0 = false ∧ frame_accessed two_anon_state 1 = false
    ∧ value_of (vm_get_victim two_anon_state) = some 0
    ∧ value_of (vm_get_victim
        ((vm_get_victim two_anon_state).getD (0, two_anon_state)).2) = some 0 := by
  decide

/-- Claim C25, amended: every `vm_get_victim` starts scanning at the head of the frame table:
when the accessed bit of the head frame is clear, the head frame is selected and the state is
unchanged, so that the next call selects the same frame. -/
theorem vm_get_victim_from_head (s : VM) (f p : Nat) (rest : List Nat)
    (hft : s.frame_table = f :: rest) (hp : (s.frames f).page = some p)
    (hacc : pml4_is_accessed s s.cur (s.pages p).va = false) :
    vm_get_victim s = some (f, s) := by
  unfold vm_get_victim
  rw [hft]
  simp [vm_get_victim_scan, hp, hacc]

/-- Witness for C25: the head frame of `two_anon_state`. -/
theorem vm_get_victim_from_head_witness :
    vm_get_victim two_anon_state = some (0, two_anon_state) :=
  vm_get_victim_from_head two_anon_state 0 0 [1] (by decide) (by decide) (by decide)

theorem pool_head (s : VM) (hpool : s.user_pool ≠ []) (hi : Inv s) :
    ∃ k rest, s.user_pool = k :: rest ∧ k ≠ 0 := by
  obtain ⟨k, rest, hp⟩ := List.exists_cons_of_ne_nil hpool
  refine ⟨k, rest, hp, ?_⟩
  intro e
  apply hi.2
  rw [hp, e]
  exact List.mem_cons_self _ _

/-- Claim C30: for a disk of `d` sectors with `2 <= d` (a `disk_sector_t`, so `d < 2 ^ 32`),
`fat_boot_create` and `fat_fs_init` give `fat_sectors = (d - 1) / 129 + 1`,
`data_start = fat_sectors + 1` and `fat_length = d - fat_sectors - 1`; the `fat_length` entries
of 4 bytes fit in the `fat_sectors` sectors of 512 bytes, which lie before `data_start`, and
for every cluster `c` below `fat_length` the sector `cluster_to_sector c` is `data_start + c`
and lies below `d`. -/
theorem fat_layout_consistent (d : Nat) (fat : Nat → Nat) (h2 : 2 ≤ d) (hd : d < 2 ^ 32) :
    (fat_boot_create d).fat_sectors = (d - 1) / 129 + 1
    ∧ (fat_fs_init (fat_boot_create d) d fat).data_start = (fat_boot_create d).fat_sectors + 1
    ∧ (fat_fs_init (fat_boot_create d) d fat).fat_length
        = d - (fat_boot_create d).fat_sectors - 1
    ∧ (fat_boot_create d).fat_sectors + 1 ≤ d
    ∧ sizeof_cluster_t * (fat_fs_init (fat_boot_create d) d fat).fat_length
        ≤ DISK_SECTOR_SIZE * (fat_boot_create d).fat_sectors
    ∧ (fat_boot_create d).fat_start + (fat_boot_create d).fat_sectors
        ≤ (fat_fs_init (fat_boot_create d) d fat).data_start
    ∧ ∀ c, c < (fat_fs_init (fat_boot_create d) d fat).fat_length →
        cluster_to_sector (fat_fs_init (fat_boot_create d) d fat) c
          = (fat_fs_init (fat_boot_create d) d fat).data_start + c
        ∧ cluster_to_sector (fat_fs_init (fat_boot_create d) d fat) c < d := by
  have e1 : (fat_boot_create d).fat_sectors = (d - 1) / 129 + 1 := by
    simp only [fat_boot_create, DISK_SECTOR_SIZE, sizeof_cluster_t, SECTORS_PER_CLUSTER]
    norm_num
    omega
  have e0 : (fat_boot_create d).fat_start = 1 := rfl
  have e2 : (fat_fs_init (fat_boot_create d) d fat).data_start
      = (fat_boot_create d).fat_sectors + 1 := by
    simp only [fat_fs_init, e0, e1]
    omega
  have e3 : (fat_fs_init (fat_boot_create d) d fat).fat_length
      = d - (fat_boot_create d).fat_sectors - 1 := by
    simp only [fat_fs_init, e1]
    omega
  refine ⟨e1, e2, e3, ?_, ?_, ?_, ?_⟩
  · rw [e1]; omega
  · rw [e3, e1]
    simp only [sizeof_cluster_t, DISK_SECTOR_SIZE]
    omega
  · rw [e2, e0]; omega
  · intro c hc
    refine ⟨rfl, ?_⟩
    rw [e3] at hc
    simp only [cluster_to_sector, e2]
    rw [e1] at hc ⊢
    omega

/-- Witness for C30: the disk of 18 sectors of `fs_formatted`; its last cluster 15 is sector
17. -/
theorem fat_layout_consistent_witness :
    (fat_boot_create 18).fat_sectors = 1
    ∧ (fat_fs_init (fat_boot_create 18) 18 fs_formatted.fat_fs.fat).data_start = 2
    ∧ (fat_fs_init (fat_boot_create 18) 18 fs_formatted.fat_fs.fat).fat_length = 16
    ∧ cluster_to_sector (fat_fs_init (fat_boot_create 18) 18 fs_formatted.fat_fs.fat) 15 = 17
    ∧ ((fat_boot_create 18).fat_sectors = (18 - 1) / 129 + 1
      ∧ (fat_fs_init (fat_boot_create 18) 18 fs_formatted.fat_fs.fat).data_start
          = (fat_boot_create 18).fat_sectors + 1
      ∧ (fat_fs_init (fat_boot_create 18) 18 fs_formatted.fat_fs.fat).fat_length
          = 18 - (fat_boot_create 18).fat_sectors - 1
      ∧ (fat_boot_create 18).fat_sectors + 1 ≤ 18
      ∧ sizeof_cluster_t * (fat_fs_init (fat_boot_create 18) 18 fs_formatted.fat_fs.fat).fat_length
          ≤ DISK_SECTOR_SIZE * (fat_boot_create 18).fat_sectors
      ∧ (fat_boot_create 18).fat_start + (fat_boot_create 18).fat_sectors
          ≤ (fat_fs_init (fat_boot_create 18) 18 fs_formatted.fat_fs.fat).data_start
      ∧ ∀ c, c < (fat_fs_init (fat_boot_create 18) 18 fs_formatted.fat_fs.fat).fat_length →
          cluster_to_sector (fat_fs_init (fat_boot_create 18) 18 fs_formatted.fat_fs.fat) c
            = (fat_fs_init (fat_boot_create 18) 18 fs_formatted.fat_fs.fat).data_start + c
          ∧ cluster_to_sector (fat_fs_init (fat_boot_create 18) 18 fs_formatted.fat_fs.fat) c
            < 18) :=
  ⟨by decide, by decide, by decide, by decide,
    fat_layout_consistent 18 fs_formatted.fat_fs.fat (by decide) (by norm_num)⟩

set_option maxRecDepth 8000 in
/-- Claim C29, failing input: in `one_cluster_fat` cluster 5 is free and cluster 4 is the only
data cluster of the file.  Reading 10 bytes at offset 600 of the empty file returns
0 bytes, and reading 1000 bytes at offset 0 of the file of 512 bytes returns 512 bytes; in both
cases `byte_to_sector` has extended the chain of the file: afterwards the entry of cluster 4
is 5 and cluster 5 is in use. -/
theorem inode_read_at_allocates_cluster :
    fat_get one_cluster_fat 4 = EOChain ∧ fat_get one_cluster_fat 5 = 0
    ∧ fat_used one_cluster_fat = 4
    ∧ ((inode_read_at one_cluster_fat (one_cluster_inode 0) 10 600).map Prod.fst) = some 0
    ∧ fat_get ((inode_read_at one_cluster_fat (one_cluster_inode 0) 10 600).getD
        (0, one_cluster_fat)).2 4 = 5
    ∧ fat_get ((inode_read_at one_cluster_fat (one_cluster_inode 0) 10 600).getD
        (0, one_cluster_fat)).2 5 = EOChain
    ∧ fat_used ((inode_read_at one_cluster_fat (one_cluster_inode 0) 10 600).getD
        (0, one_cluster_fat)).2 = 5
    ∧ ((inode_read_at one_cluster_fat (one_cluster_inode 512) 1000 0).map Prod.fst)
        = some 512
    ∧ fat_get ((inode_read_at one_cluster_fat (one_cluster_inode 512) 1000 0).getD
        (0, one_cluster_fat)).2 4 = 5
    ∧ fat_used ((inode_read_at one_cluster_fat (one_cluster_inode 512) 1000 0).getD
        (0, one_cluster_fat)).2 = 5 := by
  decide

theorem off_t_of_range (x : Int) : -2 ^ 31 ≤ off_t_of x ∧ off_t_of x < 2 ^ 31 := by
  unfold off_t_of
  omega

theorem off_t_of_congr (x : Int) : (off_t_of x - x) % 2 ^ 32 = 0 := by
  unfold off_t_of
  omega

theorem off_t_of_id (x : Int) (h1 : -2 ^ 31 ≤ x) (h2 : x < 2 ^ 31) : off_t_of x = x := by
  unfold off_t_of
  omega

theorem off_t_of_step (o n : Int) :
    off_t_of ((o % 2 ^ 64 + n) % 2 ^ 64) = off_t_of (o + n) := by
  unfold off_t_of
  omega

theorem off_t_of_add (a b : Int) : off_t_of (off_t_of a + b) = off_t_of (a + b) := by
  unfold off_t_of
  omega

theorem mmap_page_alloc (s : VM) (addr : Nat) (w : Bool) (mfile : Nat) (offset : Int)
    (prb : Nat) :
    alloc_post s VM_FILE addr w (some .lazy_load_segment) (some ⟨mfile, offset, prb⟩)
      = { s with
          next_page := s.next_page + 1,
          pages := upd s.pages s.next_page
            { va := addr, frame := none, writable := w, accessible := false,
              payload := .uninit (some .lazy_load_segment) VM_FILE (some ⟨mfile, offset, prb⟩)
                (some .file_backed_initializer) },
          threads := upd s.threads s.cur
            { s.threads s.cur with spt := (s.threads s.cur).spt ++ [s.next_page] } } := by
  rfl

theorem mmap_page_shift (addr : Nat) (w : Bool) (mfile : Nat) (off : Int) (rb j : Nat)
    (_h : PGSIZE ≤ rb) :
    mmap_page (addr + PGSIZE) w mfile (off_t_of ((off % 2 ^ 64 + (PGSIZE : Int)) % 2 ^ 64))
        (rb - PGSIZE) j
      = mmap_page addr w mfile off rb (j + 1) := by
  have e1 : addr + PGSIZE + j * PGSIZE = addr + (j + 1) * PGSIZE := by ring
  have e2 : off_t_of (off_t_of ((off % 2 ^ 64 + (PGSIZE : Int)) % 2 ^ 64) + (j : Int) * PGSIZE)
      = off_t_of (off + ((j + 1 : Nat) : Int) * PGSIZE) := by
    rw [off_t_of_step, off_t_of_add]
    congr 1
    push_cast
    ring
  have e3 : rb - PGSIZE - j * PGSIZE = rb - (j + 1) * PGSIZE := by
    rw [Nat.sub_sub]
    congr 1
    ring
  simp only [mmap_page, e1, e2, e3]

theorem range_succ_shift (np k : Nat) :
    (List.range (k + 1)).map (fun i => np + i)
      = np :: (List.range k).map (fun i => np + 1 + i) := by
  rw [List.range_succ_eq_map]
  simp only [List.map_cons, List.map_map, Nat.add_zero]
  congr 1
  apply List.map_congr_left
  intro i _
  simp only [Function.comp]
  omega

theorem do_mmap_loop_spec (mfile : Nat) (w : Bool) :
    ∀ (fuel : Nat) (s : VM) (addr rb : Nat) (off : Int), rb < 2 ^ 64 →
      -2 ^ 31 ≤ off → off < 2 ^ 31 → rb / PGSIZE + 2 ≤ fuel →
      ∃ b s', do_mmap_loop mfile w fuel s addr rb (PGSIZE - rb % PGSIZE) off = some (b, s')
        ∧ (b = true →
            s'.cur = s.cur
            ∧ (s'.threads s.cur).spt = (s.threads s.cur).spt
                ++ (List.range (rb / PGSIZE + 1)).map (fun i => s.next_page + i)
            ∧ s'.next_page = s.next_page + (rb / PGSIZE + 1)
            ∧ (∀ i, i < rb / PGSIZE + 1 →
                s'.pages (s.next_page + i) = mmap_page addr w mfile off rb i)
            ∧ (∀ q, q < s.next_page → s'.pages q = s.pages q)
            ∧ (∀ t, t ≠ s.cur → s'.threads t = s.threads t)
            ∧ (s'.threads s.cur).pml4 = (s.threads s.cur).pml4
            ∧ s'.frames = s.frames ∧ s'.mem = s.mem) := by
  intro fuel
  induction fuel with
  | zero => intro s addr rb off _ _ _ h; simp at h
  | succ n ih =>
    intro s addr rb off hrb hlo hhi hfuel
    have hzb : rb > 0 ∨ PGSIZE - rb % PGSIZE > 0 := by
      right
      have := Nat.mod_lt rb (by decide : PGSIZE > 0)
      omega
    have hoff0 : off_t_of (off + ((0 : Nat) : Int) * PGSIZE) = off := by
      rw [off_t_of_id _ (by simpa using hlo) (by simpa using hhi)]
      simp
    obtain ⟨b, s1, halloc⟩ := vm_alloc_file_some s addr w (some .lazy_load_segment)
      (some ⟨mfile, off, if rb < PGSIZE then rb else PGSIZE⟩)
    cases b with
    | false =>
      refine ⟨false, s1, ?_, fun h => by simp at h⟩
      simp only [do_mmap_loop, hzb, if_true, halloc]
    | true =>
      have hs1 := vm_alloc_true _ _ _ _ _ _ _ halloc
      rw [mmap_page_alloc] at hs1
      by_cases hlt : rb < PGSIZE
      · have hmod : rb % PGSIZE = rb := Nat.mod_eq_of_lt hlt
        have hdiv : rb / PGSIZE = 0 := Nat.div_eq_of_lt hlt
        simp only [hlt, if_true] at halloc hs1
        have hn : ∃ m, n = m + 1 := ⟨n - 1, by rw [hdiv] at hfuel; omega⟩
        obtain ⟨m, rfl⟩ := hn
        have p1 : ptr_sub rb rb = 0 := by rw [ptr_sub_eq _ _ (Nat.le_refl _) hrb]; omega
        have p2 : ptr_sub (PGSIZE - rb) (PGSIZE - rb) = 0 := by
          rw [ptr_sub_eq _ _ (Nat.le_refl _) (by simp only [PGSIZE]; omega)]; omega
        refine ⟨true, s1, ?_, fun _ => ?_⟩
        · have hzb' : 0 < rb ∨ 0 < PGSIZE - rb := by right; omega
          simp only [do_mmap_loop, hzb, if_true, hlt, halloc, hmod, p1, p2, gt_iff_lt,
            Nat.lt_irrefl, or_self, if_false]
          rw [if_pos hzb']
        · subst hs1
          rw [hdiv]
          refine ⟨rfl, ?_, rfl, ?_, ?_, ?_, by simp, rfl, rfl⟩
          · simp only [upd_same]
            rfl
          · intro i hi
            have : i = 0 := by omega
            subst this
            simp only [mmap_page, hoff0, Nat.zero_mul, Nat.add_zero, Nat.sub_zero,
              Nat.min_eq_right (Nat.le_of_lt hlt), upd_same]
          · intro q hq
            have : q ≠ s.next_page := by omega
            simp [upd_other _ _ _ _ this]
          · intro t ht
            simp [upd_other _ _ _ _ ht]
      · have hge : PGSIZE ≤ rb := by omega
        simp only [hlt, if_false] at halloc hs1
        have p1 : ptr_sub rb PGSIZE = rb - PGSIZE := ptr_sub_eq _ _ hge hrb
        have hmod : (rb - PGSIZE) % PGSIZE = rb % PGSIZE := by
          simp only [PGSIZE] at hge ⊢; omega
        have hdiv : rb / PGSIZE = (rb - PGSIZE) / PGSIZE + 1 := by
          simp only [PGSIZE] at hge ⊢; omega
        have p2 : ptr_sub (PGSIZE - rb % PGSIZE) (PGSIZE - PGSIZE) = PGSIZE - rb % PGSIZE := by
          rw [ptr_sub_eq _ _ (by omega) (by simp only [PGSIZE]; omega)]; omega
        have hr := off_t_of_range ((off % 2 ^ 64 + (PGSIZE : Int)) % 2 ^ 64)
        obtain ⟨b, s', hrun, hprop⟩ := ih s1 (addr + PGSIZE) (rb - PGSIZE)
          (off_t_of ((off % 2 ^ 64 + (PGSIZE : Int)) % 2 ^ 64))
          (by omega) hr.1 hr.2 (by omega)
        rw [hmod] at hrun
        refine ⟨b, s', ?_, fun hb => ?_⟩
        · simp only [do_mmap_loop, hzb, if_true, hlt, if_false, halloc, p1, p2]
          exact hrun
        · obtain ⟨c1, c2, c3, c4, c5, c6, c7, c8, c9⟩ := hprop hb
          subst hs1
          simp only [upd_same] at c1 c2 c3 c4 c5 c6 c7 c8 c9
          rw [hdiv]
          refine ⟨c1, ?_, by rw [c3]; omega, ?_, ?_, ?_, c7, c8, c9⟩
          · rw [c2, range_succ_shift s.next_page ((rb - PGSIZE) / PGSIZE + 1),
              List.append_assoc]
            rfl
          · intro i hi
            cases i with
            | zero =>
              rw [Nat.add_zero, c5 _ (Nat.lt_succ_self _)]
              simp only [mmap_page, hoff0, Nat.zero_mul, Nat.add_zero, Nat.sub_zero,
                Nat.min_eq_left hge, upd_same]
            | succ j =>
              have := c4 j (by omega)
              rw [mmap_page_shift _ _ _ _ _ _ hge] at this
              have e : s.next_page + (j + 1) = s.next_page + 1 + j := by omega
              rw [e]
              exact this
          · intro q hq
            rw [c5 q (by omega)]
            have : q ≠ s.next_page := by omega
            simp [upd_other _ _ _ _ this]
          · intro t ht
            rw [c6 t ht]
            simp [upd_other _ _ _ _ ht]

theorem read_lengths_sum (r : Nat) :
    ((List.range (r / PGSIZE + 1)).map (fun i => min PGSIZE (r - i * PGSIZE))).sum = r := by
  have key : ∀ k m, m < PGSIZE →
      ((List.range (k + 1)).map (fun i => min PGSIZE (k * PGSIZE + m - i * PGSIZE))).sum
        = k * PGSIZE + m := by
    intro k
    induction k with
    | zero =>
      intro m hm
      have e : List.range (0 + 1) = [0] := rfl
      rw [e]
      simp [Nat.min_eq_right (Nat.le_of_lt hm)]
    | succ k ih =>
      intro m hm
      rw [List.range_succ_eq_map, List.map_cons, List.sum_cons, List.map_map]
      have h1 : (List.map ((fun i => min PGSIZE ((k + 1) * PGSIZE + m - i * PGSIZE)) ∘ Nat.succ)
          (List.range (k + 1)))
          = (List.range (k + 1)).map (fun i => min PGSIZE (k * PGSIZE + m - i * PGSIZE)) := by
        apply List.map_congr_left
        intro i _
        simp only [Function.comp, Nat.succ_eq_add_one]
        have : (k + 1) * PGSIZE + m - (i + 1) * PGSIZE = k * PGSIZE + m - i * PGSIZE := by
          rw [Nat.add_mul, Nat.add_mul]
          omega
        rw [this]
      rw [h1, ih m hm]
      have h2 : min PGSIZE ((k + 1) * PGSIZE + m - 0 * PGSIZE) = PGSIZE := by
        apply Nat.min_eq_left
        rw [Nat.add_mul]
        omega
      rw [h2, Nat.add_mul]
      omega
  have h := key (r / PGSIZE) (r % PGSIZE) (Nat.mod_lt _ (by decide))
  have e : r / PGSIZE * PGSIZE + r % PGSIZE = r := by
    rw [Nat.mul_comm]
    exact Nat.div_add_mod r PGSIZE
  rw [e] at h
  exact h

/-- Claim C16, counterexample: a file of 5000 bytes is mapped at `uva_a` from the page-aligned
offset `0x7FFFF000`.  `do_mmap` succeeds and registers two pages; page 0 has the file offset
`0x7FFFF000`, but page 1 has the file offset `-0x80000000` and not
`0x7FFFF000 + PGSIZE = 0x80000000`, which no `off_t` holds. -/
theorem do_mmap_offset_wraps :
    value_of (do_mmap (vm_boot [kpage0] [false]) uva_a 5000 true 0 5000 0x7FFFF000)
      = some (some uva_a)
    ∧ ((mmap_state (do_mmap (vm_boot [kpage0] [false]) uva_a 5000 true 0 5000 0x7FFFF000)
        (vm_boot [kpage0] [false])).threads 0).spt = [0, 1]
    ∧ ((mmap_state (do_mmap (vm_boot [kpage0] [false]) uva_a 5000 true 0 5000 0x7FFFF000)
        (vm_boot [kpage0] [false])).pages 0).payload
        = .uninit (some .lazy_load_segment) VM_FILE (some ⟨0, 0x7FFFF000, 4096⟩)
            (some .file_backed_initializer)
    ∧ ((mmap_state (do_mmap (vm_boot [kpage0] [false]) uva_a 5000 true 0 5000 0x7FFFF000)
        (vm_boot [kpage0] [false])).pages 1).payload
        = .uninit (some .lazy_load_segment) VM_FILE (some ⟨0, -0x80000000, 904⟩)
            (some .file_backed_initializer)
    ∧ (0x7FFFF000 : Int) + 1 * PGSIZE = 0x80000000 := by
  decide

/-- Claim C16, amended: for a page-aligned `addr` and a page-aligned `offset` (an `off_t`),
`do_mmap` returns, and when it returns an address (success), with `r` the smaller of `length`
and the file length, that address is `addr`, the table of the running thread has gained the
`r / PGSIZE + 1` new records in order, record `i` being an uninitialized file page at
`addr + i * PGSIZE` with the loader `lazy_load_segment`, the file offset
`offset + i * PGSIZE` reduced to an `off_t` and the read length `min PGSIZE (r - i * PGSIZE)`;
the read lengths add up to `r`; and the loader run for page `i` fills its frame with the read
length bytes of the file followed by zero bytes.  The reduced value lies from `-2 ^ 31` up to
`2 ^ 31 - 1` and differs from `offset + i * PGSIZE` by a multiple of `2 ^ 32`; the reduction
changes nothing as long as `offset + i * PGSIZE` is below `2 ^ 31`. -/
theorem do_mmap_registers (s : VM) (addr length : Nat) (w : Bool) (mfile file_len : Nat)
    (offset : Int) (hlen : length < 2 ^ 64) (ha : pg_ofs addr = 0)
    (hlo : -2 ^ 31 ≤ offset) (hhi : offset < 2 ^ 31) (ho : Int.tmod offset PGSIZE = 0) :
    (∀ i : Nat,
      -2 ^ 31 ≤ off_t_of (offset + (i : Int) * PGSIZE)
      ∧ off_t_of (offset + (i : Int) * PGSIZE) < 2 ^ 31
      ∧ (off_t_of (offset + (i : Int) * PGSIZE) - (offset + (i : Int) * PGSIZE)) % 2 ^ 32 = 0
      ∧ (offset + (i : Int) * PGSIZE < 2 ^ 31 →
          off_t_of (offset + (i : Int) * PGSIZE) = offset + (i : Int) * PGSIZE))
    ∧ ∃ res s', do_mmap s addr length w mfile file_len offset = some (res, s')
      ∧ (∀ a, res = some a →
          a = addr
          ∧ (s'.threads s.cur).spt = (s.threads s.cur).spt
              ++ (List.range (min length file_len / PGSIZE + 1)).map (fun i => s.next_page + i)
          ∧ (∀ i, i < min length file_len / PGSIZE + 1 →
              s'.pages (s.next_page + i)
                = mmap_page addr w mfile offset (min length file_len) i)
          ∧ (∀ q, q < s.next_page → s'.pages q = s.pages q)
          ∧ ((List.range (min length file_len / PGSIZE + 1)).map
              (fun i => min PGSIZE (min length file_len - i * PGSIZE))).sum
              = min length file_len
          ∧ (∀ i (t : VM) (f : Nat), (t.pages (s.next_page + i)).frame = some f →
              ∃ t', lazy_load_segment t (s.next_page + i)
                    (some ⟨mfile, off_t_of (offset + (i : Int) * PGSIZE),
                      min PGSIZE (min length file_len - i * PGSIZE)⟩) = some (true, t')
                ∧ ∀ j, j < PGSIZE →
                    t'.mem ((t.frames f).kva + j)
                      = if j < min PGSIZE (min length file_len - i * PGSIZE)
                        then file_byte (t.files mfile)
                          (off_t_of (offset + (i : Int) * PGSIZE) + (j : Int))
                        else 0)) := by
  refine ⟨fun i => ⟨(off_t_of_range _).1, (off_t_of_range _).2, off_t_of_congr _,
    fun hi => off_t_of_id _ (by
      have : (0 : Int) ≤ (i : Int) * PGSIZE := by positivity
      omega) hi⟩, ?_⟩
  have hr : (if length > file_len then file_len else length) = min length file_len := by
    by_cases h : length > file_len
    · rw [if_pos h, Nat.min_eq_right (Nat.le_of_lt h)]
    · rw [if_neg h, Nat.min_eq_left (by omega)]
  have hrb : min length file_len < 2 ^ 64 := lt_of_le_of_lt (Nat.min_le_left _ _) hlen
  have hassert : (min length file_len + (PGSIZE - min length file_len % PGSIZE)) % PGSIZE
      = 0 := by
    simp only [PGSIZE]
    omega
  obtain ⟨b, s', hrun, hprop⟩ := do_mmap_loop_spec mfile w (min length file_len / PGSIZE + 2) s
    addr (min length file_len) offset hrb hlo hhi (Nat.le_refl _)
  cases b with
  | false =>
    refine ⟨none, s', ?_, fun a h => by simp at h⟩
    simp only [do_mmap, hr, hassert, ha, ho, ne_eq, not_true_eq_false, if_false, hrun]
  | true =>
    refine ⟨some addr, s', ?_, fun a h => ?_⟩
    · simp only [do_mmap, hr, hassert, ha, ho, ne_eq, not_true_eq_false, if_false, hrun]
    · obtain ⟨_, c2, _, c4, c5, _⟩ := hprop rfl
      simp only [Option.some.injEq] at h
      refine ⟨h.symm, c2, c4, c5, read_lengths_sum _, ?_⟩
      intro i t f hf
      simp only [lazy_load_segment, hf]
      refine ⟨_, rfl, ?_⟩
      intro j hj
      have h1 : (t.frames f).kva ≤ (t.frames f).kva + j
          ∧ (t.frames f).kva + j < (t.frames f).kva + PGSIZE := ⟨by omega, by omega⟩
      simp only [h1, and_self, if_true, Nat.add_sub_cancel_left]

/-- Witness for C16: a file of 50 bytes mapped at `uva_a` from offset 0 in a table without
pages gives one page. -/
theorem do_mmap_registers_witness :
    value_of (do_mmap (vm_boot [kpage0] [false]) uva_a 50 true 0 50 0) = some (some uva_a)
    ∧ ((mmap_state (do_mmap (vm_boot [kpage0] [false]) uva_a 50 true 0 50 0)
        (vm_boot [kpage0] [false])).threads 0).spt = [0]
    ∧ ((mmap_state (do_mmap (vm_boot [kpage0] [false]) uva_a 50 true 0 50 0)
        (vm_boot [kpage0] [false])).pages 0).payload
        = .uninit (some .lazy_load_segment) VM_FILE (some ⟨0, 0, 50⟩)
            (some .file_backed_initializer)
    ∧ (∀ i : Nat,
        -2 ^ 31 ≤ off_t_of ((0 : Int) + (i : Int) * PGSIZE)
        ∧ off_t_of ((0 : Int) + (i : Int) * PGSIZE) < 2 ^ 31
        ∧ (off_t_of ((0 : Int) + (i : Int) * PGSIZE) - ((0 : Int) + (i : Int) * PGSIZE))
            % 2 ^ 32 = 0
        ∧ ((0 : Int) + (i : Int) * PGSIZE < 2 ^ 31 →
            off_t_of ((0 : Int) + (i : Int) * PGSIZE) = (0 : Int) + (i : Int) * PGSIZE))
    ∧ ∃ res s', do_mmap (vm_boot [kpage0] [false]) uva_a 50 true 0 50 0 = some (res, s')
      ∧ (∀ a, res = some a →
          a = uva_a
          ∧ (s'.threads (vm_boot [kpage0] [false]).cur).spt
              = ((vm_boot [kpage0] [false]).threads (vm_boot [kpage0] [false]).cur).spt
              ++ (List.range (min 50 50 / PGSIZE + 1)).map
                  (fun i => (vm_boot [kpage0] [false]).next_page + i)
          ∧ (∀ i, i < min 50 50 / PGSIZE + 1 →
              s'.pages ((vm_boot [kpage0] [false]).next_page + i)
                = mmap_page uva_a true 0 0 (min 50 50) i)
          ∧ (∀ q, q < (vm_boot [kpage0] [false]).next_page →
              s'.pages q = (vm_boot [kpage0] [false]).pages q)
          ∧ ((List.range (min 50 50 / PGSIZE + 1)).map
              (fun i => min PGSIZE (min 50 50 - i * PGSIZE))).sum = min 50 50
          ∧ (∀ i (t : VM) (f : Nat),
              (t.pages ((vm_boot [kpage0] [false]).next_page + i)).frame = some f →
              ∃ t', lazy_load_segment t ((vm_boot [kpage0] [false]).next_page + i)
                    (some ⟨0, off_t_of ((0 : Int) + (i : Int) * PGSIZE),
                      min PGSIZE (min 50 50 - i * PGSIZE)⟩)
                      = some (true, t')
                ∧ ∀ j, j < PGSIZE →
                    t'.mem ((t.frames f).kva + j)
                      = if j < min PGSIZE (min 50 50 - i * PGSIZE)
                        then file_byte (t.files 0)
                          (off_t_of ((0 : Int) + (i : Int) * PGSIZE) + (j : Int))
                        else 0)) :=
  ⟨by decide, by decide, by decide,
    do_mmap_registers (vm_boot [kpage0] [false]) uva_a 50 true 0 50 0 (by norm_num)
      (by decide) (by decide) (by decide) (by decide)⟩

theorem live_kept_refl (s : VM) : live_kept s s :=
  ⟨rfl, rfl, List.Sublist.refl _, fun p _ h => ⟨p, h⟩⟩

theorem live_kept_trans (a b c : VM) (h1 : live_kept a b) (h2 : live_kept b c) :
    live_kept a c := by
  refine ⟨h2.1.trans h1.1, h2.2.1.trans h1.2.1, h2.2.2.1.trans h1.2.2.1, ?_⟩
  intro p f hp
  obtain ⟨q, hq⟩ := h2.2.2.2 p f hp
  exact h1.2.2.2 q f hq

theorem live_inv_kept (s s' : VM) (hi : live_inv s) (h : live_kept s s') : live_inv s' := by
  obtain ⟨k1, k2, k3, k4⟩ := h
  refine ⟨?_, ?_, ?_, hi.2.2.2.sublist k3⟩
  · intro f hf
    rw [k1] at hf
    rw [k2]
    exact hi.1 f hf
  · intro p f hp
    obtain ⟨q, hq⟩ := k4 p f hp
    rw [k1]
    exact hi.2.1 q f hq
  · intro f hf
    rw [k1, k2]
    exact hi.2.2.1 f (k3.subset hf)

/-- A step that allocates the frame record `s.next_frame`, enters it into the frame table and
lets pages refer to it keeps the record invariant. -/
theorem live_inv_add (s s' : VM) (hi : live_inv s)
    (hfreed : s'.freed_frames = s.freed_frames)
    (hnext : s'.next_frame = s.next_frame + 1)
    (ht : s'.frame_table = s.frame_table ++ [s.next_frame])
    (hp : ∀ p f, (s'.pages p).frame = some f →
      (∃ q, (s.pages q).frame = some f) ∨ f = s.next_frame) :
    live_inv s' := by
  have hfresh : s.next_frame ∉ s.freed_frames := fun h => Nat.lt_irrefl _ (hi.1 _ h)
  refine ⟨?_, ?_, ?_, ?_⟩
  · intro f hf
    rw [hfreed] at hf
    rw [hnext]
    exact Nat.lt_succ_of_lt (hi.1 f hf)
  · intro p f hpf
    rw [hfreed]
    rcases hp p f hpf with ⟨q, hq⟩ | e
    · exact hi.2.1 q f hq
    · rw [e]; exact hfresh
  · intro f hf
    rw [ht] at hf
    rw [hfreed, hnext]
    rcases List.mem_append.mp hf with h1 | h1
    · exact ⟨(hi.2.2.1 f h1).1, Nat.lt_succ_of_lt (hi.2.2.1 f h1).2⟩
    · have e : f = s.next_frame := by simpa using h1
      rw [e]
      exact ⟨hfresh, Nat.lt_succ_self _⟩
  · rw [ht]
    refine List.Nodup.append hi.2.2.2 (List.nodup_singleton _) ?_
    intro f h1 h2
    have e : f = s.next_frame := by simpa using h2
    rw [e] at h1
    exact Nat.lt_irrefl _ (hi.2.2.1 _ h1).2

theorem lazy_load_segment_freed (s : VM) (pid : Nat) (aux : Option Aux) (r : Bool)
    (s' : VM) (h : lazy_load_segment s pid aux = some (r, s')) :
    s'.freed_frames = s.freed_frames := by
  unfold lazy_load_segment at h
  split at h
  · simp only [Option.some.injEq, Prod.mk.injEq] at h
    obtain ⟨_, rfl⟩ := h
    rfl
  · simp at h

theorem anon_swap_in_freed (s : VM) (pid kva : Nat) (r : Bool)
    (s' : VM) (h : anon_swap_in s pid kva = some (r, s')) :
    s'.freed_frames = s.freed_frames := by
  unfold anon_swap_in at h
  split at h
  · split at h
    · simp only [Option.some.injEq, Prod.mk.injEq] at h
      obtain ⟨_, rfl⟩ := h
      rfl
    · split at h
      · simp at h
      · split at h
        · simp only [Option.some.injEq, Prod.mk.injEq] at h
          obtain ⟨_, rfl⟩ := h
          rfl
        · simp only [Option.some.injEq, Prod.mk.injEq] at h
          obtain ⟨_, rfl⟩ := h
          rfl
  · simp at h

theorem file_backed_initializer_freed (s : VM) (pid : Nat) (r : Bool)
    (s' : VM) (h : file_backed_initializer s pid = some (r, s')) :
    s'.freed_frames = s.freed_frames := by
  unfold file_backed_initializer at h
  split at h
  · simp only [Option.some.injEq, Prod.mk.injEq] at h
    obtain ⟨_, rfl⟩ := h
    rfl
  · simp at h

theorem uninit_initialize_freed (s : VM) (pid : Nat) (r : Bool)
    (s' : VM) (h : uninit_initialize s pid = some (r, s')) :
    s'.freed_frames = s.freed_frames := by
  unfold uninit_initialize at h
  split at h
  · split at h
    · simp only [anon_initializer, Option.some.injEq, Prod.mk.injEq] at h
      obtain ⟨_, rfl⟩ := h
      rfl
    · exact lazy_load_segment_freed (anon_initializer s pid).2 _ _ _ _ h
  · split at h
    · simp at h
    · rename_i r0 hr0
      split at h
      · simp only [Option.some.injEq] at h
        subst h
        exact file_backed_initializer_freed _ _ _ _ hr0
      · exact (lazy_load_segment_freed _ _ _ _ _ h).trans
          (file_backed_initializer_freed s pid r0.1 r0.2 hr0)
  · simp at h

theorem swap_in_freed (s : VM) (pid kva : Nat) (r : Bool)
    (s' : VM) (h : swap_in s pid kva = some (r, s')) :
    s'.freed_frames = s.freed_frames := by
  unfold swap_in at h
  split at h
  · exact uninit_initialize_freed _ _ _ _ h
  · exact anon_swap_in_freed _ _ _ _ _ h
  · unfold file_backed_swap_in at h
    split at h
    · exact lazy_load_segment_freed _ _ _ _ _ h
    · simp at h

theorem live_kept_swap_in (s : VM) (pid kva : Nat) (r : Bool) (s' : VM)
    (h : swap_in s pid kva = some (r, s')) : live_kept s s' := by
  obtain ⟨a1, _, _, a4, _, _, _, _, a9, _⟩ := swap_in_frame_cond_of s pid kva r s' h
  refine ⟨swap_in_freed _ _ _ _ _ h, a4, by rw [a1], ?_⟩
  intro p f hp
  exact ⟨p, by rw [← (a9 p).1]; exact hp⟩

theorem live_kept_set_thread (s : VM) (t : Nat) (th : Thread) :
    live_kept s (set_thread s t th) :=
  ⟨rfl, rfl, List.Sublist.refl _, fun p _ h => ⟨p, h⟩⟩

theorem live_kept_new_page (s : VM) (np : Nat) (rec : Page) (hrec : rec.frame = none)
    (s' : VM) (hfd : s'.freed_frames = s.freed_frames) (hn : s'.next_frame = s.next_frame)
    (ht : s'.frame_table = s.frame_table)
    (hp : s'.pages = upd s.pages np rec) : live_kept s s' := by
  refine ⟨hfd, hn, by rw [ht], ?_⟩
  intro p f h
  rw [hp] at h
  by_cases e : p = np
  · subst e; simp [hrec] at h
  · rw [upd_other _ _ _ _ e] at h
    exact ⟨p, h⟩

theorem live_kept_alloc (s : VM) (type upage : Nat) (w : Bool) (init : Option Loader)
    (aux : Option Aux) (r : Bool) (s' : VM)
    (h : vm_alloc_page_with_initializer s type upage w init aux = some (r, s')) :
    live_kept s s' ∧ s'.pt_ok = s.pt_ok := by
  unfold vm_alloc_page_with_initializer at h
  split at h
  · simp at h
  · split at h
    · simp only [spt_insert_page, uninit_new, set_page, set_thread, upd_upd, upd_same] at h
      split at h
      · simp only [Option.some.injEq, Prod.mk.injEq] at h
        obtain ⟨_, rfl⟩ := h
        exact ⟨live_kept_new_page s s.next_page _ rfl _ rfl rfl rfl rfl, rfl⟩
      · simp only [Option.some.injEq, Prod.mk.injEq] at h
        obtain ⟨_, rfl⟩ := h
        exact ⟨live_kept_new_page s s.next_page _ rfl _ rfl rfl rfl rfl, rfl⟩
    · simp only [Option.some.injEq, Prod.mk.injEq] at h
      obtain ⟨_, rfl⟩ := h
      exact ⟨live_kept_refl s, rfl⟩

theorem live_kept_detach (s : VM) (pid : Nat) : live_kept s (detach_frame s pid) := by
  unfold detach_frame
  split
  · rename_i f hf
    refine ⟨rfl, rfl, ?_, ?_⟩
    · simp only [set_page, set_frame]
      exact List.erase_sublist _ _
    · intro p g hp
      by_cases e : p = pid
      · subst e; simp [set_page, set_frame] at hp
      · simp only [set_page, set_frame] at hp
        rw [upd_other _ _ _ _ e] at hp
        exact ⟨p, hp⟩
  · exact live_kept_refl s

theorem live_kept_set_dirty (s : VM) (t va : Nat) (v : Bool) :
    live_kept s (pml4_set_dirty s t va v) := by
  unfold pml4_set_dirty
  split
  · exact live_kept_set_thread s t _
  · exact live_kept_refl s

theorem live_kept_write_back (s s' : VM) (pid file : Nat) (offset : Int) (n : Nat)
    (h : file_write_back s pid file offset n = some s') : live_kept s s' := by
  unfold file_write_back at h
  by_cases hd : pml4_is_dirty s s.cur (s.pages pid).va = true
  · simp only [hd, if_true] at h
    cases hw : file_write_at s file (s.pages pid).va n offset with
    | none => simp [hw] at h
    | some s1 =>
      simp only [hw, Option.some.injEq] at h
      subst h
      have h1 : live_kept s s1 := by
        unfold file_write_at at hw
        cases hc : copy_in s (s.pages pid).va n with
        | none => simp [hc] at hw
        | some buf =>
          simp only [hc, Option.some.injEq] at hw
          subst hw
          exact ⟨rfl, rfl, List.Sublist.refl _, fun p _ h => ⟨p, h⟩⟩
      exact live_kept_trans _ _ _ h1 (live_kept_set_dirty _ _ _ _)
  · simp only [hd, Bool.false_eq_true, if_false, Option.some.injEq] at h
    subst h
    exact live_kept_refl s

/-- Releasing the frame record of a page that is not file-backed, after the page has been
detached from it, keeps the record invariant: by the link invariant no other page refers to
the record. -/
theorem live_anon_release (s : VM) (pid : Nat) (hi : Inv s) (hl : live_inv s)
    (hnf : is_file (s.pages pid) = false) :
    live_inv (free_frame (detach_frame s pid) (s.pages pid).frame) := by
  cases hf : (s.pages pid).frame with
  | none =>
    have e : detach_frame s pid = s := by
      unfold detach_frame
      rw [hf]
    rw [e]
    exact hl
  | some f =>
    have e : detach_frame s pid
        = set_page (set_frame { s with frame_table := s.frame_table.erase f } f
            { s.frames f with page := none }) pid { s.pages pid with frame := none } := by
      unfold detach_frame
      rw [hf]
      rfl
    rw [e]
    refine ⟨?_, ?_, ?_, ?_⟩
    · intro g hg
      simp only [free_frame, set_page, set_frame, List.mem_cons] at hg ⊢
      rcases hg with hg | hg
      · rw [hg]; exact hi.1.1 pid f hf
      · exact hl.1 g hg
    · intro p g hp
      simp only [free_frame, set_page, set_frame, List.mem_cons, not_or] at hp ⊢
      by_cases e1 : p = pid
      · subst e1; simp at hp
      · rw [upd_other _ _ _ _ e1] at hp
        refine ⟨?_, hl.2.1 p g hp⟩
        intro e2
        subst e2
        exact e1 ((hi.1.2 pid g hf hnf).2 p hp)
    · intro g hg
      simp only [free_frame, set_page, set_frame, List.mem_cons, not_or] at hg ⊢
      have hm := (List.Nodup.mem_erase_iff hl.2.2.2).mp hg
      exact ⟨⟨hm.1, (hl.2.2.1 g hm.2).1⟩, (hl.2.2.1 g hm.2).2⟩
    · simp only [free_frame, set_page, set_frame]
      exact hl.2.2.2.erase f

theorem live_do_claim (s : VM) (page : Nat) (r : Bool) (s' : VM)
    (hpool : s.user_pool ≠ []) (h : vm_do_claim_page s page = some (r, s')) (hi : Inv s)
    (hl : live_inv s) : live_inv s' := by
  obtain ⟨k, rest, hp, hk0⟩ := pool_head s hpool hi
  unfold vm_do_claim_page at h
  rw [vm_get_frame_pool s k rest hp hk0] at h
  have key : ∀ (x : VM), x.freed_frames = s.freed_frames →
      x.next_frame = s.next_frame + 1 →
      x.frame_table = s.frame_table ++ [s.next_frame] →
      x.pages = upd s.pages page { s.pages page with frame := some s.next_frame } →
      live_inv x := by
    intro x hfd hn ht hpg
    refine live_inv_add s x hl hfd hn ht ?_
    intro p f hpf
    rw [hpg] at hpf
    by_cases e : p = page
    · subst e
      simp only [upd_same, Option.some.injEq] at hpf
      exact Or.inr hpf.symm
    · rw [upd_other _ _ _ _ e] at hpf
      exact Or.inl ⟨p, hpf⟩
  by_cases hpt : s.pt_ok = true
  · simp only [pml4_set_page, set_frame, set_page, set_thread, upd_upd, upd_same, hpt, if_true,
      Bool.true_eq_false, if_false] at h
    refine live_inv_kept _ _ ?_ (live_kept_swap_in _ _ _ _ _ h)
    exact key _ rfl rfl rfl rfl
  · simp only [pml4_set_page, set_frame, set_page, set_thread, upd_upd, upd_same, hpt, if_true,
      if_false, Option.some.injEq, Prod.mk.injEq] at h
    obtain ⟨_, rfl⟩ := h
    exact key _ rfl rfl rfl rfl

theorem live_claim (s : VM) (va : Nat) (r : Bool) (s' : VM)
    (hpool : s.user_pool ≠ []) (h : vm_claim_page s va = some (r, s')) (hi : Inv s)
    (hl : live_inv s) : live_inv s' := by
  unfold vm_claim_page at h
  split at h
  · simp only [Option.some.injEq, Prod.mk.injEq] at h
    obtain ⟨_, rfl⟩ := h
    exact hl
  · exact live_do_claim s _ r s' hpool h hi hl

theorem live_handle_wp (s : VM) (page : Option Nat) (r : Bool) (s' : VM)
    (hpool : s.user_pool ≠ []) (h : vm_handle_wp s page = some (r, s')) (hi : Inv s)
    (hl : live_inv s) : live_inv s' := by
  obtain ⟨k, rest, hp, hk0⟩ := pool_head s hpool hi
  unfold vm_handle_wp at h
  split at h
  · simp at h
  · rename_i pid
    split at h
    · simp only [Option.some.injEq, Prod.mk.injEq] at h
      obtain ⟨_, rfl⟩ := h
      exact hl
    · split at h
      · simp at h
      · rename_i f hf
        have key : ∀ (x : VM), x.freed_frames = s.freed_frames →
            x.next_frame = s.next_frame →
            x.frame_table = s.frame_table → x.pages = s.pages → live_inv x := by
          intro x hfd hn ht hpg
          exact live_inv_kept s x hl ⟨hfd, hn, by rw [ht], fun p g hpg' => ⟨p, by
            rw [hpg] at hpg'; exact hpg'⟩⟩
        simp only [palloc_get_page, hp, set_frame, hk0, if_false, set_page, hf, pml4_set_page,
          set_thread, upd_same] at h
        by_cases hpt : s.pt_ok = true
        · simp only [hpt, if_true, Bool.true_eq_false, if_false, Option.some.injEq,
            Prod.mk.injEq] at h
          obtain ⟨_, rfl⟩ := h
          exact key _ rfl rfl rfl rfl
        · simp only [hpt, if_true, if_false, Option.some.injEq, Prod.mk.injEq] at h
          obtain ⟨_, rfl⟩ := h
          exact key _ rfl rfl rfl rfl

theorem live_stack_growth (s : VM) (addr : Nat) (s' : VM)
    (hpool : s.user_pool ≠ []) (h : vm_stack_growth s addr = some s') (hi : Inv s)
    (hl : live_inv s) : live_inv s' := by
  unfold vm_stack_growth vm_alloc_page at h
  cases h1 : vm_alloc_page_with_initializer s (VM_ANON ||| VM_MARKER_0) addr true none none with
  | none => simp [h1] at h
  | some x =>
    obtain ⟨b, s1⟩ := x
    obtain ⟨i1, p1, _⟩ := alloc_inv _ _ _ _ _ _ _ _ h1 hi
    have k1 := live_inv_kept _ _ hl (live_kept_alloc _ _ _ _ _ _ _ _ h1).1
    have hpool1 : s1.user_pool ≠ [] := by rw [p1]; exact hpool
    cases b with
    | false =>
      simp only [h1, Option.some.injEq] at h
      subst h
      exact k1
    | true =>
      simp only [h1] at h
      cases h2 : vm_claim_page s1 addr with
      | none => simp [h2] at h
      | some y =>
        obtain ⟨b2, s2⟩ := y
        have k2 := live_claim _ _ _ _ hpool1 h2 i1 k1
        cases b2 with
        | false =>
          simp only [h2, Option.some.injEq] at h
          subst h
          exact k2
        | true =>
          simp only [h2, Option.some.injEq] at h
          subst h
          exact live_inv_kept _ _ k2 (live_kept_set_thread _ _ _)

theorem live_fault (s : VM) (rsp addr : Nat) (user write not_present : Bool) (r : Bool)
    (s' : VM) (hpool : s.user_pool ≠ [])
    (h : vm_try_handle_fault s rsp addr user write not_present = some (r, s')) (hi : Inv s)
    (hl : live_inv s) : live_inv s' := by
  unfold vm_try_handle_fault at h
  by_cases hrej : addr = 0 ∨ is_kernel_vaddr addr = true
  · simp only [hrej, if_true, Option.some.injEq, Prod.mk.injEq] at h
    obtain ⟨_, rfl⟩ := h
    exact hl
  · by_cases hwp : not_present = false ∧ write = true
    · simp only [hrej, if_false, hwp, and_self, if_true] at h
      exact live_handle_wp _ _ _ _ hpool h hi hl
    · simp only [hrej, if_false, hwp] at h
      cases hfind : spt_find_page s s.cur addr with
      | none =>
        simp only [hfind] at h
        by_cases hc : ptr_sub (if user = true then rsp else (cur_thread s).stack_pointer) 8 ≤ addr
            ∧ addr ≥ STACK_LIMIT ∧ addr ≤ USER_STACK
        · simp only [hc, and_self, if_true] at h
          cases hg : vm_stack_growth s (ptr_sub (cur_thread s).stack_bottom PGSIZE) with
          | none => simp [hg] at h
          | some s1 =>
            simp only [hg, Option.some.injEq, Prod.mk.injEq] at h
            obtain ⟨_, rfl⟩ := h
            exact live_stack_growth _ _ _ hpool hg hi hl
        · simp only [hc, if_false, Option.some.injEq, Prod.mk.injEq] at h
          obtain ⟨_, rfl⟩ := h
          exact hl
      | some p =>
        simp only [hfind] at h
        exact live_do_claim _ _ _ _ hpool h hi hl

/-- With page-table memory available `vm_copy_claim_page` releases no frame record. -/
theorem live_copy_claim (s : VM) (dst va kva : Nat) (w : Bool) (r : Bool) (s' : VM)
    (hpt : s.pt_ok = true) (h : vm_copy_claim_page s dst va kva w = some (r, s'))
    (hl : live_inv s) : live_inv s' ∧ s'.pt_ok = true := by
  unfold vm_copy_claim_page at h
  split at h
  · simp only [Option.some.injEq, Prod.mk.injEq] at h
    obtain ⟨_, rfl⟩ := h
    exact ⟨hl, hpt⟩
  · rename_i page _
    have key : ∀ (x : VM), x.freed_frames = s.freed_frames →
        x.next_frame = s.next_frame + 1 →
        x.frame_table = s.frame_table ++ [s.next_frame] →
        x.pages = upd s.pages page
          { s.pages page with accessible := w, frame := some s.next_frame } →
        live_inv x := by
      intro x hfd hn ht hpg
      refine live_inv_add s x hl hfd hn ht ?_
      intro p f hpf
      rw [hpg] at hpf
      by_cases e : p = page
      · subst e
        simp only [upd_same, Option.some.injEq] at hpf
        exact Or.inr hpf.symm
      · rw [upd_other _ _ _ _ e] at hpf
        exact Or.inl ⟨p, hpf⟩
    simp only [pml4_set_page, set_frame, set_page, set_thread, upd_upd, upd_same, hpt, if_true,
      Bool.true_eq_false, if_false] at h
    refine ⟨?_, ?_⟩
    · refine live_inv_kept _ _ ?_ (live_kept_swap_in _ _ _ _ _ h)
      exact key _ rfl rfl rfl rfl
    · obtain ⟨_, _, _, _, _, _, _, a8, _, _⟩ := swap_in_frame_cond_of _ _ _ _ _ h
      rw [a8]

theorem live_kept_set_page_frame (s : VM) (pid : Nat) (rec : Page)
    (h : ∀ f, rec.frame = some f → ∃ q, (s.pages q).frame = some f) :
    live_kept s (set_page s pid rec) := by
  refine ⟨rfl, rfl, List.Sublist.refl _, ?_⟩
  intro p f hp
  by_cases e : p = pid
  · subst e
    simp only [set_page, upd_same] at hp
    exact h f hp
  · simp only [set_page] at hp
    rw [upd_other _ _ _ _ e] at hp
    exact ⟨p, hp⟩

theorem live_kept_pml4_set_page (s : VM) (t upage kpage : Nat) (rw : Bool) :
    live_kept s (pml4_set_page s t upage kpage rw).2
      ∧ (pml4_set_page s t upage kpage rw).2.pt_ok = s.pt_ok := by
  unfold pml4_set_page
  split
  · exact ⟨live_kept_set_thread s t _, rfl⟩
  · exact ⟨live_kept_refl s, rfl⟩

theorem live_copy_page (s : VM) (dst p : Nat) (r : Bool) (s' : VM)
    (hpt : s.pt_ok = true) (h : spt_copy_page s dst p = some (r, s')) (hl : live_inv s) :
    live_inv s' ∧ s'.pt_ok = true := by
  unfold spt_copy_page at h
  simp only at h
  split at h
  · have k := live_kept_alloc _ _ _ _ _ _ _ _ h
    exact ⟨live_inv_kept _ _ hl k.1, by rw [k.2]; exact hpt⟩
  · rename_i file offset prb hpl
    cases ha : vm_alloc_page_with_initializer s VM_FILE (s.pages p).va (s.pages p).writable none
        (some { file := file, offset := offset, page_read_bytes := prb }) with
    | none => simp [ha] at h
    | some x =>
      obtain ⟨b, s1⟩ := x
      have ka := live_kept_alloc _ _ _ _ _ _ _ _ ha
      have k1 := live_inv_kept _ _ hl ka.1
      have hpt1 : s1.pt_ok = true := by rw [ka.2]; exact hpt
      cases b with
      | false =>
        simp only [ha, Option.some.injEq, Prod.mk.injEq] at h
        obtain ⟨_, rfl⟩ := h
        exact ⟨k1, hpt1⟩
      | true =>
        simp only [ha] at h
        cases hf : spt_find_page s1 dst (s.pages p).va with
        | none => simp [hf] at h
        | some dst_page =>
          simp only [hf] at h
          cases hb : file_backed_initializer s1 dst_page with
          | none => simp [hb] at h
          | some y =>
            obtain ⟨b2, s2⟩ := y
            obtain ⟨rec, e2, _, hrf, _⟩ := file_backed_initializer_effect _ _ _ _ hb
            have k2 : live_kept s1 s2 := by
              rw [e2]
              exact live_kept_set_page_frame s1 dst_page rec
                (fun f hfr => ⟨dst_page, by rw [← hrf]; exact hfr⟩)
            have hpt2 : s2.pt_ok = true := by rw [e2]; exact hpt1
            cases b2 with
            | false =>
              simp only [hb, Option.some.injEq, Prod.mk.injEq] at h
              obtain ⟨_, rfl⟩ := h
              exact ⟨live_inv_kept _ _ k1 k2, hpt2⟩
            | true =>
              simp only [hb] at h
              have k3 : live_kept s2 (set_page s2 dst_page
                  { s2.pages dst_page with frame := (s2.pages p).frame }) :=
                live_kept_set_page_frame s2 dst_page _ (fun f hfr => ⟨p, hfr⟩)
              have i3 := live_inv_kept _ _ (live_inv_kept _ _ k1 k2) k3
              split at h
              · simp at h
              · split at h
                · simp only [Option.some.injEq, Prod.mk.injEq] at h
                  obtain ⟨_, rfl⟩ := h
                  have k4 := live_kept_pml4_set_page
                    (set_page s2 dst_page { s2.pages dst_page with frame := (s2.pages p).frame })
                  exact ⟨live_inv_kept _ _ i3 (k4 _ _ _ _).1, by
                    rw [(k4 _ _ _ _).2]; exact hpt2⟩
                · simp only [Option.some.injEq, Prod.mk.injEq] at h
                  obtain ⟨_, rfl⟩ := h
                  have k4 := live_kept_pml4_set_page
                    (set_page s2 dst_page { s2.pages dst_page with frame := (s2.pages p).frame })
                  exact ⟨live_inv_kept _ _ i3 (k4 _ _ _ _).1, by
                    rw [(k4 _ _ _ _).2]; exact hpt2⟩
  · rename_i slot hpl
    simp only [vm_alloc_page] at h
    cases ha : vm_alloc_page_with_initializer s VM_ANON (s.pages p).va (s.pages p).writable
        none none with
    | none => simp [ha] at h
    | some x =>
      obtain ⟨b, s1⟩ := x
      have ka := live_kept_alloc _ _ _ _ _ _ _ _ ha
      have k1 := live_inv_kept _ _ hl ka.1
      have hpt1 : s1.pt_ok = true := by rw [ka.2]; exact hpt
      cases b with
      | false =>
        simp only [ha, Option.some.injEq, Prod.mk.injEq] at h
        obtain ⟨_, rfl⟩ := h
        exact ⟨k1, hpt1⟩
      | true =>
        simp only [ha] at h
        cases hfr : (s1.pages p).frame with
        | none => simp [hfr] at h
        | some f =>
          simp only [hfr] at h
          exact live_copy_claim _ _ _ _ _ _ _ hpt1 h k1

theorem live_copy_loop (dst : Nat) : ∀ (l : List Nat) (s : VM) (r : Bool) (s' : VM),
    spt_copy_loop dst l s = some (r, s') → s.pt_ok = true → live_inv s → live_inv s' := by
  intro l
  induction l with
  | nil =>
    intro s r s' h _ hl
    simp only [spt_copy_loop, Option.some.injEq, Prod.mk.injEq] at h
    obtain ⟨_, rfl⟩ := h
    exact hl
  | cons p rest ih =>
    intro s r s' h hpt hl
    simp only [spt_copy_loop] at h
    cases hc : spt_copy_page s dst p with
    | none => simp [hc] at h
    | some x =>
      obtain ⟨b, s1⟩ := x
      have k1 := live_copy_page _ _ _ _ _ hpt hc hl
      cases b with
      | false =>
        simp only [hc, Option.some.injEq, Prod.mk.injEq] at h
        obtain ⟨_, rfl⟩ := h
        exact k1.1
      | true =>
        simp only [hc] at h
        exact ih s1 r s' h k1.2 k1.1

theorem live_destroy (s s' : VM) (pid : Nat) (h : destroy s pid = some s') (hi : Inv s)
    (hl : live_inv s) : live_inv s' := by
  unfold destroy at h
  cases hp : (s.pages pid).payload with
  | uninit a b c d =>
    rw [hp] at h
    have h' : some s = some s' := h
    simp only [Option.some.injEq] at h'
    subst h'
    exact hl
  | anon slot =>
    rw [hp] at h
    have h' : anon_destroy s pid = some s' := h
    clear h
    have hnf : is_file (s.pages pid) = false := by simp [is_file, hp]
    simp only [anon_destroy, hp] at h'
    by_cases hs : slot ≠ BITMAP_ERROR
    · rw [if_pos hs] at h'
      cases hb : bitmap_reset s.swap_table slot with
      | none => simp [hb] at h'
      | some b =>
        simp only [hb, Option.some.injEq] at h'
        subst h'
        have hi1 : Inv { s with swap_table := b } := hi
        have hl1 : live_inv { s with swap_table := b } := hl
        exact live_inv_kept _ _ (live_anon_release _ pid hi1 hl1 hnf)
          (live_kept_set_thread _ _ _)
    · rw [if_neg hs] at h'
      simp only [Option.some.injEq] at h'
      subst h'
      exact live_inv_kept _ _ (live_anon_release _ pid hi hl hnf) (live_kept_set_thread _ _ _)
  | file f o n =>
    rw [hp] at h
    have h' : file_backed_destroy s pid = some s' := h
    clear h
    simp only [file_backed_destroy, hp] at h'
    cases hw : file_write_back s pid f o n with
    | none => simp [hw] at h'
    | some s1 =>
      simp only [hw, Option.some.injEq] at h'
      subst h'
      exact live_inv_kept _ _ hl (live_kept_trans _ _ _ (live_kept_write_back _ _ _ _ _ _ hw)
        (live_kept_trans _ _ _ (live_kept_detach _ _) (live_kept_set_thread _ _ _)))

theorem live_munmap_loop : ∀ (fuel : Nat) (s : VM) (addr : Nat) (s' : VM),
    do_munmap_loop fuel s addr = some s' → Inv s → live_inv s → live_inv s' := by
  intro fuel
  induction fuel with
  | zero =>
    intro s addr s' h _ _
    simp [do_munmap_loop] at h
  | succ n ih =>
    intro s addr s' h hi hl
    simp only [do_munmap_loop] at h
    cases hf : spt_find_page s s.cur addr with
    | none =>
      rw [hf] at h
      simp only [Option.some.injEq] at h
      subst h
      exact hl
    | some page =>
      rw [hf] at h
      dsimp only at h
      cases hd : destroy s page with
      | none => rw [hd] at h; simp at h
      | some s1 =>
        rw [hd] at h
        exact ih s1 _ s' h (destroy_inv _ _ _ hd hi) (live_destroy _ _ _ hd hi hl)

theorem reach_live (s : VM) (h : Reach s) : live_inv s := by
  induction h with
  | boot pool swap hp =>
    refine ⟨?_, ?_, ?_, ?_⟩
    · intro f hf; simp [vm_boot] at hf
    · intro p f hq; simp [vm_boot, page0] at hq
    · intro f hf; simp [vm_boot] at hf
    · simp [vm_boot]
  | switch s t _ ih => exact ih
  | pt_memory s b _ ih => exact ih
  | alloc s type upage w init aux r s' _ h ih =>
    exact live_inv_kept _ _ ih (live_kept_alloc _ _ _ _ _ _ _ _ h).1
  | claim s va r s' hr hp h ih => exact live_claim _ _ _ _ hp h (reach_inv s hr) ih
  | fault s rsp addr user write np r s' hr hp h ih =>
    exact live_fault _ _ _ _ _ _ _ _ hp h (reach_inv s hr) ih
  | copy s dst src r s' _ hpt h ih => exact live_copy_loop _ _ _ _ _ h hpt ih
  | munmap s addr s' hr h ih => exact live_munmap_loop _ _ _ _ h (reach_inv s hr) ih
  | destroy_page s pid s' hr h ih => exact live_destroy _ _ _ h (reach_inv s hr) ih

theorem spt_copy_page_file_shares (s s1 : VM) (p : Nat) (hp : p < s.next_page)
    (file : Nat) (offset : Int) (prb : Nat)
    (hpay : (s.pages p).payload = .file file offset prb)
    (h : spt_copy_page s s.cur p = some (true, s1)) :
    (s1.threads s.cur).spt = (s.threads s.cur).spt ++ [s.next_page]
    ∧ (s1.pages s.next_page).va = (s.pages p).va
    ∧ is_file (s1.pages s.next_page) = true
    ∧ (s1.pages s.next_page).frame = (s.pages p).frame
    ∧ (s1.pages p).frame = (s.pages p).frame
    ∧ s1.frames = s.frames := by
  have hpn : p ≠ s.next_page := by omega
  unfold spt_copy_page at h
  dsimp only at h
  rw [hpay] at h
  have h' : (match vm_alloc_page_with_initializer s VM_FILE (s.pages p).va (s.pages p).writable
        none (some { file := file, offset := offset, page_read_bytes := prb }) with
      | none => none
      | some (false, s1) => some (false, s1)
      | some (true, s1) =>
        match spt_find_page s1 s.cur (s.pages p).va with
        | none => none
        | some dst_page =>
          match file_backed_initializer s1 dst_page with
          | none => none
          | some (false, s2) => some (false, s2)
          | some (true, s2) =>
            let s3 := set_page s2 dst_page
              { s2.pages dst_page with frame := (s2.pages p).frame }
            match (s3.pages p).frame with
            | none => none
            | some f =>
              let r := pml4_set_page s3 s3.cur (s3.pages dst_page).va (s3.frames f).kva
                (s3.pages p).writable
              if r.1 = false then some (false, r.2) else some (true, r.2))
      = some (true, s1) := h
  clear h
  cases ha : vm_alloc_page_with_initializer s VM_FILE (s.pages p).va (s.pages p).writable
      none (some { file := file, offset := offset, page_read_bytes := prb }) with
  | none => simp [ha] at h'
  | some x =>
    obtain ⟨b, sA⟩ := x
    cases b with
    | false => simp [ha] at h'
    | true =>
      have hfind := vm_alloc_true_find _ _ _ _ _ _ _ ha
      have := vm_alloc_true _ _ _ _ _ _ _ ha
      subst this
      rw [ha] at h'
      dsimp only at h'
      cases hf : spt_find_page (alloc_post s VM_FILE (s.pages p).va (s.pages p).writable none
          (some { file := file, offset := offset, page_read_bytes := prb })) s.cur
          (s.pages p).va with
      | none => simp [hf] at h'
      | some q =>
        have := find_alloc_post_eq _ _ _ _ _ _ q hfind hf
        subst this
        rw [hf] at h'
        simp only [file_backed_initializer, alloc_post, upd_same, set_page, upd_upd,
          upd_other _ _ _ _ hpn] at h'
        cases hfr : (s.pages p).frame with
        | none => simp [hfr] at h'
        | some f =>
          simp only [hfr, pml4_set_page, set_thread, upd_same] at h'
          by_cases hpt : s.pt_ok = true
          · simp only [hpt, if_true, Bool.true_eq_false, if_false, Option.some.injEq,
              Prod.mk.injEq, true_and] at h'
            subst h'
            refine ⟨by simp, by simp, by simp [is_file], by simp, ?_, rfl⟩
            simp [upd_other _ _ _ _ hpn, hfr]
          · simp [hpt] at h'

theorem file_prefork_reach : Reach (switch_to file_state2 1) := by
  have h0 : Reach (vm_boot [kpage0, kpage1] [false]) := Reach.boot _ _ (by decide)
  have h1 : Reach file_state1 :=
    Reach.alloc _ VM_FILE uva_a true (some .lazy_load_segment)
      (some { file := 3, offset := 0, page_read_bytes := 50 }) true _ h0
      (result_of_value _ true _ (by decide))
  have h2 : Reach file_state2 :=
    Reach.claim _ uva_a true _ h1 (by decide) (result_of_value _ true _ (by decide))
  exact Reach.switch _ 1 h2

/-- C3 (amended): in every state reachable through `vm_alloc_page_with_initializer`,
`vm_claim_page`, `vm_try_handle_fault`, `supplemental_page_table_copy` (run with page-table
memory available), `do_munmap` and page destroy (calls that return false included) with frames
taken from the allocator, every frame reference of a page is to an allocated frame record that
has not been released; every page `p`
that is not file-backed and has frame reference `f` satisfies `f.page == p` and is the only page
referring to `f`; when the copy step of `supplemental_page_table_copy` for a file-backed source
page succeeds in the running thread, the page it has added to the table of the running thread is
a file-backed page at the same address with the frame reference of the source page, and the
frame records (with them the owner `f.page`) are unchanged; and when the calls act on the
running address space at page-aligned addresses with page-table memory available, each page of
a table has a frame reference iff its address is mapped in the page table of its thread. -/
theorem reachable_frame_links (s : VM) (h : Reach s) :
    (∀ p f, (s.pages p).frame = some f → f < s.next_frame ∧ f ∉ s.freed_frames)
    ∧ (∀ p f, (s.pages p).frame = some f → is_file (s.pages p) = false →
      (s.frames f).page = some p ∧ ∀ q, (s.pages q).frame = some f → q = p)
    ∧ (∀ p s1, p < s.next_page → is_file (s.pages p) = true →
      spt_copy_page s s.cur p = some (true, s1) →
      (s1.threads s.cur).spt = (s.threads s.cur).spt ++ [s.next_page]
      ∧ (s1.pages s.next_page).va = (s.pages p).va
      ∧ is_file (s1.pages s.next_page) = true
      ∧ (s1.pages s.next_page).frame = (s.pages p).frame
      ∧ (s1.pages p).frame = (s.pages p).frame
      ∧ s1.frames = s.frames)
    ∧ (ReachOwn s → ∀ t p, p ∈ (s.threads t).spt →
      ((s.pages p).frame.isSome = true ↔ (translate s t (s.pages p).va).isSome = true)) := by
  refine ⟨?_, ?_, ?_, ?_⟩
  · intro p f hp
    exact ⟨(reach_inv s h).1.1 p f hp, (reach_live s h).2.1 p f hp⟩
  · intro p f hp hfile
    exact (reach_inv s h).1.2 p f hp hfile
  · intro p s1 hp hfile hc
    cases hpay : (s.pages p).payload with
    | uninit a b c d => simp [is_file, hpay] at hfile
    | anon slot => simp [is_file, hpay] at hfile
    | file file offset prb => exact spt_copy_page_file_shares s s1 p hp file offset prb hpay hc
  · intro ho t p hp
    have hi := reach_res s ho
    have hrd := pg_round_down_aligned _ (hi.aligned t p hp)
    rw [hi.resident t p hp]
    unfold translate
    rw [hrd]
    cases (s.threads t).pml4 (s.pages p).va <;> simp

/-- Witness for C3: the reachable state `file_forked_state`, in which the child has duplicated a
resident file-backed page, and the copy step that led to it from the reachable state
`switch_to file_state2 1`. -/
theorem reachable_frame_links_witness :
    (Reach file_forked_state
      ∧ (file_forked_state.pages 0).frame = some 0
      ∧ (file_forked_state.frames 0).page = some 0
      ∧ (file_forked_state.pages 1).frame = some 0
      ∧ file_forked_state.freed_frames = []
      ∧ value_of (spt_copy_page (switch_to file_state2 1) 1 0) = some true
      ∧ is_file ((switch_to file_state2 1).pages 0) = true)
    ∧ ((file_forked_state.pages 1).frame.isSome = true
        ↔ (translate file_forked_state 1 (file_forked_state.pages 1).va).isSome = true)
    ∧ 0 < file_forked_state.next_frame
    ∧ ((state_of (spt_copy_page (switch_to file_state2 1) (switch_to file_state2 1).cur 0)
          file_state2).pages (switch_to file_state2 1).next_page).frame
        = ((switch_to file_state2 1).pages 0).frame :=
  ⟨⟨reach_of_own _ file_forked_reach, by decide⟩,
    (reachable_frame_links file_forked_state (reach_of_own _ file_forked_reach)).2.2.2
      file_forked_reach 1 1 (by decide),
    ((reachable_frame_links file_forked_state (reach_of_own _ file_forked_reach)).1 1 0
      (by decide)).1,
    ((reachable_frame_links (switch_to file_state2 1) file_prefork_reach).2.2.1 0 _
      (by decide) (by decide) (result_of_value _ true file_state2 (by decide))).2.2.2.1⟩

/-- Claim C21, counterexample: in `foreign_victim_state` thread 1 runs, page 0 is a resident
anonymous page of thread 0 at `uva_a`, which the page table of thread 1 does not map, and the
single swap slot is free.  `anon_swap_out` of page 0 returns no value (the sectors are read at
`page->va` through the page table of the running thread), although a slot is free; the call is
made by the kernel itself when thread 1 claims its page at `uva_b` with the allocator
exhausted and `vm_evict_frame` picks frame 0. -/
theorem anon_swap_out_other_address_space :
    foreign_victim_state.cur = 1
    ∧ (foreign_victim_state.threads 0).spt = [0]
    ∧ (foreign_victim_state.threads 1).spt = [1]
    ∧ (foreign_victim_state.pages 0).payload = .anon BITMAP_ERROR
    ∧ (foreign_victim_state.pages 0).va = uva_a
    ∧ (foreign_victim_state.pages 0).frame = some 0
    ∧ (foreign_victim_state.frames 0).page = some 0
    ∧ foreign_victim_state.frame_table = [0]
    ∧ foreign_victim_state.swap_table = [false]
    ∧ foreign_victim_state.user_pool = []
    ∧ (translate foreign_victim_state 0 uva_a).isSome = true
    ∧ translate foreign_victim_state 1 uva_a = none
    ∧ value_of (anon_swap_out foreign_victim_state 0) = none
    ∧ value_of (vm_evict_frame foreign_victim_state) = none
    ∧ value_of (vm_claim_page foreign_victim_state uva_b) = none := by
  decide

/-- Claim C21, amended: for an anonymous page that is resident in the running address space
(it has a frame and its page-aligned address is mapped by the running thread), `anon_swap_out`
returns, and it returns true exactly when some bit of the swap bitmap is free.  On success the
slot recorded in the page is the lowest free index, the bitmap differs from the old one in
exactly that bit, which is in use, the page has no frame, its former frame has no page and its
address is no longer mapped by the running thread.  On failure the state, with it the bitmap,
the recorded slot and the residency, is unchanged. -/
theorem anon_swap_out_bookkeeping (s : VM) (pid f slot0 : Nat) (pte : Pte)
    (hpl : (s.pages pid).payload = .anon slot0)
    (hfr : (s.pages pid).frame = some f)
    (ha : pg_ofs (s.pages pid).va = 0)
    (hm : (cur_thread s).pml4 (s.pages pid).va = some pte)
    (hlen : s.swap_table.length ≤ BITMAP_ERROR) :
    ∃ r s1, anon_swap_out s pid = some (r, s1)
      ∧ (r = true ↔ false ∈ s.swap_table)
      ∧ (r = true →
          s.swap_table.indexOf false < s.swap_table.length
          ∧ s.swap_table.getD (s.swap_table.indexOf false) true = false
          ∧ (∀ j, j < s.swap_table.indexOf false → s.swap_table.getD j false = true)
          ∧ (s1.pages pid).payload = .anon (s.swap_table.indexOf false)
          ∧ s1.swap_table = s.swap_table.set (s.swap_table.indexOf false) true
          ∧ (s1.pages pid).frame = none
          ∧ (s1.frames f).page = none
          ∧ translate s1 s.cur (s.pages pid).va = none)
      ∧ (r = false → s1 = s) := by
  by_cases hfree : false ∈ s.swap_table
  · obtain ⟨b1, b2, b3, b4⟩ := bitmap_scan_and_flip_free s.swap_table hfree hlen
    obtain ⟨l1, l2, l3⟩ := indexOf_false_lowest s.swap_table hfree
    have hw := swap_write_loop_eq s (s.swap_table.indexOf false * SLOT_SIZE) (s.pages pid).va
      SLOT_SIZE 0 s.swap_disk
      (fun idx _ h2 => (copy_in_sector s (s.pages pid).va idx pte ha hm (by omega)).1)
    have hrun : ∃ s1, anon_swap_out s pid = some (true, s1)
        ∧ (s1.pages pid).payload = .anon (s.swap_table.indexOf false)
        ∧ s1.swap_table = s.swap_table.set (s.swap_table.indexOf false) true
        ∧ (s1.pages pid).frame = none
        ∧ (s1.frames f).page = none
        ∧ translate s1 s.cur (s.pages pid).va = none := by
      unfold anon_swap_out
      rw [hpl]
      simp only [b1, b2]
      rw [if_neg (by rw [← b1]; exact b4), hw]
      simp only [hfr]
      refine ⟨_, rfl, ?_, ?_, ?_, ?_, ?_⟩
      · simp [pml4_clear_page, set_thread, set_page, set_frame]
      · simp [pml4_clear_page, set_thread, set_page, set_frame]
      · simp [pml4_clear_page, set_thread, set_page, set_frame]
      · simp [pml4_clear_page, set_thread, set_page, set_frame]
      · simp [translate, pml4_clear_page, set_thread, set_page, set_frame]
    obtain ⟨s1, e, p1, p2, p3, p4, p5⟩ := hrun
    exact ⟨true, s1, e, by simp [hfree], fun _ => ⟨l1, l2, l3, p1, p2, p3, p4, p5⟩,
      fun h => by simp at h⟩
  · have hidx : ¬ s.swap_table.indexOf false < s.swap_table.length := by
      rw [List.indexOf_lt_length]
      exact hfree
    refine ⟨false, s, ?_, by simp [hfree], fun h => by simp at h, fun _ => rfl⟩
    unfold anon_swap_out
    rw [hpl]
    simp only [bitmap_scan_and_flip, hidx, if_false, if_true]

/-- Witness for C21: page 0 of `two_anon_state`, whose single swap slot is free. -/
theorem anon_swap_out_bookkeeping_witness :
    value_of (anon_swap_out two_anon_state 0) = some true
    ∧ ∃ r s1, anon_swap_out two_anon_state 0 = some (r, s1)
      ∧ (r = true ↔ false ∈ two_anon_state.swap_table)
      ∧ (r = true →
          two_anon_state.swap_table.indexOf false < two_anon_state.swap_table.length
          ∧ two_anon_state.swap_table.getD (two_anon_state.swap_table.indexOf false) true
              = false
          ∧ (∀ j, j < two_anon_state.swap_table.indexOf false →
              two_anon_state.swap_table.getD j false = true)
          ∧ (s1.pages 0).payload = .anon (two_anon_state.swap_table.indexOf false)
          ∧ s1.swap_table
              = two_anon_state.swap_table.set (two_anon_state.swap_table.indexOf false) true
          ∧ (s1.pages 0).frame = none
          ∧ (s1.frames 0).page = none
          ∧ translate s1 two_anon_state.cur (two_anon_state.pages 0).va = none)
      ∧ (r = false → s1 = two_anon_state) :=
  ⟨by decide,
    anon_swap_out_bookkeeping two_anon_state 0 0 BITMAP_ERROR
      { kva := kpage0, writable := true, accessed := false, dirty := false }
      (by decide) (by decide) (by decide) (by decide) (by decide)⟩

end Pintos
